import Mathlib

/-!
Shallow embedding of the CommonInventory registry subsystem
(`FCommonInventoryRegistryState`, `FCommonInventoryRedirects`,
`FCommonInventoryDefaultsPropagator`, and the binary save/load format of
`CommonInventoryRegistryTypes.cpp`), together with proofs of the spec's
claims about it.

Modelling conventions:
* `FName` / `FPrimaryAssetType` / `FSoftObjectPath` are interned tokens,
  modelled as `Nat` (`0` = `NAME_None` / invalid).
* `TMap` is an association list with insertion-order iteration; `Find`
  returns the first binding, `Emplace` replaces in place or appends.
* `TSet` is a list with membership-checked insertion.
* `FConstStructView` / payload blobs are `Payload` values; a view with
  `ptype = 0` is the invalid (null script struct) view.
* Machine integers hold small registry quantities (indices, counts); the
  crc32 state is kept `< 2^32` explicitly by the step function.
-/

namespace CommonInv

/-! ## Small list toolkit (association maps, sets, indexed map) -/

/-- First value bound to key `k` in an association list (TMap::Find). -/
def findA {α β : Type} [DecidableEq α] : List (α × β) → α → Option β
  | [], _ => none
  | p :: rest, k => if p.1 = k then some p.2 else findA rest k

/-- Keys of an association list. -/
def keysA {α β : Type} (m : List (α × β)) : List α := m.map Prod.fst

/-- TMap::Emplace — replace the first binding of the key, else append. -/
def emplaceA {α β : Type} [DecidableEq α] : List (α × β) → α → β → List (α × β)
  | [], k, v => [(k, v)]
  | p :: rest, k, v => if p.1 = k then (k, v) :: rest else p :: emplaceA rest k v

/-- TSet::Emplace — append the element unless already present. -/
def emplaceS {α : Type} [DecidableEq α] (s : List α) (a : α) : List α :=
  if a ∈ s then s else s ++ [a]

/-- TSet::Append — emplace every element of a list. -/
def appendS {α : Type} [DecidableEq α] (s : List α) (l : List α) : List α :=
  l.foldl emplaceS s

/-- Map with the element's position (`EnumerateRange`), starting at `i`. -/
def idxMap {α β : Type} (f : Nat → α → β) : Nat → List α → List β
  | _, [] => []
  | i, a :: as => f i a :: idxMap f (i + 1) as

/-- Insert an element at position `n` (TArray::Insert). -/
def insertAt {α : Type} : Nat → α → List α → List α
  | 0, a, l => a :: l
  | _ + 1, a, [] => [a]
  | n + 1, a, x :: l => x :: insertAt n a l

/-- Remove the element at position `n` (TArray::RemoveAt). -/
def eraseAt {α : Type} (n : Nat) (l : List α) : List α := l.eraseIdx n

@[simp] theorem findA_nil {α β : Type} [DecidableEq α] (k : α) :
    findA ([] : List (α × β)) k = none := rfl

@[simp] theorem findA_cons {α β : Type} [DecidableEq α] (p : α × β) (rest : List (α × β)) (k : α) :
    findA (p :: rest) k = if p.1 = k then some p.2 else findA rest k := rfl

@[simp] theorem idxMap_nil {α β : Type} (f : Nat → α → β) (i : Nat) :
    idxMap f i [] = [] := rfl

@[simp] theorem idxMap_cons {α β : Type} (f : Nat → α → β) (i : Nat) (a : α) (as : List α) :
    idxMap f i (a :: as) = f i a :: idxMap f (i + 1) as := rfl

@[simp] theorem idxMap_length {α β : Type} (f : Nat → α → β) :
    ∀ (l : List α) (i : Nat), (idxMap f i l).length = l.length := by
  intro l
  induction l with
  | nil => intro i; rfl
  | cons a as ih => intro i; simp [idxMap, ih]

theorem idxMap_getElem {α β : Type} (f : Nat → α → β) :
    ∀ (l : List α) (i j : Nat) (h : j < l.length)
      (h2 : j < (idxMap f i l).length),
      (idxMap f i l)[j] = f (i + j) l[j] := by
  intro l
  induction l with
  | nil => intro i j h h2; simp at h
  | cons a as ih =>
    intro i j h h2
    cases j with
    | zero => simp [idxMap]
    | succ j =>
      have hj : j < as.length := by simpa using Nat.lt_of_succ_lt_succ h
      have hj2 : j < (idxMap f (i + 1) as).length := by
        simpa [idxMap_length] using hj
      simpa [idxMap, Nat.add_assoc, Nat.add_comm 1 j] using ih (i + 1) j hj hj2

/-! ## Data model -/

/-- `FPrimaryAssetId`: pair of interned tokens (type, name). -/
structure PrimaryAssetId where
  ptype : Nat
  pname : Nat
deriving DecidableEq, Repr

/-- `FPrimaryAssetId::IsValid`. -/
def PrimaryAssetId.isValid (id : PrimaryAssetId) : Bool :=
  id.ptype ≠ 0 && id.pname ≠ 0

/-- Lexicographic ordering on identifiers, type first
(`operator<(FCommonInventoryRegistryRecord,...)`). -/
def idLt (a b : PrimaryAssetId) : Bool :=
  a.ptype < b.ptype || (a.ptype = b.ptype && a.pname < b.pname)

/-- A typed value blob (`FConstStructView` contents / an
`FInstancedStructContainer` entry). `ptype = 0` is the invalid view. -/
structure Payload where
  ptype : Nat
  fields : List Int
deriving DecidableEq, Repr

/-- The invalid (reset) view. -/
def Payload.invalid : Payload := ⟨0, []⟩

/-- `FConstStructView::IsValid`. -/
def Payload.isValid (p : Payload) : Bool := p.ptype ≠ 0

/-- `FCommonItemSharedData`: the identifier plus the remaining shared
fields, lumped into one opaque value. -/
structure SharedData where
  primaryAssetId : PrimaryAssetId
  data : Int
deriving DecidableEq, Repr

/-- `FCommonInventoryRegistryRecord`. `defaultPayload`/`customData` are the
cached views, `defaultPayloadIndex`/`customDataIndex` the container slots
(`none` = `INDEX_NONE`), `checksum = 0` means dirty. -/
structure RegistryRecord where
  sharedData : SharedData
  assetPath : Nat
  defaultPayload : Payload := Payload.invalid
  customData : Payload := Payload.invalid
  defaultPayloadIndex : Option Nat := none
  customDataIndex : Option Nat := none
  repIndex : Nat := 0
  checksum : Nat := 0
deriving DecidableEq, Repr

def RegistryRecord.id (r : RegistryRecord) : PrimaryAssetId :=
  r.sharedData.primaryAssetId

def RegistryRecord.ptypeOf (r : RegistryRecord) : Nat := r.id.ptype

/-- `operator<` on records: lexicographic on the identifier. -/
def recordLt (a b : RegistryRecord) : Bool := idLt a.id b.id

/-- `FArchetypeGroup`: contiguous `[begin, begin+offset)` run of records of
one type, with a memoized checksum. -/
structure ArchetypeGroup where
  primaryAssetType : Nat
  begin : Nat
  offset : Nat
  checksum : Nat
deriving DecidableEq, Repr

/-- `FCommonInventoryRegistryState`. -/
structure RegistryState where
  dataContainer : List RegistryRecord := []
  customDataContainer : List Payload := []
  archetypes : List ArchetypeGroup := []
  dataMap : List (PrimaryAssetId × Nat) := []
  replicationMap : List (Nat × Nat) := []
  repIndexEncodingBitsNum : Nat := 0
  checksum : Nat := 0
deriving DecidableEq, Repr

/-- Modify the element at position `j` in place (TArray element mutation
through a reference). -/
def modifyAt {α : Type} : Nat → (α → α) → List α → List α
  | _, _, [] => []
  | 0, f, x :: l => f x :: l
  | j + 1, f, x :: l => x :: modifyAt j f l

/-! ## Byte encodings

Modelled from the spec: the engine's reflection-driven serialization
(`SerializeItem` / `ExportScriptStruct`) is external engine code; the body
is "the serialized Registry State (record array + shared blob store)". We
use a concrete injective little-endian encoding whose atoms are bytes
(`< 256`): numbers are written base-255 with a `255` terminator. -/

/-- Base-255 little-endian digits of a number (each digit `< 255`),
fuelled so it evaluates structurally. -/
def digits255Aux : Nat → Nat → List Nat
  | 0, _ => []
  | _ + 1, 0 => []
  | fuel + 1, n => (n % 255) :: digits255Aux fuel (n / 255)

def digits255 (n : Nat) : List Nat := digits255Aux n n

/-- Encode a number: its base-255 digits followed by the `255` sentinel. -/
def encNat (n : Nat) : List Nat := digits255 n ++ [255]

/-- Decode a number encoded by `encNat`, returning the remaining bytes. -/
def decNat : List Nat → Option (Nat × List Nat)
  | [] => none
  | b :: rest =>
    if b = 255 then some (0, rest)
    else (decNat rest).map (fun p => (p.1 * 255 + b, p.2))

/-- Encode an integer: a sign byte then the magnitude. -/
def encInt (i : Int) : List Nat :=
  (if i < 0 then 1 else 0) :: encNat i.natAbs

/-- Decode an integer encoded by `encInt`. -/
def decInt : List Nat → Option (Int × List Nat)
  | [] => none
  | b :: rest =>
    (decNat rest).map (fun p => (if b = 1 then -(p.1 : Int) else (p.1 : Int), p.2))

/-- Encode a list: length prefix, then each element. -/
def encList {α : Type} (enc : α → List Nat) (l : List α) : List Nat :=
  encNat l.length ++ (l.map enc).flatten

/-- Decode exactly `n` elements. -/
def decListN {α : Type} (dec : List Nat → Option (α × List Nat)) :
    Nat → List Nat → Option (List α × List Nat)
  | 0, bs => some ([], bs)
  | n + 1, bs => (dec bs).bind (fun p =>
      (decListN dec n p.2).map (fun q => (p.1 :: q.1, q.2)))

/-- Decode a list encoded by `encList`. -/
def decList {α : Type} (dec : List Nat → Option (α × List Nat)) (bs : List Nat) :
    Option (List α × List Nat) :=
  (decNat bs).bind (fun p => decListN dec p.1 p.2)

/-- `INDEX_NONE`-style optional index, serialized as the int32 it is. -/
def idxToInt : Option Nat → Int
  | none => -1
  | some n => (n : Int)

def intToIdx (i : Int) : Option Nat :=
  if i < 0 then none else some i.toNat

def encIdx (o : Option Nat) : List Nat := encInt (idxToInt o)

def encPayload (p : Payload) : List Nat :=
  encNat p.ptype ++ encList encInt p.fields

def encSharedData (sd : SharedData) : List Nat :=
  encNat sd.primaryAssetId.ptype ++ encNat sd.primaryAssetId.pname ++ encInt sd.data

/-- The persisted (`UPROPERTY`) fields of a record: shared data, asset
path, and the two blob indices. Views, rep index and the cached checksum
are not serialized. -/
def encRecordPersist (r : RegistryRecord) : List Nat :=
  encSharedData r.sharedData ++ encNat r.assetPath ++
    encIdx r.defaultPayloadIndex ++ encIdx r.customDataIndex

/-- The canonical content export of a record, in the checksum field order
used by `FCommonInventoryRegistryRecord::GetChecksum`: shared data,
default payload, custom data, asset path. -/
def encRecordContent (r : RegistryRecord) : List Nat :=
  encSharedData r.sharedData ++ encPayload r.defaultPayload ++
    encPayload r.customData ++ encNat r.assetPath

/-! ## crc32

Modelled from the spec: `FCrc::MemCrc32`/`StrCrc32`/`TypeCrc32` are engine
code; we use the standard reflected crc32 (polynomial `0xEDB88320`),
bitwise form. The state is kept `< 2^32`. -/

def crcPoly : Nat := 0xEDB88320

/-- One bit round of the reflected crc32. -/
def crcRound (c : Nat) : Nat :=
  (c / 2) ^^^ (if c % 2 = 1 then crcPoly else 0)

/-- Eight rounds process one byte. -/
def crcRound8 (c : Nat) : Nat :=
  crcRound (crcRound (crcRound (crcRound (crcRound (crcRound (crcRound (crcRound c)))))))

/-- Absorb one byte into the crc state. -/
def crcStep (c b : Nat) : Nat := crcRound8 (c ^^^ (b % 256))

/-- Fold a byte list into the crc state. -/
def crcFold (c : Nat) (bs : List Nat) : Nat := bs.foldl crcStep c

/-- `FCrc::MemCrc32` over a byte list. -/
def crc32 (bs : List Nat) : Nat := crcFold 0xFFFFFFFF bs ^^^ 0xFFFFFFFF

/-- `FCrc::TypeCrc32 (value, prev)`: absorb a 32-bit value into a crc. -/
def typeCrc32 (v acc : Nat) : Nat :=
  crcFold acc [v % 256, v / 256 % 256, v / 65536 % 256, v / 16777216 % 256]

/-! ## Record / state checksums (`GetChecksum`) -/

instance : Inhabited RegistryRecord :=
  ⟨{ sharedData := ⟨⟨0, 0⟩, 0⟩, assetPath := 0 }⟩

/-- The content hash a dirty record recomputes
(`FCommonInventoryRegistryRecord::GetChecksum`, chained `StrCrc32` starting
from `0`). -/
def recordContentHash (r : RegistryRecord) : Nat :=
  crcFold 0 (encRecordContent r)

/-- The value `GetChecksum` returns for a record: the cache if valid
(non-zero), else the recomputed content hash. -/
def RegistryRecord.getChecksumVal (r : RegistryRecord) : Nat :=
  if r.checksum ≠ 0 then r.checksum else recordContentHash r

/-- Member records of an archetype group (`MakeArrayView(Data + Begin, Offset)`). -/
def groupSlice (s : RegistryState) (g : ArchetypeGroup) : List RegistryRecord :=
  (s.dataContainer.drop g.begin).take g.offset

/-- The value `GetChecksum` uses for one group: the cache if valid, else
the combine of its member records' checksums in array order. -/
def groupChecksumVal (s : RegistryState) (g : ArchetypeGroup) : Nat :=
  if g.checksum ≠ 0 then g.checksum
  else (groupSlice s g).foldl (fun acc r => typeCrc32 r.getChecksumVal acc) 0

/-- `FCommonInventoryRegistryState::GetChecksum`: the cache if valid, else
the combine of the group checksums in array order. -/
def RegistryState.getChecksum (s : RegistryState) : Nat :=
  if s.checksum ≠ 0 then s.checksum
  else s.archetypes.foldl (fun acc g => typeCrc32 (groupChecksumVal s g) acc) 0

/-! ## Registry state operations -/

/-- `ContainsRecord`. -/
def RegistryState.containsRecord (s : RegistryState) (id : PrimaryAssetId) : Bool :=
  (findA s.dataMap id).isSome

/-- `GetRecordPtr`. -/
def RegistryState.getRecordPtr (s : RegistryState) (id : PrimaryAssetId) :
    Option RegistryRecord :=
  (findA s.dataMap id).bind (fun i => s.dataContainer[i]?)

/-- `GetRecord` (checked access; the caller guarantees presence). -/
def RegistryState.getRecord (s : RegistryState) (id : PrimaryAssetId) : RegistryRecord :=
  (s.getRecordPtr id).getD default

/-- `GetRecordFromReplication`. -/
def RegistryState.getRecordFromReplication (s : RegistryState) (rep : Nat) :
    Option RegistryRecord :=
  (findA s.replicationMap rep).bind (fun i => s.dataContainer[i]?)

/-- `HasRecords`. -/
def RegistryState.hasRecords (s : RegistryState) : Bool := !s.dataContainer.isEmpty

/-- `GetRecordsNum` (no archetype filter). -/
def RegistryState.getRecordsNum (s : RegistryState) : Nat := s.dataContainer.length

/-- `FindArchetypeGroup` (`Algo::FindBy` — first match). -/
def RegistryState.findArchetypeGroup (s : RegistryState) (t : Nat) : Option ArchetypeGroup :=
  s.archetypes.find? (fun g => g.primaryAssetType = t)

/-- `FindArchetypeGroup(t)->Checksum = 0`: zero the cached checksum of the
first group of type `t` (no-op when absent). -/
def zeroGroupChecksum : List ArchetypeGroup → Nat → List ArchetypeGroup
  | [], _ => []
  | g :: gs, t =>
    if g.primaryAssetType = t then { g with checksum := 0 } :: gs
    else g :: zeroGroupChecksum gs t

/-- `FixupDependencies`' view refresh: the container entry at the slot if
the slot is a valid index, else the reset view. -/
def viewAt (cont : List Payload) : Option Nat → Payload
  | some i => (cont[i]?).getD Payload.invalid
  | none => Payload.invalid

/-- The records after `FixupDependencies`' linear pass: dense replication
indices and refreshed views. -/
def fixupRecords (cont : List Payload) (recs : List RegistryRecord) : List RegistryRecord :=
  idxMap (fun i r =>
    { r with
      repIndex := i + 1
      defaultPayload := viewAt cont r.defaultPayloadIndex
      customData := viewAt cont r.customDataIndex }) 0 recs

/-- The id map rebuilt by `FixupDependencies`. -/
def mkDataMap (recs : List RegistryRecord) : List (PrimaryAssetId × Nat) :=
  idxMap (fun i r => (r.id, i)) 0 recs

/-- The replication map rebuilt by `FixupDependencies`. -/
def mkRepMap (recs : List RegistryRecord) : List (Nat × Nat) :=
  idxMap (fun i _ => (i + 1, i)) 0 recs

/-- Archetype groups rebuilt by `FixupDependencies`' linear pass: a new
group starts whenever the type differs from the running group's type
(equivalently, maximal runs of equal consecutive types). -/
def buildGroups : List RegistryRecord → Nat → List ArchetypeGroup
  | [], _ => []
  | r :: rest, i =>
    match buildGroups rest (i + 1) with
    | [] => [⟨r.ptypeOf, i, 1, 0⟩]
    | g :: gs =>
      if g.primaryAssetType = r.ptypeOf then ⟨r.ptypeOf, i, g.offset + 1, 0⟩ :: gs
      else ⟨r.ptypeOf, i, 1, 0⟩ :: g :: gs

/-- Checksum migration: each rebuilt group takes the cached checksum of
the previous group with the same archetype type, when one exists. -/
def migrateGroups (old gs : List ArchetypeGroup) : List ArchetypeGroup :=
  gs.map (fun g =>
    match old.find? (fun og => og.primaryAssetType = g.primaryAssetType) with
    | some og => { g with checksum := og.checksum }
    | none => g)

/-- `FMath::CeilLogTwo`, fuelled so it evaluates structurally. -/
def log2CeilAux : Nat → Nat → Nat
  | 0, _ => 0
  | fuel + 1, n => if n ≤ 1 then 0 else log2CeilAux fuel ((n + 1) / 2) + 1

def ceilLogTwo (n : Nat) : Nat := log2CeilAux n n

/-- `FixupDependencies(bMigrateArchetypeChecksum)`. -/
def fixupDependencies (migrate : Bool) (s : RegistryState) : RegistryState :=
  let recs := fixupRecords s.customDataContainer s.dataContainer
  let gs := buildGroups recs 0
  { s with
    dataContainer := recs
    dataMap := mkDataMap recs
    replicationMap := mkRepMap recs
    repIndexEncodingBitsNum := ceilLogTwo (recs.length + 1)
    archetypes := if migrate then migrateGroups s.archetypes gs else gs
    checksum := 0 }

/-- One collection pass of `Reset`: for each record in order, if the
selected view is valid, record the running container length as its slot
and append the view; else clear the slot. -/
def collectViews (get : RegistryRecord → Payload)
    (put : RegistryRecord → Option Nat → RegistryRecord) :
    List RegistryRecord → List Payload → List RegistryRecord × List Payload
  | [], acc => ([], acc)
  | r :: rest, acc =>
    let step : RegistryRecord × List Payload :=
      if (get r).isValid then (put r (some acc.length), acc ++ [get r])
      else (put r none, acc)
    let tail := collectViews get put rest step.2
    (step.1 :: tail.1, tail.2)

/-- `DataContainer.Sort()`: sort by `operator<`. Any comparison sort
agrees on the duplicate-free inputs the registry contract allows; we model
it as insertion sort so it evaluates structurally. -/
def insertSorted (r : RegistryRecord) : List RegistryRecord → List RegistryRecord
  | [] => [r]
  | x :: l => if recordLt r x then r :: x :: l else x :: insertSorted r l

def sortRecords : List RegistryRecord → List RegistryRecord
  | [] => []
  | r :: l => insertSorted r (sortRecords l)

/-- `Reset(records)`: sort by id, rebuild the blob store (all default
payloads first, then all custom data), invalidate cached record checksums,
then `FixupDependencies(false)`. -/
def RegistryState.reset (input : List RegistryRecord) (s : RegistryState) : RegistryState :=
  let sorted := sortRecords input
  let pass1 := collectViews (fun r => r.defaultPayload)
    (fun r o => { r with defaultPayloadIndex := o }) sorted []
  let pass2 := collectViews (fun r => r.customData)
    (fun r o => { r with customDataIndex := o }) pass1.1 pass1.2
  let recs := pass2.1.map (fun r => { r with checksum := 0 })
  fixupDependencies false
    { s with dataContainer := recs, customDataContainer := pass2.2 }

/-- Index/view adjustment of one record slot after the container entry at
`i` was removed: slots above `i` shift down and re-resolve their view. -/
def shiftSlot (cont : List Payload) (i : Nat) :
    Option Nat → Payload → Option Nat × Payload
  | some k, view =>
    if i < k then (some (k - 1), (cont[k - 1]?).getD Payload.invalid)
    else (some k, view)
  | none, view => (none, view)

/-- `RemoveCustomData(i)`: erase the container entry and shift every
record slot above it. -/
def removeCustomData (i : Nat) (s : RegistryState) : RegistryState :=
  if i < s.customDataContainer.length then
    let cont := eraseAt i s.customDataContainer
    if i < cont.length then
      { s with
        customDataContainer := cont
        dataContainer := s.dataContainer.map (fun r =>
          let dp := shiftSlot cont i r.defaultPayloadIndex r.defaultPayload
          let cd := shiftSlot cont i r.customDataIndex r.customData
          { r with
            defaultPayloadIndex := dp.1, defaultPayload := dp.2
            customDataIndex := cd.1, customData := cd.2 }) }
    else { s with customDataContainer := cont }
  else s

/-- Write one payload slot (view + index) of a record. -/
def slotSet (isDp : Bool) (v : Payload) (i : Option Nat) (r : RegistryRecord) :
    RegistryRecord :=
  if isDp then { r with defaultPayload := v, defaultPayloadIndex := i }
  else { r with customData := v, customDataIndex := i }

/-- Write one payload slot index only (views are refreshed by the
following `FixupDependencies`). -/
def slotSetIdx (isDp : Bool) (i : Option Nat) (r : RegistryRecord) : RegistryRecord :=
  if isDp then { r with defaultPayloadIndex := i }
  else { r with customDataIndex := i }

/-- Tail of `RefreshCustomData`: bind the incoming view to a fresh
container slot, or clear the slot when the incoming view is invalid. -/
def appendSlot (isDp : Bool) (inView : Payload) (j : Nat) (s : RegistryState) :
    RegistryState :=
  if inView.isValid then
    { s with
      dataContainer := modifyAt j
        (slotSet isDp inView (some s.customDataContainer.length)) s.dataContainer
      customDataContainer := s.customDataContainer ++ [inView] }
  else
    { s with dataContainer := modifyAt j (slotSet isDp Payload.invalid none) s.dataContainer }

/-- `RefreshCustomData` of `AppendData`'s update path, acting on the
record at position `j`. -/
def refreshCustomData (isDp : Bool) (inView : Payload) (j : Nat) (s : RegistryState) :
    RegistryState :=
  let r := (s.dataContainer[j]?).getD default
  let exView := if isDp then r.defaultPayload else r.customData
  let exIdx := if isDp then r.defaultPayloadIndex else r.customDataIndex
  if exView.isValid ∧ exIdx.isSome then
    let i := exIdx.getD 0
    if exView.ptype = inView.ptype then
      -- CopyScriptStruct into the shared slot; the cached view aliases it.
      { s with
        customDataContainer := s.customDataContainer.set i inView
        dataContainer := modifyAt j (slotSet isDp inView (some i)) s.dataContainer }
    else
      appendSlot isDp inView j (removeCustomData i s)
  else
    appendSlot isDp inView j s

/-- `AppendCustomData` of `AppendData`'s insert path: append the incoming
view (when valid) and record its slot; views are refreshed by the
following fixup. -/
def appendNewSlot (isDp : Bool) (inView : Payload) (j : Nat) (s : RegistryState) :
    RegistryState :=
  if inView.isValid then
    { s with
      dataContainer := modifyAt j
        (slotSetIdx isDp (some s.customDataContainer.length)) s.dataContainer
      customDataContainer := s.customDataContainer ++ [inView] }
  else
    { s with dataContainer := modifyAt j (slotSetIdx isDp none) s.dataContainer }

/-- `Algo::LowerBound` on the sorted record array. -/
def lowerBoundIdx (recs : List RegistryRecord) (rec : RegistryRecord) : Nat :=
  (recs.takeWhile (fun r => recordLt r rec)).length

/-- Update path, step 1: copy shared data and asset path in place. -/
def updStep1 (rec : RegistryRecord) (j : Nat) (s : RegistryState) : RegistryState :=
  { s with
    dataContainer := modifyAt j
      (fun r => { r with sharedData := rec.sharedData, assetPath := rec.assetPath })
      s.dataContainer }

/-- Update path, final step: invalidate the record's checksum, its
archetype group's checksum, and the top-level checksum. -/
def updStep4 (j : Nat) (s : RegistryState) : RegistryState :=
  { s with
    archetypes := zeroGroupChecksum s.archetypes (((s.dataContainer[j]?).getD default).ptypeOf)
    dataContainer := modifyAt j (fun r => { r with checksum := 0 }) s.dataContainer
    checksum := 0 }

/-- The whole update branch of `AppendData`, with `j` the position of the
existing record. -/
def appendDataUpdate (rec : RegistryRecord) (j : Nat) (s : RegistryState) : RegistryState :=
  updStep4 j
    (refreshCustomData false rec.customData j
      (refreshCustomData true rec.defaultPayload j (updStep1 rec j s)))

/-- Insert path, step 1: insert the record at its sorted position,
invalidate a pre-existing group checksum of its type, and invalidate the
new record's cached checksum. -/
def insStep1 (rec : RegistryRecord) (idx : Nat) (s : RegistryState) : RegistryState :=
  { s with
    dataContainer := modifyAt idx (fun r => { r with checksum := 0 })
      (insertAt idx rec s.dataContainer)
    archetypes := zeroGroupChecksum s.archetypes rec.ptypeOf }

/-- The whole insert branch of `AppendData`. -/
def appendDataInsert (rec : RegistryRecord) (idx : Nat) (s : RegistryState) : RegistryState :=
  fixupDependencies true
    (appendNewSlot false rec.customData idx
      (appendNewSlot true rec.defaultPayload idx (insStep1 rec idx s)))

/-- `AppendData(record) → bool` (`true` = inserted, `false` = updated). -/
def RegistryState.appendData (rec : RegistryRecord) (s : RegistryState) :
    Bool × RegistryState :=
  if s.containsRecord rec.id then
    (false, appendDataUpdate rec ((findA s.dataMap rec.id).getD 0) s)
  else
    (true, appendDataInsert rec (lowerBoundIdx s.dataContainer rec) s)

/-- Remove path, step 1: free the default payload blob (when present). -/
def rdStep1 (r0 : RegistryRecord) (s : RegistryState) : RegistryState :=
  if r0.defaultPayload.isValid then removeCustomData (r0.defaultPayloadIndex.getD 0) s else s

/-- Remove path, step 2: free the custom data blob, re-reading the record
(its index may have shifted in step 1). -/
def rdStep2 (j : Nat) (s : RegistryState) : RegistryState :=
  if ((s.dataContainer[j]?).getD default).customData.isValid then
    removeCustomData ((((s.dataContainer[j]?).getD default).customDataIndex).getD 0) s
  else s

/-- Remove path, step 3: invalidate the archetype group's checksum. -/
def rdStep3 (j : Nat) (s : RegistryState) : RegistryState :=
  { s with
    archetypes := zeroGroupChecksum s.archetypes (((s.dataContainer[j]?).getD default).ptypeOf) }

/-- Remove path, final step: remove the record and fix up. -/
def rdStep4 (j : Nat) (s : RegistryState) : RegistryState :=
  fixupDependencies true
    { s with
      dataContainer := eraseAt
        ((findA s.dataMap (((s.dataContainer[j]?).getD default).id)).getD 0)
        s.dataContainer }

/-- `RemoveData(id) → bool`. -/
def RegistryState.removeData (id : PrimaryAssetId) (s : RegistryState) :
    Bool × RegistryState :=
  match s.getRecordPtr id with
  | none => (false, s)
  | some r0 =>
    (true, rdStep4 ((findA s.dataMap id).getD 0)
      (rdStep3 ((findA s.dataMap id).getD 0)
        (rdStep2 ((findA s.dataMap id).getD 0) (rdStep1 r0 s))))

/-! ## Record identity comparison and `DiffRecords` -/

/-- The `Identical` lambda of `HasIdenticalData`: same script struct, and
either an invalid view or equal struct contents. -/
def viewIdentical (a b : Payload) : Bool :=
  a.ptype = b.ptype && (a.ptype = 0 || a.fields = b.fields)

/-- `HasIdenticalData`: identical excluding metadata. -/
def RegistryRecord.hasIdenticalData (self other : RegistryRecord) : Bool :=
  self.sharedData = other.sharedData && self.assetPath = other.assetPath &&
    viewIdentical self.defaultPayload other.defaultPayload &&
    viewIdentical self.customData other.customData

/-- `HasIdenticalDataFast`: cached checksum comparison. -/
def RegistryRecord.hasIdenticalDataFast (self other : RegistryRecord) : Bool :=
  self.checksum = other.checksum

/-- `DiffRecords(base)`, with `s` as the receiver. -/
def RegistryState.diffRecords (s base : RegistryState) : RegistryState :=
  if s.hasRecords && base.hasRecords then
    let swapped := s.getRecordsNum > base.getRecordsNum
    let first := if swapped then base else s
    let second := if swapped then s else base
    let fast := s.checksum ≠ 0 && base.checksum ≠ 0
    let pending := first.dataContainer.filterMap (fun fr =>
      match second.getRecordPtr fr.id with
      | some sr =>
        if (if fast then sr.hasIdenticalDataFast fr else sr.hasIdenticalData fr)
        then some fr.id else none
      | none => none)
    if pending.length = s.getRecordsNum then s.reset []
    else pending.foldl (fun acc pid => (RegistryState.removeData pid acc).2) s
  else s

/-! ## Well-formedness of a registry state -/

/-- One record slot is consistent with the shared container: a bound slot
is in range and the cached view is that entry; an unbound slot has the
reset view. -/
def viewSlotOk (cont : List Payload) : Option Nat → Payload → Prop
  | some i, view => i < cont.length ∧ cont[i]? = some view
  | none, view => view = Payload.invalid

def recordSlotsOk (cont : List Payload) (r : RegistryRecord) : Prop :=
  viewSlotOk cont r.defaultPayloadIndex r.defaultPayload ∧
    viewSlotOk cont r.customDataIndex r.customData

/-- The container slots owned by one record. -/
def slotIdxs (r : RegistryRecord) : List Nat :=
  r.defaultPayloadIndex.toList ++ r.customDataIndex.toList

def ownedIdxs (recs : List RegistryRecord) : List Nat :=
  (recs.map slotIdxs).flatten

/-- Group data ignoring the cached checksum. -/
def stripGroups (gs : List ArchetypeGroup) : List (Nat × Nat × Nat) :=
  gs.map (fun g => (g.primaryAssetType, g.begin, g.offset))

/-- Strict sortedness of adjacent records (executable; equivalent to
pairwise sortedness since `recordLt` is transitive). -/
def sortedAdjB : List RegistryRecord → Bool
  | [] => true
  | [_] => true
  | a :: b :: rest => recordLt a b && sortedAdjB (b :: rest)

/-- Executable duplicate-freeness. -/
def nodupB {α : Type} [DecidableEq α] : List α → Bool
  | [] => true
  | a :: l => !(l.contains a) && nodupB l

/-- Well-formedness: the invariants `FixupDependencies` establishes and
the mutation operations preserve. -/
def WF (s : RegistryState) : Prop :=
  sortedAdjB s.dataContainer = true ∧
  s.dataMap = mkDataMap s.dataContainer ∧
  s.replicationMap = mkRepMap s.dataContainer ∧
  stripGroups s.archetypes = stripGroups (buildGroups s.dataContainer 0) ∧
  (∀ i (h : i < s.dataContainer.length), (s.dataContainer[i]).repIndex = i + 1) ∧
  (∀ r ∈ s.dataContainer, recordSlotsOk s.customDataContainer r) ∧
  (∀ p ∈ s.customDataContainer, p.isValid = true) ∧
  nodupB (ownedIdxs s.dataContainer) = true

instance (cont : List Payload) (o : Option Nat) (v : Payload) :
    Decidable (viewSlotOk cont o v) :=
  match o with
  | some _ => inferInstanceAs (Decidable (_ ∧ _))
  | none => inferInstanceAs (Decidable (_ = _))

instance (s : RegistryState) : Decidable (WF s) := by
  unfold WF recordSlotsOk
  infer_instance

/-! ## Toolkit lemmas -/

@[simp] theorem modifyAt_nil {α : Type} (j : Nat) (f : α → α) :
    modifyAt j f ([] : List α) = [] := by
  cases j <;> rfl

@[simp] theorem modifyAt_length {α : Type} (f : α → α) :
    ∀ (j : Nat) (l : List α), (modifyAt j f l).length = l.length := by
  intro j
  induction j with
  | zero => intro l; cases l <;> rfl
  | succ j ih => intro l; cases l with
    | nil => rfl
    | cons x l => simp [modifyAt, ih]

@[simp] theorem insertAt_length {α : Type} (a : α) :
    ∀ (n : Nat) (l : List α), (insertAt n a l).length = l.length + 1 := by
  intro n
  induction n with
  | zero => intro l; cases l <;> rfl
  | succ n ih => intro l; cases l with
    | nil => rfl
    | cons x l => simp [insertAt, ih]

theorem eraseAt_length {α : Type} (n : Nat) (l : List α) (h : n < l.length) :
    (eraseAt n l).length = l.length - 1 := by
  simp [eraseAt, List.length_eraseIdx, h]

/-! ## Replication index density (claim C4's invariant) and fixup lemmas -/

/-- Dense replication indices: record at position `i` carries `i + 1`, and
the replication map is defined exactly on `{1, …, N}`. -/
def RepInv (s : RegistryState) : Prop :=
  (∀ i (h : i < s.dataContainer.length), (s.dataContainer[i]).repIndex = i + 1) ∧
  (∀ k : Nat, (findA s.replicationMap k).isSome ↔ (1 ≤ k ∧ k ≤ s.dataContainer.length))

@[simp] theorem fixupRecords_length (cont : List Payload) (recs : List RegistryRecord) :
    (fixupRecords cont recs).length = recs.length := by
  simp [fixupRecords]

theorem fixupRecords_getElem (cont : List Payload) (recs : List RegistryRecord)
    (i : Nat) (h : i < recs.length) (h2 : i < (fixupRecords cont recs).length) :
    (fixupRecords cont recs)[i] =
      { recs[i] with
        repIndex := i + 1
        defaultPayload := viewAt cont recs[i].defaultPayloadIndex
        customData := viewAt cont recs[i].customDataIndex } := by
  simpa [fixupRecords] using idxMap_getElem _ recs 0 i h h2

theorem findA_mkRepMapAux (recs : List RegistryRecord) : ∀ (j k : Nat),
    findA (idxMap (fun i _ => (i + 1, i)) j recs) k =
      if j + 1 ≤ k ∧ k ≤ j + recs.length then some (k - 1) else none := by
  induction recs with
  | nil =>
    intro j k
    have h : ¬(j + 1 ≤ k ∧ k ≤ j + 0) := by omega
    simp only [idxMap_nil, findA_nil, List.length_nil, if_neg h]
  | cons r rest ih =>
    intro j k
    simp only [idxMap, findA_cons]
    by_cases h : j + 1 = k
    · subst h
      simp
    · rw [if_neg h, ih (j + 1) k]
      have : (j + 1 + 1 ≤ k ∧ k ≤ j + 1 + rest.length) ↔
          (j + 1 ≤ k ∧ k ≤ j + (rest.length + 1)) := by omega
      simp only [this, List.length_cons]

theorem repinv_fixup (b : Bool) (s : RegistryState) : RepInv (fixupDependencies b s) := by
  constructor
  · intro i h
    have h' : i < s.dataContainer.length := by
      simpa [fixupDependencies] using h
    simp [fixupDependencies, fixupRecords_getElem _ _ i h' h]
  · intro k
    simp only [fixupDependencies, mkRepMap, findA_mkRepMapAux, fixupRecords_length]
    split
    · simp; omega
    · simp; omega

/-! ### Skeleton frame: the update path never reindexes

`AppendData`'s update branch touches blob slots and checksums but leaves
the replication map, the record count and every record's `RepIndex`
untouched. -/

theorem modifyAt_getElemQ {α : Type} (f : α → α) :
    ∀ (j : Nat) (l : List α) (i : Nat),
      (modifyAt j f l)[i]? = if i = j then (l[j]?).map f else l[i]? := by
  intro j
  induction j with
  | zero =>
    intro l i
    cases l with
    | nil => simp
    | cons x l => cases i <;> simp [modifyAt]
  | succ j ih =>
    intro l i
    cases l with
    | nil => simp
    | cons x l =>
      cases i with
      | zero => simp [modifyAt]
      | succ i => simpa [modifyAt, Nat.succ_inj'] using ih l i

/-- `t` has the same replication skeleton as `s`: same replication map,
record count, and per-position replication indices. -/
def SameSkel (s t : RegistryState) : Prop :=
  t.replicationMap = s.replicationMap ∧
  t.dataContainer.length = s.dataContainer.length ∧
  ∀ i : Nat, (t.dataContainer[i]?).map RegistryRecord.repIndex =
    (s.dataContainer[i]?).map RegistryRecord.repIndex

theorem sameSkel_refl (s : RegistryState) : SameSkel s s :=
  ⟨rfl, rfl, fun _ => rfl⟩

theorem sameSkel_trans {s t u : RegistryState} (h1 : SameSkel s t) (h2 : SameSkel t u) :
    SameSkel s u := by
  obtain ⟨a1, b1, c1⟩ := h1
  obtain ⟨a2, b2, c2⟩ := h2
  exact ⟨a2.trans a1, b2.trans b1, fun i => (c2 i).trans (c1 i)⟩

theorem sameSkel_of_modify (s t : RegistryState) (j : Nat) (f : RegistryRecord → RegistryRecord)
    (hrm : t.replicationMap = s.replicationMap)
    (hdc : t.dataContainer = modifyAt j f s.dataContainer)
    (hf : ∀ r, (f r).repIndex = r.repIndex) : SameSkel s t := by
  refine ⟨hrm, by simp [hdc], fun i => ?_⟩
  rw [hdc, modifyAt_getElemQ]
  split
  · rename_i hij
    subst hij
    cases s.dataContainer[i]? <;> simp [hf]
  · rfl

theorem sameSkel_of_map (s t : RegistryState) (f : RegistryRecord → RegistryRecord)
    (hrm : t.replicationMap = s.replicationMap)
    (hdc : t.dataContainer = s.dataContainer.map f)
    (hf : ∀ r, (f r).repIndex = r.repIndex) : SameSkel s t := by
  refine ⟨hrm, by simp [hdc], fun i => ?_⟩
  rw [hdc, List.getElem?_map]
  cases s.dataContainer[i]? <;> simp [hf]

theorem sameSkel_removeCustomData (i : Nat) (s : RegistryState) :
    SameSkel s (removeCustomData i s) := by
  simp only [removeCustomData]
  split
  · split
    · exact sameSkel_of_map s _ _ rfl rfl (fun r => rfl)
    · exact sameSkel_refl _
  · exact sameSkel_refl _

theorem repIndex_slotSet (isDp : Bool) (v : Payload) (i : Option Nat) (r : RegistryRecord) :
    (slotSet isDp v i r).repIndex = r.repIndex := by
  unfold slotSet; split <;> rfl

theorem sameSkel_appendSlot (isDp : Bool) (v : Payload) (j : Nat) (s : RegistryState) :
    SameSkel s (appendSlot isDp v j s) := by
  unfold appendSlot
  split
  · exact sameSkel_of_modify s _ j _ rfl rfl (repIndex_slotSet _ _ _)
  · exact sameSkel_of_modify s _ j _ rfl rfl (repIndex_slotSet _ _ _)

theorem sameSkel_refreshCustomData (isDp : Bool) (v : Payload) (j : Nat) (s : RegistryState) :
    SameSkel s (refreshCustomData isDp v j s) := by
  simp only [refreshCustomData]
  repeat' split
  all_goals first
    | exact sameSkel_of_modify s _ _ _ rfl rfl (repIndex_slotSet _ _ _)
    | exact sameSkel_trans (sameSkel_removeCustomData _ _) (sameSkel_appendSlot _ _ _ _)
    | exact sameSkel_appendSlot _ _ _ _

theorem sameSkel_updStep1 (rec : RegistryRecord) (j : Nat) (s : RegistryState) :
    SameSkel s (updStep1 rec j s) :=
  sameSkel_of_modify s _ j _ rfl rfl (fun _ => rfl)

theorem sameSkel_updStep4 (j : Nat) (s : RegistryState) :
    SameSkel s (updStep4 j s) :=
  sameSkel_of_modify s _ j _ rfl rfl (fun _ => rfl)

/-- The update branch of `AppendData` preserves the replication skeleton. -/
theorem sameSkel_appendDataUpdate (rec : RegistryRecord) (j : Nat) (s : RegistryState) :
    SameSkel s (appendDataUpdate rec j s) := by
  unfold appendDataUpdate
  exact sameSkel_trans (sameSkel_updStep1 rec j s)
    (sameSkel_trans (sameSkel_refreshCustomData true rec.defaultPayload j _)
      (sameSkel_trans (sameSkel_refreshCustomData false rec.customData j _)
        (sameSkel_updStep4 j _)))

theorem repinv_of_wf {s : RegistryState} (h : WF s) : RepInv s := by
  obtain ⟨-, -, hrm, -, hreps, -⟩ := h
  refine ⟨hreps, fun k => ?_⟩
  rw [hrm]
  simp only [mkRepMap, findA_mkRepMapAux]
  split
  · simp; omega
  · simp; omega

theorem repinv_of_sameSkel {s t : RegistryState} (hsk : SameSkel s t) (h : RepInv s) :
    RepInv t := by
  obtain ⟨hrm, hlen, hget⟩ := hsk
  obtain ⟨h1, h2⟩ := h
  constructor
  · intro i hi
    have hi' : i < s.dataContainer.length := by omega
    have := hget i
    rw [List.getElem?_eq_getElem hi, List.getElem?_eq_getElem hi'] at this
    simp only [Option.map_some'] at this
    exact (Option.some.injEq _ _).mp this |>.trans (h1 i hi')
  · intro k
    rw [hrm, hlen]
    exact h2 k

/-- C4. After every successful mutation of the registry state (`Reset`,
`AppendData` insert or update, `RemoveData`), the replication index of the
record at 0-based position `i` equals `i + 1`, and the set of valid
replication indices is exactly `{1, …, N}` (no gaps), `N` the record
count. -/
theorem C4_replication_index_density :
    (∀ (input : List RegistryRecord) (s : RegistryState), RepInv (s.reset input)) ∧
    (∀ (rec : RegistryRecord) (s : RegistryState), WF s → RepInv (s.appendData rec).2) ∧
    (∀ (id : PrimaryAssetId) (s : RegistryState),
      (s.removeData id).1 = true → RepInv (s.removeData id).2) := by
  refine ⟨fun input s => ?_, fun rec s hwf => ?_, fun id s hrm => ?_⟩
  · simp only [RegistryState.reset]
    exact repinv_fixup false _
  · unfold RegistryState.appendData
    split
    · exact repinv_of_sameSkel (sameSkel_appendDataUpdate _ _ _) (repinv_of_wf hwf)
    · simp only [appendDataInsert]
      exact repinv_fixup true _
  · unfold RegistryState.removeData at hrm ⊢
    cases h : s.getRecordPtr id with
    | none => rw [h] at hrm; simp at hrm
    | some r0 =>
      simp only [rdStep4]
      exact repinv_fixup true _

/-! Sample data for concrete witnesses. -/

def sampleRecord (t n : Nat) (d : Int) (pl : Payload) : RegistryRecord :=
  { sharedData := ⟨⟨t, n⟩, d⟩, assetPath := n, defaultPayload := pl }

def sampleState : RegistryState :=
  RegistryState.reset
    [sampleRecord 1 1 0 ⟨7, [1, 2]⟩, sampleRecord 1 2 0 ⟨7, [3]⟩,
     sampleRecord 2 1 0 Payload.invalid] {}

/-- Witness for C4: the update branch applied to a concrete well-formed
state keeps the replication indices dense. -/
theorem C4_witness :
    WF sampleState ∧ RepInv ((sampleState.appendData (sampleRecord 1 1 5 ⟨7, [9, 9]⟩)).2) :=
  ⟨by decide, C4_replication_index_density.2.1 _ sampleState (by decide)⟩

/-! ## Claim C5: checksum locality -/

/-- The `(id, cached checksum)` projection of the record array. -/
def ckPairs (l : List RegistryRecord) : List (PrimaryAssetId × Nat) :=
  l.map (fun r => (r.id, r.checksum))

/-- Cached checksum of the stored record with the given id. -/
def recordCkById (s : RegistryState) (id : PrimaryAssetId) : Option Nat :=
  findA (ckPairs s.dataContainer) id

/-- Cached checksum of the archetype group of the given type. -/
def groupCk (s : RegistryState) (t : Nat) : Option Nat :=
  (s.findArchetypeGroup t).map (fun g => g.checksum)

theorem ckPairs_modifyAt (f : RegistryRecord → RegistryRecord)
    (g : PrimaryAssetId × Nat → PrimaryAssetId × Nat)
    (hg : ∀ r, ((f r).id, (f r).checksum) = g (r.id, r.checksum)) :
    ∀ (j : Nat) (l : List RegistryRecord),
      ckPairs (modifyAt j f l) = modifyAt j g (ckPairs l) := by
  intro j
  induction j with
  | zero =>
    intro l
    cases l with
    | nil => rfl
    | cons x l => simp [modifyAt, ckPairs, hg x]
  | succ j ih =>
    intro l
    cases l with
    | nil => rfl
    | cons x l => simp [modifyAt, ckPairs] at ih ⊢; exact ih l

theorem ckPairs_map_pres (f : RegistryRecord → RegistryRecord)
    (hf : ∀ r, (f r).id = r.id ∧ (f r).checksum = r.checksum) (l : List RegistryRecord) :
    ckPairs (l.map f) = ckPairs l := by
  induction l with
  | nil => rfl
  | cons x l ih => simp [ckPairs, (hf x).1, (hf x).2] at ih ⊢; exact ih

theorem ckPairs_insertAt (a : RegistryRecord) :
    ∀ (j : Nat) (l : List RegistryRecord),
      ckPairs (insertAt j a l) = insertAt j (a.id, a.checksum) (ckPairs l) := by
  intro j
  induction j with
  | zero => intro l; cases l <;> rfl
  | succ j ih =>
    intro l
    cases l with
    | nil => rfl
    | cons x l => simp [insertAt, ckPairs] at ih ⊢; exact ih l

theorem ckPairs_eraseAt :
    ∀ (j : Nat) (l : List RegistryRecord),
      ckPairs (eraseAt j l) = eraseAt j (ckPairs l) := by
  intro j
  induction j with
  | zero => intro l; cases l <;> rfl
  | succ j ih =>
    intro l
    cases l with
    | nil => rfl
    | cons x l =>
      simp only [eraseAt, List.eraseIdx] at ih ⊢
      simp [ckPairs] at ih ⊢
      exact ih l

theorem modifyAt_modifyAt {α : Type} (f g : α → α) :
    ∀ (j : Nat) (l : List α),
      modifyAt j g (modifyAt j f l) = modifyAt j (fun a => g (f a)) l := by
  intro j
  induction j with
  | zero => intro l; cases l <;> simp [modifyAt]
  | succ j ih =>
    intro l
    cases l with
    | nil => rfl
    | cons x l => simp [modifyAt]; exact ih l

theorem modifyAt_insertAt_same {α : Type} (g : α → α) (a : α) :
    ∀ (j : Nat) (l : List α), j ≤ l.length →
      modifyAt j g (insertAt j a l) = insertAt j (g a) l := by
  intro j
  induction j with
  | zero => intro l _; cases l <;> simp [insertAt, modifyAt]
  | succ j ih =>
    intro l hj
    cases l with
    | nil => simp at hj
    | cons x l =>
      simp [insertAt, modifyAt]
      exact ih l (by simpa using hj)

theorem modifyAt_fix {α : Type} (g : α → α) :
    ∀ (j : Nat) (l : List α) (p : α), l[j]? = some p → g p = p → modifyAt j g l = l := by
  intro j
  induction j with
  | zero =>
    intro l p hp hg
    cases l with
    | nil => simp at hp
    | cons x l =>
      simp at hp
      subst hp
      simp [modifyAt, hg]
  | succ j ih =>
    intro l p hp hg
    cases l with
    | nil => simp at hp
    | cons x l =>
      simp at hp
      simp [modifyAt, ih l p hp hg]

theorem findA_isSome_iff {α β : Type} [DecidableEq α] (m : List (α × β)) (k : α) :
    (findA m k).isSome ↔ k ∈ keysA m := by
  induction m with
  | nil => simp [keysA]
  | cons p rest ih =>
    by_cases h : p.1 = k
    · simp [findA, h, keysA]
    · have h' : ¬ k = p.1 := fun hk => h hk.symm
      simp [findA, h, h', keysA] at ih ⊢
      exact ih

theorem findA_eq_none_iff {α β : Type} [DecidableEq α] (m : List (α × β)) (k : α) :
    findA m k = none ↔ k ∉ keysA m := by
  rw [← findA_isSome_iff]
  cases findA m k <;> simp

theorem findA_modifyAt_ne {α β : Type} [DecidableEq α] (g : α × β → α × β)
    (hg : ∀ p, (g p).1 = p.1) :
    ∀ (j : Nat) (m : List (α × β)) (k : α),
      (∀ p, m[j]? = some p → p.1 ≠ k) →
      findA (modifyAt j g m) k = findA m k := by
  intro j
  induction j with
  | zero =>
    intro m k hk
    cases m with
    | nil => rfl
    | cons q rest =>
      have hq : q.1 ≠ k := hk q (by simp)
      simp [modifyAt, findA, hg, hq]
  | succ j ih =>
    intro m k hk
    cases m with
    | nil => rfl
    | cons q rest =>
      have := ih rest k (fun p hp => hk p (by simpa using hp))
      simp [modifyAt, findA, this]

/-- Keys pairwise distinct. -/
def KeysNodup {α β : Type} (m : List (α × β)) : Prop :=
  m.Pairwise (fun a b => a.1 ≠ b.1)

theorem findA_modifyAt_eq {α β : Type} [DecidableEq α] (g : α × β → α × β)
    (hg : ∀ p, (g p).1 = p.1) :
    ∀ (j : Nat) (m : List (α × β)) (p : α × β), KeysNodup m → m[j]? = some p →
      findA (modifyAt j g m) p.1 = some (g p).2 := by
  intro j
  induction j with
  | zero =>
    intro m p _ hp
    cases m with
    | nil => simp at hp
    | cons q rest =>
      simp at hp
      subst hp
      simp [modifyAt, findA, hg]
  | succ j ih =>
    intro m p hnd hp
    cases m with
    | nil => simp at hp
    | cons q rest =>
      simp at hp
      have hmem : p ∈ rest := by
        have := List.getElem?_eq_some_iff.mp hp
        obtain ⟨h1, h2⟩ := this
        exact h2 ▸ List.getElem_mem h1
      have hqp : q.1 ≠ p.1 := (List.pairwise_cons.mp hnd).1 p hmem
      have := ih rest p (List.pairwise_cons.mp hnd).2 hp
      simp [modifyAt, findA, this, hqp]

theorem findA_insertAt_ne {α β : Type} [DecidableEq α] (a : α × β) (k : α) (h : a.1 ≠ k) :
    ∀ (j : Nat) (m : List (α × β)), findA (insertAt j a m) k = findA m k := by
  intro j
  induction j with
  | zero => intro m; cases m <;> simp [insertAt, findA, h]
  | succ j ih =>
    intro m
    cases m with
    | nil => simp [insertAt, findA, h]
    | cons q rest => simp [insertAt, findA, ih]

theorem findA_insertAt_self {α β : Type} [DecidableEq α] (k : α) (v : β) :
    ∀ (j : Nat) (m : List (α × β)), k ∉ keysA m →
      findA (insertAt j (k, v) m) k = some v := by
  intro j
  induction j with
  | zero => intro m _; cases m <;> simp [insertAt, findA]
  | succ j ih =>
    intro m hm
    cases m with
    | nil => simp [insertAt, findA]
    | cons q rest =>
      have hq : q.1 ≠ k := by
        intro hqk
        exact hm (by simp [keysA, hqk])
      have : k ∉ keysA rest := fun hk => hm (by simp [keysA]; right; simpa [keysA] using hk)
      simp [insertAt, findA, hq, ih rest this]

theorem findA_eraseAt_ne {α β : Type} [DecidableEq α] :
    ∀ (j : Nat) (m : List (α × β)) (k : α),
      (∀ p, m[j]? = some p → p.1 ≠ k) →
      findA (eraseAt j m) k = findA m k := by
  intro j
  induction j with
  | zero =>
    intro m k hk
    cases m with
    | nil => rfl
    | cons q rest =>
      have hq : q.1 ≠ k := hk q (by simp)
      simp [eraseAt, List.eraseIdx, findA, hq]
  | succ j ih =>
    intro m k hk
    cases m with
    | nil => rfl
    | cons q rest =>
      have := ih rest k (fun p hp => hk p (by simpa using hp))
      simp only [eraseAt, List.eraseIdx] at this ⊢
      simp [findA, this]

/-! ### Archetype group lookup lemmas -/

theorem find?_zeroGroupChecksum_ne (t tp : Nat) (h : t ≠ tp) :
    ∀ gs : List ArchetypeGroup,
      (zeroGroupChecksum gs tp).find? (fun g => g.primaryAssetType = t) =
        gs.find? (fun g => g.primaryAssetType = t) := by
  intro gs
  induction gs with
  | nil => rfl
  | cons g rest ih =>
    simp only [zeroGroupChecksum]
    by_cases hg : g.primaryAssetType = tp
    · have hgt : ¬ g.primaryAssetType = t := by rw [hg]; exact fun ht => h ht.symm
      rw [if_pos hg, List.find?_cons_of_neg _ (by simpa using hgt),
        List.find?_cons_of_neg _ (by simpa using hgt)]
    · by_cases hgt : g.primaryAssetType = t
      · rw [if_neg hg, List.find?_cons_of_pos _ (by simpa using hgt),
          List.find?_cons_of_pos _ (by simpa using hgt)]
      · rw [if_neg hg, List.find?_cons_of_neg _ (by simpa using hgt),
          List.find?_cons_of_neg _ (by simpa using hgt), ih]

theorem find?_zeroGroupChecksum_self (tp : Nat) :
    ∀ (gs : List ArchetypeGroup) (g : ArchetypeGroup),
      gs.find? (fun g => g.primaryAssetType = tp) = some g →
      (zeroGroupChecksum gs tp).find? (fun g => g.primaryAssetType = tp) =
        some { g with checksum := 0 } := by
  intro gs
  induction gs with
  | nil => intro g h; simp at h
  | cons q rest ih =>
    intro g h
    by_cases hq : q.primaryAssetType = tp
    · rw [List.find?_cons_of_pos _ (by simpa using hq)] at h
      have hqg : q = g := by simpa using h
      subst hqg
      simp [zeroGroupChecksum, hq, List.find?]
    · rw [List.find?_cons_of_neg _ (by simpa using hq)] at h
      simp [zeroGroupChecksum, hq, List.find?, ih g h]

theorem find?_map_typePres (F : ArchetypeGroup → ArchetypeGroup)
    (hF : ∀ g, (F g).primaryAssetType = g.primaryAssetType) (t : Nat) :
    ∀ gs : List ArchetypeGroup,
      (gs.map F).find? (fun g => g.primaryAssetType = t) =
        (gs.find? (fun g => g.primaryAssetType = t)).map F := by
  intro gs
  induction gs with
  | nil => rfl
  | cons g rest ih =>
    by_cases hg : g.primaryAssetType = t
    · simp [List.find?, hF, hg]
    · simp [List.find?, hF, hg, ih]

theorem buildGroups_nil_iff (recs : List RegistryRecord) (i : Nat) :
    buildGroups recs i = [] ↔ recs = [] := by
  cases recs with
  | nil => simp [buildGroups]
  | cons r rest =>
    simp only [buildGroups]
    constructor
    · intro h
      cases hb : buildGroups rest (i + 1) with
      | nil => rw [hb] at h; simp at h
      | cons g gs =>
        rw [hb] at h
        by_cases hg : g.primaryAssetType = r.ptypeOf <;> simp [hg] at h
    · intro h; simp at h

theorem buildGroups_types (t : Nat) :
    ∀ (recs : List RegistryRecord) (i : Nat),
      (∃ g ∈ buildGroups recs i, g.primaryAssetType = t) ↔ ∃ r ∈ recs, r.ptypeOf = t := by
  intro recs
  induction recs with
  | nil => intro i; simp [buildGroups]
  | cons r rest ih =>
    intro i
    simp only [buildGroups]
    cases hb : buildGroups rest (i + 1) with
    | nil =>
      have hrest : rest = [] := (buildGroups_nil_iff rest (i + 1)).mp hb
      subst hrest
      simp [eq_comm]
    | cons g gs =>
      have ihr := ih (i + 1)
      rw [hb] at ihr
      by_cases hg : g.primaryAssetType = r.ptypeOf
      · simp only [if_pos hg]
        simp only [List.mem_cons, exists_eq_or_imp] at ihr ⊢
        constructor
        · rintro (h | h)
          · exact Or.inl (by simpa [eq_comm] using h)
          · exact Or.inr (ihr.mp (Or.inr h))
        · rintro (h | h)
          · exact Or.inl (by simpa [eq_comm] using h)
          · rcases ihr.mpr h with h' | h'
            · rw [hg] at h'; exact Or.inl h'
            · exact Or.inr h'
      · simp only [if_neg hg]
        simp only [List.mem_cons, exists_eq_or_imp] at ihr ⊢
        constructor
        · rintro (h | h)
          · exact Or.inl (by simpa [eq_comm] using h)
          · exact Or.inr (ihr.mp h)
        · rintro (h | h)
          · exact Or.inl (by simpa [eq_comm] using h)
          · exact Or.inr (ihr.mpr h)

theorem stripGroups_types (gs gs' : List ArchetypeGroup)
    (h : stripGroups gs = stripGroups gs') :
    gs.map (fun g => g.primaryAssetType) = gs'.map (fun g => g.primaryAssetType) := by
  have := congrArg (List.map Prod.fst) h
  simpa [stripGroups, Function.comp] using this

/-! ### Ordering facts -/

theorem idLt_iff (a b : PrimaryAssetId) :
    idLt a b = true ↔ (a.ptype < b.ptype ∨ (a.ptype = b.ptype ∧ a.pname < b.pname)) := by
  simp [idLt]

theorem recordLt_trans {a b c : RegistryRecord}
    (h1 : recordLt a b = true) (h2 : recordLt b c = true) : recordLt a c = true := by
  unfold recordLt at *
  rw [idLt_iff] at *
  omega

theorem recordLt_id_ne {a b : RegistryRecord} (h : recordLt a b = true) : a.id ≠ b.id := by
  unfold recordLt at h
  rw [idLt_iff] at h
  intro he
  rw [he] at h
  omega

theorem sortedAdjB_pairwise :
    ∀ l : List RegistryRecord, sortedAdjB l = true →
      l.Pairwise (fun a b => recordLt a b = true) := by
  intro l
  induction l with
  | nil => intro _; exact List.Pairwise.nil
  | cons a rest ih =>
    cases rest with
    | nil => intro _; simp
    | cons b rest2 =>
      intro h
      simp only [sortedAdjB, Bool.and_eq_true] at h
      have hp := ih h.2
      refine List.pairwise_cons.mpr ⟨?_, hp⟩
      intro x hx
      rcases List.mem_cons.mp hx with rfl | hx2
      · exact h.1
      · exact recordLt_trans h.1 ((List.pairwise_cons.mp hp).1 x hx2)

theorem keysNodup_ckPairs {l : List RegistryRecord} (h : sortedAdjB l = true) :
    KeysNodup (ckPairs l) := by
  have hp := sortedAdjB_pairwise l h
  unfold KeysNodup ckPairs
  rw [List.pairwise_map]
  exact hp.imp (fun hab => recordLt_id_ne hab)

/-! ### Field-preservation lemmas along the mutation paths -/

@[simp] theorem removeCustomData_archetypes (i : Nat) (s : RegistryState) :
    (removeCustomData i s).archetypes = s.archetypes := by
  simp only [removeCustomData]
  repeat' split
  all_goals rfl

@[simp] theorem removeCustomData_dataMap (i : Nat) (s : RegistryState) :
    (removeCustomData i s).dataMap = s.dataMap := by
  simp only [removeCustomData]
  repeat' split
  all_goals rfl

theorem ckPairs_removeCustomData (i : Nat) (s : RegistryState) :
    ckPairs (removeCustomData i s).dataContainer = ckPairs s.dataContainer := by
  simp only [removeCustomData]
  repeat' split
  · dsimp only
    apply ckPairs_map_pres
    intro r
    exact ⟨rfl, rfl⟩
  all_goals rfl

theorem id_slotSet (isDp : Bool) (v : Payload) (i : Option Nat) (r : RegistryRecord) :
    (slotSet isDp v i r).id = r.id ∧ (slotSet isDp v i r).checksum = r.checksum := by
  unfold slotSet
  split <;> exact ⟨rfl, rfl⟩

theorem id_slotSetIdx (isDp : Bool) (i : Option Nat) (r : RegistryRecord) :
    (slotSetIdx isDp i r).id = r.id ∧ (slotSetIdx isDp i r).checksum = r.checksum := by
  unfold slotSetIdx
  split <;> exact ⟨rfl, rfl⟩

theorem modifyAt_id {α : Type} : ∀ (j : Nat) (l : List α), modifyAt j (fun a => a) l = l := by
  intro j
  induction j with
  | zero => intro l; cases l <;> rfl
  | succ j ih => intro l; cases l with
    | nil => rfl
    | cons x l => simp [modifyAt, ih]

theorem ckPairs_modifyAt_pres (f : RegistryRecord → RegistryRecord)
    (hf : ∀ r, (f r).id = r.id ∧ (f r).checksum = r.checksum) (j : Nat)
    (l : List RegistryRecord) : ckPairs (modifyAt j f l) = ckPairs l := by
  rw [ckPairs_modifyAt f (fun p => p) (fun r => by simp [(hf r).1, (hf r).2]), modifyAt_id]

@[simp] theorem appendSlot_archetypes (isDp : Bool) (v : Payload) (j : Nat) (s : RegistryState) :
    (appendSlot isDp v j s).archetypes = s.archetypes := by
  unfold appendSlot; split <;> rfl

@[simp] theorem appendSlot_dataMap (isDp : Bool) (v : Payload) (j : Nat) (s : RegistryState) :
    (appendSlot isDp v j s).dataMap = s.dataMap := by
  unfold appendSlot; split <;> rfl

theorem ckPairs_appendSlot (isDp : Bool) (v : Payload) (j : Nat) (s : RegistryState) :
    ckPairs (appendSlot isDp v j s).dataContainer = ckPairs s.dataContainer := by
  unfold appendSlot
  split <;> exact ckPairs_modifyAt_pres _ (id_slotSet isDp _ _) j _

@[simp] theorem refreshCustomData_archetypes (isDp : Bool) (v : Payload) (j : Nat)
    (s : RegistryState) : (refreshCustomData isDp v j s).archetypes = s.archetypes := by
  simp only [refreshCustomData]
  repeat' split
  all_goals simp

@[simp] theorem refreshCustomData_dataMap (isDp : Bool) (v : Payload) (j : Nat)
    (s : RegistryState) : (refreshCustomData isDp v j s).dataMap = s.dataMap := by
  simp only [refreshCustomData]
  repeat' split
  all_goals simp

theorem ckPairs_refreshCustomData (isDp : Bool) (v : Payload) (j : Nat) (s : RegistryState) :
    ckPairs (refreshCustomData isDp v j s).dataContainer = ckPairs s.dataContainer := by
  simp only [refreshCustomData]
  repeat' split
  all_goals first
    | exact ckPairs_modifyAt_pres _ (id_slotSet _ _ _) j _
    | exact (ckPairs_appendSlot _ _ _ _).trans (ckPairs_removeCustomData _ _)
    | exact ckPairs_appendSlot _ _ _ _

@[simp] theorem appendNewSlot_archetypes (isDp : Bool) (v : Payload) (j : Nat)
    (s : RegistryState) : (appendNewSlot isDp v j s).archetypes = s.archetypes := by
  unfold appendNewSlot; split <;> rfl

@[simp] theorem appendNewSlot_dataMap (isDp : Bool) (v : Payload) (j : Nat)
    (s : RegistryState) : (appendNewSlot isDp v j s).dataMap = s.dataMap := by
  unfold appendNewSlot; split <;> rfl

theorem ckPairs_appendNewSlot (isDp : Bool) (v : Payload) (j : Nat) (s : RegistryState) :
    ckPairs (appendNewSlot isDp v j s).dataContainer = ckPairs s.dataContainer := by
  unfold appendNewSlot
  split <;> exact ckPairs_modifyAt_pres _ (id_slotSetIdx isDp _) j _

theorem ckPairs_idxMap_pres (f : Nat → RegistryRecord → RegistryRecord)
    (hf : ∀ i r, (f i r).id = r.id ∧ (f i r).checksum = r.checksum) :
    ∀ (l : List RegistryRecord) (n : Nat), ckPairs (idxMap f n l) = ckPairs l := by
  intro l
  induction l with
  | nil => intro n; rfl
  | cons r rest ih =>
    intro n
    simp [idxMap, ckPairs, (hf n r).1, (hf n r).2] at ih ⊢
    exact ih (n + 1)

theorem ckPairs_fixupRecords (cont : List Payload) (recs : List RegistryRecord) :
    ckPairs (fixupRecords cont recs) = ckPairs recs := by
  unfold fixupRecords
  apply ckPairs_idxMap_pres
  intro i r
  exact ⟨rfl, rfl⟩

theorem keysA_mkDataMap :
    ∀ (recs : List RegistryRecord) (n : Nat),
      keysA (idxMap (fun i r => (r.id, i)) n recs) = recs.map RegistryRecord.id := by
  intro recs
  induction recs with
  | nil => intro n; rfl
  | cons r rest ih =>
    intro n
    simp [idxMap, keysA] at ih ⊢
    exact ih (n + 1)

theorem keysA_ckPairs (recs : List RegistryRecord) :
    keysA (ckPairs recs) = recs.map RegistryRecord.id := by
  simp [keysA, ckPairs, Function.comp]

theorem findA_mkDataMapAux :
    ∀ (recs : List RegistryRecord) (n : Nat) (id : PrimaryAssetId) (j : Nat),
      findA (idxMap (fun i r => (r.id, i)) n recs) id = some j →
      n ≤ j ∧ j - n < recs.length ∧ (recs[j - n]?).map RegistryRecord.id = some id := by
  intro recs
  induction recs with
  | nil => intro n id j h; simp at h
  | cons r rest ih =>
    intro n id j h
    simp only [idxMap, findA_cons] at h
    by_cases hr : r.id = id
    · rw [if_pos hr] at h
      have hj : n = j := by simpa using h
      subst hj
      simp [hr]
    · rw [if_neg hr] at h
      obtain ⟨h1, h2, h3⟩ := ih (n + 1) id j h
      refine ⟨by omega, by simp; omega, ?_⟩
      have : j - n = (j - (n + 1)) + 1 := by omega
      rw [this]
      simpa using h3

/-- Position lookup for a contained id: in a well-formed state, the data
map sends `id` to an in-range position holding a record with that id. -/
theorem wf_lookup {s : RegistryState} (hwf : WF s) {id : PrimaryAssetId}
    (hc : s.containsRecord id = true) :
    ∃ j, findA s.dataMap id = some j ∧ j < s.dataContainer.length ∧
      (s.dataContainer[j]?).map RegistryRecord.id = some id := by
  obtain ⟨-, hdm, -⟩ := hwf
  unfold RegistryState.containsRecord at hc
  cases hfa : findA s.dataMap id with
  | none => rw [hfa] at hc; simp at hc
  | some j =>
    refine ⟨j, rfl, ?_⟩
    rw [hdm] at hfa
    have := findA_mkDataMapAux s.dataContainer 0 id j hfa
    simpa using this

theorem modifyAt_congr_at {α : Type} (f g : α → α) :
    ∀ (j : Nat) (l : List α) (p : α), l[j]? = some p → f p = g p →
      modifyAt j f l = modifyAt j g l := by
  intro j
  induction j with
  | zero =>
    intro l p hp hfg
    cases l with
    | nil => simp at hp
    | cons x l => simp at hp; subst hp; simp [modifyAt, hfg]
  | succ j ih =>
    intro l p hp hfg
    cases l with
    | nil => simp at hp
    | cons x l =>
      simp at hp
      simp [modifyAt, ih l p hp hfg]

theorem insertAt_mem {α : Type} (x a : α) :
    ∀ (j : Nat) (l : List α), (a ∈ insertAt j x l ↔ a = x ∨ a ∈ l) := by
  intro j
  induction j with
  | zero => intro l; cases l <;> simp [insertAt]
  | succ j ih =>
    intro l
    cases l with
    | nil => simp [insertAt]
    | cons y l =>
      simp [insertAt, ih l]
      tauto

theorem mem_eraseAt {α : Type} {a : α} {j : Nat} {l : List α} (h : a ∈ eraseAt j l) :
    a ∈ l :=
  (List.eraseIdx_sublist l j).mem h

theorem mem_eraseAt_of_ne {α : Type} :
    ∀ (j : Nat) (l : List α) (a : α), a ∈ l →
      (∀ h : j < l.length, l[j] ≠ a) → a ∈ eraseAt j l := by
  intro j
  induction j with
  | zero =>
    intro l a ha hne
    cases l with
    | nil => simp at ha
    | cons x l =>
      rcases List.mem_cons.mp ha with rfl | h2
      · exact ((hne (by simp)) rfl).elim
      · simpa [eraseAt, List.eraseIdx] using h2
  | succ j ih =>
    intro l a ha hne
    cases l with
    | nil => simp at ha
    | cons x l =>
      rcases List.mem_cons.mp ha with rfl | h2
      · simp [eraseAt, List.eraseIdx]
      · have := ih l a h2 (fun h => by simpa using hne (by simpa using Nat.succ_lt_succ h))
        simp only [eraseAt, List.eraseIdx] at this ⊢
        simp [this]

theorem lowerBoundIdx_le (recs : List RegistryRecord) (rec : RegistryRecord) :
    lowerBoundIdx recs rec ≤ recs.length := by
  unfold lowerBoundIdx
  exact List.Sublist.length_le (List.takeWhile_sublist _)

theorem find?_type_isSome_iff (gs : List ArchetypeGroup) (t : Nat) :
    (gs.find? (fun g => g.primaryAssetType = t)).isSome = true ↔
      t ∈ gs.map (fun g => g.primaryAssetType) := by
  rw [List.find?_isSome]
  constructor
  · rintro ⟨g, hg, hp⟩
    exact List.mem_map.mpr ⟨g, hg, by simpa using hp⟩
  · intro ht
    obtain ⟨g, hg, hp⟩ := List.mem_map.mp ht
    exact ⟨g, hg, by simpa using hp⟩

theorem exists_ptype_iff_ckPairs (l : List RegistryRecord) (t : Nat) :
    (∃ r ∈ l, r.ptypeOf = t) ↔ ∃ p ∈ ckPairs l, p.1.ptype = t := by
  unfold ckPairs
  constructor
  · rintro ⟨r, hr, ht⟩
    exact ⟨(r.id, r.checksum), List.mem_map.mpr ⟨r, hr, rfl⟩, ht⟩
  · rintro ⟨p, hp, ht⟩
    obtain ⟨r, hr, he⟩ := List.mem_map.mp hp
    exact ⟨r, hr, by rw [← he] at ht; exact ht⟩

/-- In a well-formed state, an archetype group of type `t` exists iff a
record of type `t` does. -/
theorem wf_group_present {s : RegistryState} (hwf : WF s) (t : Nat) :
    ((s.archetypes.find? (fun g => g.primaryAssetType = t)).isSome = true) ↔
      ∃ r ∈ s.dataContainer, r.ptypeOf = t := by
  obtain ⟨-, -, -, hgr, -⟩ := hwf
  rw [find?_type_isSome_iff, stripGroups_types _ _ hgr]
  constructor
  · intro ht
    obtain ⟨g, hg, hp⟩ := List.mem_map.mp ht
    exact (buildGroups_types t s.dataContainer 0).mp ⟨g, hg, hp⟩
  · intro hr
    obtain ⟨g, hg, hp⟩ := (buildGroups_types t s.dataContainer 0).mpr hr
    exact List.mem_map.mpr ⟨g, hg, hp⟩

theorem zeroGroupChecksum_of_none (tp : Nat) :
    ∀ gs : List ArchetypeGroup,
      gs.find? (fun g => g.primaryAssetType = tp) = none → zeroGroupChecksum gs tp = gs := by
  intro gs
  induction gs with
  | nil => intro _; rfl
  | cons g rest ih =>
    intro h
    by_cases hg : g.primaryAssetType = tp
    · rw [List.find?_cons_of_pos _ (by simpa using hg)] at h
      simp at h
    · rw [List.find?_cons_of_neg _ (by simpa using hg)] at h
      simp [zeroGroupChecksum, hg, ih h]

theorem buildGroups_ck_zero :
    ∀ (recs : List RegistryRecord) (i : Nat) (g : ArchetypeGroup),
      g ∈ buildGroups recs i → g.checksum = 0 := by
  intro recs
  induction recs with
  | nil => intro i g h; simp [buildGroups] at h
  | cons r rest ih =>
    intro i g h
    simp only [buildGroups] at h
    cases hb : buildGroups rest (i + 1) with
    | nil =>
      rw [hb] at h
      simp at h
      subst h
      rfl
    | cons q qs =>
      rw [hb] at h
      dsimp only at h
      by_cases hq : q.primaryAssetType = r.ptypeOf
      · rw [if_pos hq] at h
        rcases List.mem_cons.mp h with rfl | h2
        · rfl
        · exact ih (i + 1) g (hb ▸ List.mem_cons_of_mem q h2)
      · rw [if_neg hq] at h
        rcases List.mem_cons.mp h with rfl | h2
        · rfl
        · exact ih (i + 1) g (hb ▸ h2)

/-- The migration function of `migrateGroups` preserves the group type. -/
theorem migrate_typePres (old : List ArchetypeGroup) :
    ∀ g : ArchetypeGroup,
      ((fun (g : ArchetypeGroup) =>
        match old.find? (fun (og : ArchetypeGroup) => og.primaryAssetType = g.primaryAssetType) with
        | some og => { g with checksum := og.checksum }
        | none => g) g).primaryAssetType = g.primaryAssetType := by
  intro g
  dsimp only
  split <;> rfl

/-- After zero-then-migrate, a group of type `t ≠ tp` keeps the cached
checksum the state had for `t` (present or absent alike). -/
theorem groupCk_migrate_frame {s : RegistryState} (hwf : WF s) (tp : Nat)
    (recsF : List RegistryRecord) (t : Nat) (ht : t ≠ tp)
    (hpres : (∃ r ∈ recsF, r.ptypeOf = t) ↔ (∃ r ∈ s.dataContainer, r.ptypeOf = t)) :
    ((migrateGroups (zeroGroupChecksum s.archetypes tp) (buildGroups recsF 0)).find?
        (fun g => g.primaryAssetType = t)).map (fun g => g.checksum) = groupCk s t := by
  unfold migrateGroups
  rw [find?_map_typePres _ (migrate_typePres _) t]
  unfold groupCk RegistryState.findArchetypeGroup
  cases hfs : s.archetypes.find? (fun g => g.primaryAssetType = t) with
  | none =>
    have habs : ¬∃ r ∈ s.dataContainer, r.ptypeOf = t := by
      intro hex
      have := (wf_group_present hwf t).mpr hex
      rw [hfs] at this
      simp at this
    have : ¬∃ g ∈ buildGroups recsF 0, g.primaryAssetType = t := by
      intro hex
      exact habs (hpres.mp ((buildGroups_types t recsF 0).mp hex))
    have hnew : (buildGroups recsF 0).find? (fun g => g.primaryAssetType = t) = none := by
      cases hb : (buildGroups recsF 0).find? (fun g => g.primaryAssetType = t) with
      | none => rfl
      | some g =>
        exact absurd ⟨g, List.mem_of_find?_eq_some hb, by simpa using List.find?_some hb⟩ this
    simp [hnew]
  | some og =>
    have hex : ∃ r ∈ s.dataContainer, r.ptypeOf = t := by
      have := (wf_group_present hwf t).mp (by simp [hfs])
      exact this
    have hexF : ∃ g ∈ buildGroups recsF 0, g.primaryAssetType = t :=
      (buildGroups_types t recsF 0).mpr (hpres.mpr hex)
    have hsome : ((buildGroups recsF 0).find? (fun g => g.primaryAssetType = t)).isSome = true := by
      rw [List.find?_isSome]
      obtain ⟨g, hg, hp⟩ := hexF
      exact ⟨g, hg, by simpa using hp⟩
    obtain ⟨g, hg⟩ := Option.isSome_iff_exists.mp hsome
    have hgt : g.primaryAssetType = t := by simpa using List.find?_some hg
    rw [hg]
    simp only [Option.map_some']
    rw [hgt, find?_zeroGroupChecksum_ne t tp ht, hfs]

/-- After zero-then-migrate, the mutated type's group (when a record of
that type remains) carries cached checksum `0`. -/
theorem groupCk_migrate_own (s : RegistryState) (tp : Nat)
    (recsF : List RegistryRecord) (hpres : ∃ r ∈ recsF, r.ptypeOf = tp) :
    ((migrateGroups (zeroGroupChecksum s.archetypes tp) (buildGroups recsF 0)).find?
        (fun g => g.primaryAssetType = tp)).map (fun g => g.checksum) = some 0 := by
  unfold migrateGroups
  rw [find?_map_typePres _ (migrate_typePres _) tp]
  have hexF : ∃ g ∈ buildGroups recsF 0, g.primaryAssetType = tp :=
    (buildGroups_types tp recsF 0).mpr hpres
  have hsome : ((buildGroups recsF 0).find? (fun g => g.primaryAssetType = tp)).isSome = true := by
    rw [List.find?_isSome]
    obtain ⟨g, hg, hp⟩ := hexF
    exact ⟨g, hg, by simpa using hp⟩
  obtain ⟨g, hg⟩ := Option.isSome_iff_exists.mp hsome
  have hgt : g.primaryAssetType = tp := by simpa using List.find?_some hg
  have hg0 : g.checksum = 0 := buildGroups_ck_zero recsF 0 g (List.mem_of_find?_eq_some hg)
  rw [hg]
  simp only [Option.map_some']
  rw [hgt]
  cases hfs : s.archetypes.find? (fun g => g.primaryAssetType = tp) with
  | none =>
    rw [zeroGroupChecksum_of_none tp s.archetypes hfs, hfs]
    simp [hg0]
  | some og =>
    rw [find?_zeroGroupChecksum_self tp s.archetypes og hfs]

/-- Record id stored at position `j`. -/
def idAtQ (l : List RegistryRecord) (j : Nat) : Option PrimaryAssetId :=
  (l[j]?).map RegistryRecord.id

theorem ckPairs_getElemQ (l : List RegistryRecord) (j : Nat) :
    (ckPairs l)[j]? = (l[j]?).map (fun r => (r.id, r.checksum)) := by
  simp [ckPairs]

theorem idAtQ_of_ckPairs_eq {l l' : List RegistryRecord} (h : ckPairs l = ckPairs l')
    (j : Nat) : idAtQ l j = idAtQ l' j := by
  have := congrArg (fun m => m[j]?) h
  dsimp only at this
  rw [ckPairs_getElemQ, ckPairs_getElemQ] at this
  unfold idAtQ
  have h1 := congrArg (Option.map Prod.fst) this
  rw [Option.map_map, Option.map_map] at h1
  simpa [Function.comp] using h1

theorem getD_id_of_idAtQ {l : List RegistryRecord} {j : Nat} {id : PrimaryAssetId}
    (h : idAtQ l j = some id) : ((l[j]?).getD default).id = id := by
  unfold idAtQ at h
  cases hl : l[j]? with
  | none => rw [hl] at h; simp at h
  | some r => rw [hl] at h; simpa using h

/-- Shape of the `AppendData` update branch: the `(id, checksum)` table
only has position `j` zeroed, the group table only has the record's type
zeroed, and the top checksum is reset. -/
theorem appendDataUpdate_shape (rec : RegistryRecord) (j : Nat) (s : RegistryState)
    (hj : idAtQ s.dataContainer j = some rec.id) :
    ckPairs (appendDataUpdate rec j s).dataContainer =
      modifyAt j (fun p => (p.1, 0)) (ckPairs s.dataContainer) ∧
    (appendDataUpdate rec j s).archetypes = zeroGroupChecksum s.archetypes rec.id.ptype ∧
    (appendDataUpdate rec j s).checksum = 0 := by
  have hck1 : ckPairs (updStep1 rec j s).dataContainer =
      modifyAt j (fun p => (rec.id, p.2)) (ckPairs s.dataContainer) := by
    unfold updStep1
    dsimp only
    apply ckPairs_modifyAt
    intro r
    rfl
  have hck3 : ckPairs (refreshCustomData false rec.customData j
      (refreshCustomData true rec.defaultPayload j (updStep1 rec j s))).dataContainer =
      modifyAt j (fun p => (rec.id, p.2)) (ckPairs s.dataContainer) := by
    rw [ckPairs_refreshCustomData, ckPairs_refreshCustomData, hck1]
  have har3 : (refreshCustomData false rec.customData j
      (refreshCustomData true rec.defaultPayload j (updStep1 rec j s))).archetypes =
      s.archetypes := by
    rw [refreshCustomData_archetypes, refreshCustomData_archetypes]
    rfl
  have hid3 : idAtQ (refreshCustomData false rec.customData j
      (refreshCustomData true rec.defaultPayload j (updStep1 rec j s))).dataContainer j =
      some rec.id := by
    obtain ⟨r0, hr0, hr0id⟩ := Option.map_eq_some'.mp hj
    have h1 : (modifyAt j (fun p : PrimaryAssetId × Nat => (rec.id, p.2))
        (ckPairs s.dataContainer))[j]? = some (rec.id, r0.checksum) := by
      rw [modifyAt_getElemQ, if_pos rfl, ckPairs_getElemQ, hr0]
      simp
    have h2 := congrArg (fun m => m[j]?) hck3
    dsimp only at h2
    rw [ckPairs_getElemQ] at h2
    rw [h1] at h2
    unfold idAtQ
    cases hl : (refreshCustomData false rec.customData j (refreshCustomData true
        rec.defaultPayload j (updStep1 rec j s))).dataContainer[j]? with
    | none => rw [hl] at h2; simp at h2
    | some r3 =>
      rw [hl] at h2
      simp only [Option.map_some'] at h2 ⊢
      have : r3.id = rec.id := congrArg Prod.fst (Option.some.injEq _ _ |>.mp h2)
      rw [this]
  unfold appendDataUpdate updStep4
  refine ⟨?_, ?_, rfl⟩
  · dsimp only
    have := ckPairs_modifyAt (fun r => { r with checksum := 0 })
      (fun p => (p.1, 0)) (fun r => rfl) j (refreshCustomData false rec.customData j
        (refreshCustomData true rec.defaultPayload j (updStep1 rec j s))).dataContainer
    rw [this, hck3, modifyAt_modifyAt]
    obtain ⟨r0, hr0, hr0id⟩ := Option.map_eq_some'.mp hj
    have hpj : (ckPairs s.dataContainer)[j]? = some (rec.id, r0.checksum) := by
      rw [ckPairs_getElemQ, hr0]
      simp [hr0id]
    exact modifyAt_congr_at _ _ j _ _ hpj rfl
  · dsimp only
    rw [har3]
    have := getD_id_of_idAtQ hid3
    rw [show ((refreshCustomData false rec.customData j (refreshCustomData true
      rec.defaultPayload j (updStep1 rec j s))).dataContainer[j]?.getD default).ptypeOf
      = rec.id.ptype from congrArg PrimaryAssetId.ptype this]

/-- Shape of the `AppendData` insert branch. -/
theorem appendDataInsert_shape (rec : RegistryRecord) (idx : Nat) (s : RegistryState)
    (hidx : idx ≤ s.dataContainer.length) :
    ckPairs (appendDataInsert rec idx s).dataContainer =
      insertAt idx (rec.id, 0) (ckPairs s.dataContainer) ∧
    (appendDataInsert rec idx s).archetypes =
      migrateGroups (zeroGroupChecksum s.archetypes rec.ptypeOf)
        (buildGroups (appendDataInsert rec idx s).dataContainer 0) ∧
    (appendDataInsert rec idx s).checksum = 0 := by
  have hck4 : ckPairs (appendNewSlot false rec.customData idx
      (appendNewSlot true rec.defaultPayload idx (insStep1 rec idx s))).dataContainer =
      insertAt idx (rec.id, 0) (ckPairs s.dataContainer) := by
    rw [ckPairs_appendNewSlot, ckPairs_appendNewSlot]
    unfold insStep1
    dsimp only
    have h1 := ckPairs_modifyAt (fun r => { r with checksum := 0 })
      (fun p => (p.1, 0)) (fun r => rfl) idx (insertAt idx rec s.dataContainer)
    rw [h1, ckPairs_insertAt, modifyAt_insertAt_same _ _ idx _ (by simpa [ckPairs] using hidx)]
  have har4 : (appendNewSlot false rec.customData idx
      (appendNewSlot true rec.defaultPayload idx (insStep1 rec idx s))).archetypes =
      zeroGroupChecksum s.archetypes rec.ptypeOf := by
    rw [appendNewSlot_archetypes, appendNewSlot_archetypes]
    rfl
  unfold appendDataInsert fixupDependencies
  refine ⟨?_, ?_, rfl⟩
  · dsimp only
    rw [ckPairs_fixupRecords, hck4]
  · dsimp only
    rw [if_pos rfl, har4]

theorem rdStep1_pres (r0 : RegistryRecord) (s : RegistryState) :
    ckPairs (rdStep1 r0 s).dataContainer = ckPairs s.dataContainer ∧
    (rdStep1 r0 s).archetypes = s.archetypes ∧
    (rdStep1 r0 s).dataMap = s.dataMap ∧
    (rdStep1 r0 s).customDataContainer.length ≤ s.customDataContainer.length := by
  unfold rdStep1
  split
  · refine ⟨ckPairs_removeCustomData _ _, removeCustomData_archetypes _ _,
      removeCustomData_dataMap _ _, ?_⟩
    simp only [removeCustomData]
    repeat' split
    · dsimp only
      rename_i h1 _
      rw [eraseAt_length _ _ h1]
      omega
    · dsimp only
      rename_i h1 _
      rw [eraseAt_length _ _ h1]
      omega
    · exact Nat.le_refl _
  · exact ⟨rfl, rfl, rfl, Nat.le_refl _⟩

theorem rdStep2_pres (j : Nat) (s : RegistryState) :
    ckPairs (rdStep2 j s).dataContainer = ckPairs s.dataContainer ∧
    (rdStep2 j s).archetypes = s.archetypes ∧
    (rdStep2 j s).dataMap = s.dataMap := by
  unfold rdStep2
  split
  · exact ⟨ckPairs_removeCustomData _ _, removeCustomData_archetypes _ _,
      removeCustomData_dataMap _ _⟩
  · exact ⟨rfl, rfl, rfl⟩

/-- Shape of `RemoveData` on a contained id. -/
theorem removeData_shape (id : PrimaryAssetId) (s : RegistryState) (hwf : WF s)
    (hc : s.containsRecord id = true) :
    ∃ j,
      findA s.dataMap id = some j ∧
      idAtQ s.dataContainer j = some id ∧
      (s.removeData id).1 = true ∧
      ckPairs (s.removeData id).2.dataContainer = eraseAt j (ckPairs s.dataContainer) ∧
      (s.removeData id).2.archetypes =
        migrateGroups (zeroGroupChecksum s.archetypes id.ptype)
          (buildGroups (s.removeData id).2.dataContainer 0) ∧
      (s.removeData id).2.checksum = 0 := by
  obtain ⟨j, hfa, hjlt, hjid⟩ := wf_lookup hwf hc
  have hgp : s.getRecordPtr id = s.dataContainer[j]? := by
    unfold RegistryState.getRecordPtr
    rw [hfa]
    rfl
  obtain ⟨r0, hr0⟩ : ∃ r0, s.dataContainer[j]? = some r0 := by
    cases hl : s.dataContainer[j]? with
    | none => rw [hl] at hjid; simp [idAtQ] at hjid
    | some r => exact ⟨r, rfl⟩
  refine ⟨j, hfa, hjid, ?_⟩
  unfold RegistryState.removeData
  rw [hgp, hr0]
  simp only [hfa, Option.getD_some]
  obtain ⟨hA1, hA2, hA3, -⟩ := rdStep1_pres r0 s
  obtain ⟨hB1, hB2, hB3⟩ := rdStep2_pres j (rdStep1 r0 s)
  have hBC : ckPairs (rdStep2 j (rdStep1 r0 s)).dataContainer = ckPairs s.dataContainer :=
    hB1.trans hA1
  have hidB : idAtQ (rdStep2 j (rdStep1 r0 s)).dataContainer j = some id :=
    (idAtQ_of_ckPairs_eq hBC j).trans hjid
  have htpB : (((rdStep2 j (rdStep1 r0 s)).dataContainer[j]?).getD default).ptypeOf
      = id.ptype := congrArg PrimaryAssetId.ptype (getD_id_of_idAtQ hidB)
  -- rdStep3 only rewrites the group table
  have hC1 : ckPairs (rdStep3 j (rdStep2 j (rdStep1 r0 s))).dataContainer =
      ckPairs s.dataContainer := hBC
  have hC2 : (rdStep3 j (rdStep2 j (rdStep1 r0 s))).archetypes =
      zeroGroupChecksum s.archetypes id.ptype := by
    unfold rdStep3
    dsimp only
    rw [htpB, hB2, hA2]
  have hC3 : (rdStep3 j (rdStep2 j (rdStep1 r0 s))).dataMap = s.dataMap := by
    unfold rdStep3
    dsimp only
    rw [hB3, hA3]
  have hidC : idAtQ (rdStep3 j (rdStep2 j (rdStep1 r0 s))).dataContainer j = some id := hidB
  have hjjC : (findA (rdStep3 j (rdStep2 j (rdStep1 r0 s))).dataMap
      ((((rdStep3 j (rdStep2 j (rdStep1 r0 s))).dataContainer[j]?).getD default).id)).getD 0
      = j := by
    rw [hC3, getD_id_of_idAtQ hidC, hfa]
    rfl
  unfold rdStep4
  rw [hjjC]
  unfold fixupDependencies
  refine ⟨trivial, ?_, ?_, rfl⟩
  · dsimp only
    rw [ckPairs_fixupRecords, ckPairs_eraseAt, hC1]
  · dsimp only
    rw [if_pos rfl, hC2]

/-- C5. A structural or value change to a single record (`AppendData`
update or insert, `RemoveData`) invalidates only that record's checksum,
its own archetype group's cached checksum, and the top-level checksum;
the cached checksum of every unrelated archetype group and the cached
checksums of other records are unchanged. -/
theorem C5_checksum_locality :
    ∀ s : RegistryState, WF s →
    ((∀ rec : RegistryRecord, s.containsRecord rec.id = true →
      ((s.appendData rec).2.checksum = 0 ∧
       recordCkById (s.appendData rec).2 rec.id = some 0 ∧
       groupCk (s.appendData rec).2 rec.id.ptype = some 0 ∧
       (∀ t, t ≠ rec.id.ptype → groupCk (s.appendData rec).2 t = groupCk s t) ∧
       (∀ id', id' ≠ rec.id →
         recordCkById (s.appendData rec).2 id' = recordCkById s id'))) ∧
     (∀ rec : RegistryRecord, s.containsRecord rec.id = false →
      ((s.appendData rec).2.checksum = 0 ∧
       recordCkById (s.appendData rec).2 rec.id = some 0 ∧
       groupCk (s.appendData rec).2 rec.id.ptype = some 0 ∧
       (∀ t, t ≠ rec.id.ptype → groupCk (s.appendData rec).2 t = groupCk s t) ∧
       (∀ id', id' ≠ rec.id →
         recordCkById (s.appendData rec).2 id' = recordCkById s id'))) ∧
     (∀ id : PrimaryAssetId, s.containsRecord id = true →
      ((s.removeData id).2.checksum = 0 ∧
       (groupCk (s.removeData id).2 id.ptype = none ∨
        groupCk (s.removeData id).2 id.ptype = some 0) ∧
       (∀ t, t ≠ id.ptype → groupCk (s.removeData id).2 t = groupCk s t) ∧
       (∀ id', id' ≠ id →
         recordCkById (s.removeData id).2 id' = recordCkById s id')))) := by
  intro s hwf
  have hsort : sortedAdjB s.dataContainer = true := hwf.1
  refine ⟨?_, ?_, ?_⟩
  · -- update branch
    intro rec hc
    obtain ⟨j, hfa, hjlt, hjid⟩ := wf_lookup hwf hc
    have happ : (s.appendData rec).2 = appendDataUpdate rec j s := by
      unfold RegistryState.appendData
      rw [if_pos hc, hfa]
      rfl
    obtain ⟨hck, har, hcs⟩ := appendDataUpdate_shape rec j s hjid
    obtain ⟨r0, hr0, hr0id⟩ := Option.map_eq_some'.mp hjid
    have hpj : (ckPairs s.dataContainer)[j]? = some (rec.id, r0.checksum) := by
      rw [ckPairs_getElemQ, hr0]
      simp [hr0id]
    refine ⟨by rw [happ]; exact hcs, ?_, ?_, ?_, ?_⟩
    · unfold recordCkById
      rw [happ, hck]
      have := findA_modifyAt_eq (fun p => (p.1, 0)) (fun p => rfl) j
        (ckPairs s.dataContainer) (rec.id, r0.checksum) (keysNodup_ckPairs hsort) hpj
      simpa using this
    · unfold groupCk RegistryState.findArchetypeGroup
      rw [happ, har]
      have hex : ∃ r ∈ s.dataContainer, r.ptypeOf = rec.id.ptype := by
        refine ⟨r0, ?_, by rw [RegistryRecord.ptypeOf, hr0id]⟩
        exact List.getElem?_eq_some_iff.mp hr0 |>.2 ▸
          List.getElem_mem (List.getElem?_eq_some_iff.mp hr0).1
      have hsome := (wf_group_present hwf rec.id.ptype).mpr hex
      obtain ⟨g, hg⟩ := Option.isSome_iff_exists.mp hsome
      rw [find?_zeroGroupChecksum_self _ _ _ hg]
      rfl
    · intro t ht
      unfold groupCk RegistryState.findArchetypeGroup
      rw [happ, har, find?_zeroGroupChecksum_ne t rec.id.ptype ht]
    · intro id' hne
      unfold recordCkById
      rw [happ, hck]
      exact findA_modifyAt_ne (fun p => (p.1, 0)) (fun p => rfl) j _ id'
        (fun p hp => by
          rw [hpj] at hp
          have hpe : p = (rec.id, r0.checksum) := by simpa using hp.symm
          rw [hpe]
          exact fun h => hne h.symm)
  · -- insert branch
    intro rec hc
    have hnone : findA s.dataMap rec.id = none := by
      unfold RegistryState.containsRecord at hc
      cases h : findA s.dataMap rec.id with
      | none => rfl
      | some v => rw [h] at hc; simp at hc
    have happ : (s.appendData rec).2 =
        appendDataInsert rec (lowerBoundIdx s.dataContainer rec) s := by
      unfold RegistryState.appendData
      rw [if_neg (by simp [RegistryState.containsRecord, hnone])]
    obtain ⟨hck, har, hcs⟩ := appendDataInsert_shape rec (lowerBoundIdx s.dataContainer rec) s
      (lowerBoundIdx_le _ _)
    have hfresh : rec.id ∉ keysA (ckPairs s.dataContainer) := by
      rw [keysA_ckPairs]
      have := (findA_eq_none_iff s.dataMap rec.id).mp hnone
      rw [hwf.2.1] at hnone
      have h2 := (findA_eq_none_iff _ rec.id).mp hnone
      unfold mkDataMap at h2
      rw [keysA_mkDataMap] at h2
      exact h2
    have hmemF : ∃ r ∈ (appendDataInsert rec (lowerBoundIdx s.dataContainer rec) s).dataContainer,
        r.ptypeOf = rec.id.ptype := by
      rw [exists_ptype_iff_ckPairs, hck]
      exact ⟨(rec.id, 0), (insertAt_mem _ _ _ _).mpr (Or.inl rfl), rfl⟩
    refine ⟨by rw [happ]; exact hcs, ?_, ?_, ?_, ?_⟩
    · unfold recordCkById
      rw [happ, hck]
      exact findA_insertAt_self rec.id 0 _ _ hfresh
    · unfold groupCk RegistryState.findArchetypeGroup
      rw [happ, har]
      exact groupCk_migrate_own s rec.ptypeOf _ hmemF
    · intro t ht
      unfold groupCk RegistryState.findArchetypeGroup
      rw [happ, har]
      refine groupCk_migrate_frame hwf rec.ptypeOf _ t ht ?_
      rw [exists_ptype_iff_ckPairs, hck, exists_ptype_iff_ckPairs]
      constructor
      · rintro ⟨p, hp, hpt⟩
        rcases (insertAt_mem _ _ _ _).mp hp with rfl | hmem
        · exact absurd (by simpa using hpt) (fun h : rec.id.ptype = t => ht h.symm)
        · exact ⟨p, hmem, hpt⟩
      · rintro ⟨p, hp, hpt⟩
        exact ⟨p, (insertAt_mem _ _ _ _).mpr (Or.inr hp), hpt⟩
    · intro id' hne
      unfold recordCkById
      rw [happ, hck]
      exact findA_insertAt_ne (rec.id, 0) id' (fun h => hne h.symm) _ _
  · -- remove branch
    intro id hc
    obtain ⟨j, hfa, hjid, -, hck, har, hcs⟩ := removeData_shape id s hwf hc
    obtain ⟨r0, hr0, hr0id⟩ := Option.map_eq_some'.mp hjid
    have hpj : (ckPairs s.dataContainer)[j]? = some (id, r0.checksum) := by
      rw [ckPairs_getElemQ, hr0]
      simp [hr0id]
    refine ⟨hcs, ?_, ?_, ?_⟩
    · by_cases hex : ∃ r ∈ (s.removeData id).2.dataContainer, r.ptypeOf = id.ptype
      · exact Or.inr (by
          unfold groupCk RegistryState.findArchetypeGroup
          rw [har]
          exact groupCk_migrate_own s id.ptype _ hex)
      · refine Or.inl ?_
        unfold groupCk RegistryState.findArchetypeGroup
        rw [har]
        unfold migrateGroups
        rw [find?_map_typePres _ (migrate_typePres _) id.ptype]
        have : ¬∃ g ∈ buildGroups (s.removeData id).2.dataContainer 0,
            g.primaryAssetType = id.ptype := by
          intro h
          exact hex ((buildGroups_types _ _ 0).mp h)
        have hn : (buildGroups (s.removeData id).2.dataContainer 0).find?
            (fun g => g.primaryAssetType = id.ptype) = none := by
          cases hb : (buildGroups (s.removeData id).2.dataContainer 0).find?
              (fun g => g.primaryAssetType = id.ptype) with
          | none => rfl
          | some g =>
            exact absurd ⟨g, List.mem_of_find?_eq_some hb,
              by simpa using List.find?_some hb⟩ this
        rw [hn]
        rfl
    · intro t ht
      unfold groupCk RegistryState.findArchetypeGroup
      rw [har]
      refine groupCk_migrate_frame hwf id.ptype _ t ht ?_
      rw [exists_ptype_iff_ckPairs, hck, exists_ptype_iff_ckPairs]
      constructor
      · rintro ⟨p, hp, hpt⟩
        exact ⟨p, mem_eraseAt hp, hpt⟩
      · rintro ⟨p, hp, hpt⟩
        refine ⟨p, mem_eraseAt_of_ne j _ p hp ?_, hpt⟩
        intro hlt heq
        have : (ckPairs s.dataContainer)[j] = (id, r0.checksum) := by
          have := List.getElem?_eq_some_iff.mp hpj
          exact this.2
        rw [this] at heq
        rw [← heq] at hpt
        exact ht (by simpa using hpt.symm)
    · intro id' hne
      unfold recordCkById
      rw [hck]
      exact findA_eraseAt_ne j _ id' (fun p hp => by
        rw [hpj] at hp
        have hpe : p = (id, r0.checksum) := by simpa using hp.symm
        rw [hpe]
        exact fun h => hne h.symm)

/-- Witness for C5: concrete update in group 1 leaves group 2's cached
checksum and another record's cached checksum unchanged. -/
theorem C5_witness :
    WF sampleState ∧
    groupCk (sampleState.appendData (sampleRecord 1 1 5 ⟨7, [9]⟩)).2 2 =
      groupCk sampleState 2 ∧
    recordCkById (sampleState.appendData (sampleRecord 1 1 5 ⟨7, [9]⟩)).2 ⟨2, 1⟩ =
      recordCkById sampleState ⟨2, 1⟩ :=
  ⟨by decide,
   (((C5_checksum_locality sampleState (by decide)).1 _ (by decide)).2.2.2.1 2 (by decide)),
   (((C5_checksum_locality sampleState (by decide)).1 _ (by decide)).2.2.2.2 ⟨2, 1⟩ (by decide))⟩

/-! ## Claim C10: view/content frame of the update path -/

/-- The comparable content of a record: shared data, asset path, and both
cached payload view values. -/
def contentOf (r : RegistryRecord) : SharedData × Nat × Payload × Payload :=
  (r.sharedData, r.assetPath, r.defaultPayload, r.customData)

/-- The incoming view actually stored by the update path. -/
def normalizeView (v : Payload) : Payload := if v.isValid then v else Payload.invalid

theorem eraseAt_getElemQ_lt {α : Type} :
    ∀ (i j : Nat) (l : List α), j < i → (eraseAt i l)[j]? = l[j]? := by
  intro i
  induction i with
  | zero => intro j l h; omega
  | succ i ih =>
    intro j l h
    cases l with
    | nil => rfl
    | cons x l =>
      cases j with
      | zero => simp [eraseAt, List.eraseIdx]
      | succ j =>
        simp only [eraseAt, List.eraseIdx] at ih ⊢
        simpa using ih j l (by omega)

theorem eraseAt_getElemQ_ge {α : Type} :
    ∀ (i j : Nat) (l : List α), i ≤ j → (eraseAt i l)[j]? = l[j + 1]? := by
  intro i
  induction i with
  | zero =>
    intro j l _
    cases l with
    | nil => simp [eraseAt]
    | cons x l => simp [eraseAt, List.eraseIdx]
  | succ i ih =>
    intro j l h
    cases l with
    | nil => simp [eraseAt]
    | cons x l =>
      cases j with
      | zero => omega
      | succ j =>
        simp only [eraseAt, List.eraseIdx] at ih ⊢
        simpa using ih j l (by omega)

theorem shiftSlot_pres (cont : List Payload) (i₁ kk : Nat) (view : Payload)
    (hk : kk < cont.length) (hv : cont[kk]? = some view) (hne : kk ≠ i₁)
    (hl : i₁ < cont.length) :
    (shiftSlot (eraseAt i₁ cont) i₁ (some kk) view).2 = view ∧
    viewSlotOk (eraseAt i₁ cont) (shiftSlot (eraseAt i₁ cont) i₁ (some kk) view).1 view ∧
    (shiftSlot (eraseAt i₁ cont) i₁ (some kk) view).1 =
      some (if i₁ < kk then kk - 1 else kk) := by
  have hlen : (eraseAt i₁ cont).length = cont.length - 1 := eraseAt_length _ _ hl
  by_cases hgt : i₁ < kk
  · have hred : shiftSlot (eraseAt i₁ cont) i₁ (some kk) view =
        (some (kk - 1), ((eraseAt i₁ cont)[kk - 1]?).getD Payload.invalid) := by
      simp only [shiftSlot]
      rw [if_pos hgt]
    have hq : (eraseAt i₁ cont)[kk - 1]? = cont[kk]? := by
      have := eraseAt_getElemQ_ge i₁ (kk - 1) cont (by omega)
      rw [this]
      congr 1
      omega
    rw [hred]
    refine ⟨by rw [hq, hv]; rfl, ?_, by rw [if_pos hgt]⟩
    show kk - 1 < (eraseAt i₁ cont).length ∧ (eraseAt i₁ cont)[kk - 1]? = some view
    rw [hq, hv]
    exact ⟨by omega, rfl⟩
  · have hred : shiftSlot (eraseAt i₁ cont) i₁ (some kk) view = (some kk, view) := by
      simp only [shiftSlot]
      rw [if_neg hgt]
    have hlt2 : kk < i₁ := by omega
    have hq : (eraseAt i₁ cont)[kk]? = cont[kk]? := eraseAt_getElemQ_lt i₁ kk cont hlt2
    rw [hred]
    refine ⟨rfl, ?_, by rw [if_neg hgt]⟩
    show kk < (eraseAt i₁ cont).length ∧ (eraseAt i₁ cont)[kk]? = some view
    rw [hq, hv]
    exact ⟨by omega, rfl⟩

/-- Tracking one record through `RemoveCustomData` of an in-range slot:
fields and (for slots other than the removed one) view values survive,
with indices shifted. -/
theorem removeCustomData_track (i₁ : Nat) (s : RegistryState)
    (hl : i₁ < s.customDataContainer.length) (k : Nat) (r : RegistryRecord)
    (hr : s.dataContainer[k]? = some r) :
    (removeCustomData i₁ s).customDataContainer = eraseAt i₁ s.customDataContainer ∧
    ∃ r', (removeCustomData i₁ s).dataContainer[k]? = some r' ∧
      r'.sharedData = r.sharedData ∧ r'.assetPath = r.assetPath ∧
      r'.repIndex = r.repIndex ∧ r'.checksum = r.checksum ∧
      (∀ kk, r.defaultPayloadIndex = some kk →
        s.customDataContainer[kk]? = some r.defaultPayload → kk ≠ i₁ →
        r'.defaultPayload = r.defaultPayload ∧
        viewSlotOk (eraseAt i₁ s.customDataContainer) r'.defaultPayloadIndex
          r.defaultPayload ∧
        r'.defaultPayloadIndex = some (if i₁ < kk then kk - 1 else kk)) ∧
      (∀ kk, r.customDataIndex = some kk →
        s.customDataContainer[kk]? = some r.customData → kk ≠ i₁ →
        r'.customData = r.customData ∧
        viewSlotOk (eraseAt i₁ s.customDataContainer) r'.customDataIndex r.customData ∧
        r'.customDataIndex = some (if i₁ < kk then kk - 1 else kk)) ∧
      (r.defaultPayloadIndex = none → r'.defaultPayloadIndex = none ∧
        r'.defaultPayload = r.defaultPayload) ∧
      (r.customDataIndex = none → r'.customDataIndex = none ∧
        r'.customData = r.customData) ∧
      (r.defaultPayloadIndex = some i₁ → r'.defaultPayloadIndex = some i₁ ∧
        r'.defaultPayload = r.defaultPayload) ∧
      (r.customDataIndex = some i₁ → r'.customDataIndex = some i₁ ∧
        r'.customData = r.customData) := by
  unfold removeCustomData
  rw [if_pos hl]
  by_cases h2 : i₁ < (eraseAt i₁ s.customDataContainer).length
  · rw [if_pos h2]
    dsimp only
    refine ⟨rfl, ?_⟩
    rw [List.getElem?_map, hr]
    refine ⟨_, rfl, rfl, rfl, rfl, rfl, ?_, ?_, ?_, ?_, ?_, ?_⟩
    · intro kk hidx hcv hne
      dsimp only
      rw [hidx]
      have hkk : kk < s.customDataContainer.length := (List.getElem?_eq_some_iff.mp hcv).1
      obtain ⟨h1, h2', h3⟩ :=
        shiftSlot_pres s.customDataContainer i₁ kk r.defaultPayload hkk hcv hne hl
      exact ⟨h1, h2', h3⟩
    · intro kk hidx hcv hne
      dsimp only
      rw [hidx]
      have hkk : kk < s.customDataContainer.length := (List.getElem?_eq_some_iff.mp hcv).1
      obtain ⟨h1, h2', h3⟩ :=
        shiftSlot_pres s.customDataContainer i₁ kk r.customData hkk hcv hne hl
      exact ⟨h1, h2', h3⟩
    · intro hidx; dsimp only; rw [hidx]; exact ⟨rfl, rfl⟩
    · intro hidx; dsimp only; rw [hidx]; exact ⟨rfl, rfl⟩
    · intro hidx; dsimp only; rw [hidx]; simp [shiftSlot]
    · intro hidx; dsimp only; rw [hidx]; simp [shiftSlot]
  · rw [if_neg h2]
    have hlen : (eraseAt i₁ s.customDataContainer).length = s.customDataContainer.length - 1 :=
      eraseAt_length _ _ hl
    have hi₁ : i₁ = s.customDataContainer.length - 1 := by omega
    refine ⟨rfl, r, hr, rfl, rfl, rfl, rfl, ?_, ?_, fun h => ⟨h, rfl⟩, fun h => ⟨h, rfl⟩,
      fun h => ⟨h, rfl⟩, fun h => ⟨h, rfl⟩⟩
    · intro kk hidx hcv hne
      have hkk : kk < s.customDataContainer.length := (List.getElem?_eq_some_iff.mp hcv).1
      have hklt : kk < i₁ := by omega
      have hq : (eraseAt i₁ s.customDataContainer)[kk]? = s.customDataContainer[kk]? :=
        eraseAt_getElemQ_lt i₁ kk _ hklt
      refine ⟨rfl, ?_, by rw [hidx]; simp [Nat.not_lt_of_lt hklt]⟩
      unfold viewSlotOk
      rw [hidx]
      exact ⟨by omega, by rw [hq, hcv]⟩
    · intro kk hidx hcv hne
      have hkk : kk < s.customDataContainer.length := (List.getElem?_eq_some_iff.mp hcv).1
      have hklt : kk < i₁ := by omega
      have hq : (eraseAt i₁ s.customDataContainer)[kk]? = s.customDataContainer[kk]? :=
        eraseAt_getElemQ_lt i₁ kk _ hklt
      refine ⟨rfl, ?_, by rw [hidx]; simp [Nat.not_lt_of_lt hklt]⟩
      unfold viewSlotOk
      rw [hidx]
      exact ⟨by omega, by rw [hq, hcv]⟩

/-! ## Slot bookkeeping for the update-path frame -/

/-- Uniform access to the index of one of a record's two payload slots
(`true` = default payload, `false` = custom data). -/
def slotIdx (b : Bool) (r : RegistryRecord) : Option Nat :=
  if b then r.defaultPayloadIndex else r.customDataIndex

/-- Uniform access to the cached view of one of a record's two slots. -/
def slotView (b : Bool) (r : RegistryRecord) : Payload :=
  if b then r.defaultPayload else r.customData

/-- Every slot of every record is consistent with the shared container. -/
@[reducible] def SlotsOk (cont : List Payload) (recs : List RegistryRecord) : Prop :=
  ∀ (p : Nat) (b : Bool) (r : RegistryRecord),
    recs[p]? = some r → viewSlotOk cont (slotIdx b r) (slotView b r)

/-- Consistency of every slot except possibly slot `bd` of record `j`. -/
@[reducible] def SlotsOkExc (cont : List Payload) (recs : List RegistryRecord)
    (j : Nat) (bd : Bool) : Prop :=
  ∀ (p : Nat) (b : Bool) (r : RegistryRecord), recs[p]? = some r → (p ≠ j ∨ b ≠ bd) →
    viewSlotOk cont (slotIdx b r) (slotView b r)

/-- No two distinct slots own the same container index. -/
@[reducible] def SlotsDisj (recs : List RegistryRecord) : Prop :=
  ∀ (p q : Nat) (bp bq : Bool) (rp rq : RegistryRecord) (k : Nat),
    recs[p]? = some rp → recs[q]? = some rq →
    slotIdx bp rp = some k → slotIdx bq rq = some k → p = q ∧ bp = bq

/-- Disjointness among the slots other than slot `bd` of record `j`. -/
@[reducible] def SlotsDisjExc (recs : List RegistryRecord) (j : Nat) (bd : Bool) : Prop :=
  ∀ (p q : Nat) (bp bq : Bool) (rp rq : RegistryRecord) (k : Nat),
    recs[p]? = some rp → recs[q]? = some rq →
    (p ≠ j ∨ bp ≠ bd) → (q ≠ j ∨ bq ≠ bd) →
    slotIdx bp rp = some k → slotIdx bq rq = some k → p = q ∧ bp = bq

theorem slotsOkExc_of_ok {cont : List Payload} {recs : List RegistryRecord}
    (j : Nat) (bd : Bool) (h : SlotsOk cont recs) : SlotsOkExc cont recs j bd :=
  fun p b r hp _ => h p b r hp

theorem slotsDisjExc_of_disj {recs : List RegistryRecord} (j : Nat) (bd : Bool)
    (h : SlotsDisj recs) : SlotsDisjExc recs j bd :=
  fun p q bp bq rp rq k hp hq _ _ h1 h2 => h p q bp bq rp rq k hp hq h1 h2

theorem slotIdx_slotSet (b bd : Bool) (v : Payload) (i : Option Nat) (r : RegistryRecord) :
    slotIdx b (slotSet bd v i r) = if b = bd then i else slotIdx b r := by
  cases b <;> cases bd <;> simp [slotIdx, slotSet]

theorem slotView_slotSet (b bd : Bool) (v : Payload) (i : Option Nat) (r : RegistryRecord) :
    slotView b (slotSet bd v i r) = if b = bd then v else slotView b r := by
  cases b <;> cases bd <;> simp [slotView, slotSet]

theorem slotSet_meta (bd : Bool) (v : Payload) (i : Option Nat) (r : RegistryRecord) :
    (slotSet bd v i r).sharedData = r.sharedData ∧
    (slotSet bd v i r).assetPath = r.assetPath ∧
    (slotSet bd v i r).repIndex = r.repIndex ∧
    (slotSet bd v i r).checksum = r.checksum := by
  cases bd <;> simp [slotSet]

theorem contentOf_fields {a b : RegistryRecord} (h : contentOf a = contentOf b) :
    a.sharedData = b.sharedData ∧ a.assetPath = b.assetPath ∧
    a.defaultPayload = b.defaultPayload ∧ a.customData = b.customData := by
  refine ⟨congrArg Prod.fst h, ?_, ?_, ?_⟩
  · exact congrArg (fun c : SharedData × Nat × Payload × Payload => c.2.1) h
  · exact congrArg (fun c : SharedData × Nat × Payload × Payload => c.2.2.1) h
  · exact congrArg (fun c : SharedData × Nat × Payload × Payload => c.2.2.2) h

theorem slotView_of_contentOf {a b : RegistryRecord} (h : contentOf a = contentOf b)
    (bb : Bool) : slotView bb a = slotView bb b := by
  obtain ⟨h1, h2, h3, h4⟩ := contentOf_fields h
  cases bb <;> simp [slotView, h3, h4]

theorem slotsOk_of_wf {s : RegistryState} (hwf : WF s) :
    SlotsOk s.customDataContainer s.dataContainer := by
  intro p b r hp
  have hm : r ∈ s.dataContainer := by
    obtain ⟨hl, rfl⟩ := List.getElem?_eq_some_iff.mp hp
    exact List.getElem_mem hl
  have hok := hwf.2.2.2.2.2.1 r hm
  cases b
  · simpa [slotIdx, slotView] using hok.2
  · simpa [slotIdx, slotView] using hok.1

theorem nodupB_nodup {α : Type} [DecidableEq α] :
    ∀ l : List α, nodupB l = true → l.Nodup := by
  intro l
  induction l with
  | nil => intro _; exact List.nodup_nil
  | cons a l ih =>
    intro h
    simp only [nodupB, Bool.and_eq_true, Bool.not_eq_true'] at h
    refine List.nodup_cons.mpr ⟨?_, ih h.2⟩
    intro hmem
    have : l.contains a = true := by simpa using hmem
    rw [this] at h
    exact absurd h.1 (by simp)

theorem slotIdx_mem_slotIdxs {b : Bool} {r : RegistryRecord} {k : Nat}
    (h : slotIdx b r = some k) : k ∈ slotIdxs r := by
  cases b <;> simp [slotIdx] at h <;> simp [slotIdxs, h]

theorem slotsDisj_of_nodup (recs : List RegistryRecord)
    (h : (ownedIdxs recs).Nodup) : SlotsDisj recs := by
  rw [ownedIdxs, List.nodup_flatten] at h
  obtain ⟨hEach, hPair⟩ := h
  rw [List.pairwise_iff_getElem] at hPair
  intro p q bp bq rp rq k hp hq h1 h2
  obtain ⟨hp', hpe⟩ := List.getElem?_eq_some_iff.mp hp
  obtain ⟨hq', hqe⟩ := List.getElem?_eq_some_iff.mp hq
  have hmp : k ∈ slotIdxs rp := slotIdx_mem_slotIdxs h1
  have hmq : k ∈ slotIdxs rq := slotIdx_mem_slotIdxs h2
  rcases Nat.lt_trichotomy p q with hlt | heq | hgt
  · exfalso
    have hd := hPair p q (by simpa) (by simpa) hlt
    rw [List.getElem_map _, List.getElem_map _] at hd
    exact hd (hpe ▸ hmp) (hqe ▸ hmq)
  · subst heq
    have hrr : rp = rq := by rw [← hpe, ← hqe]
    subst hrr
    refine ⟨rfl, ?_⟩
    by_contra hne
    have hnd : (slotIdxs rp).Nodup := by
      refine hEach _ (List.mem_map.mpr ⟨rp, ?_, rfl⟩)
      exact hpe ▸ List.getElem_mem hp'
    cases bp <;> cases bq <;> simp [slotIdx] at hne h1 h2 <;>
      simp [slotIdxs, h1, h2] at hnd
  · exfalso
    have hd := hPair q p (by simpa) (by simpa) hgt
    rw [List.getElem_map _, List.getElem_map _] at hd
    exact hd (hqe ▸ hmq) (hpe ▸ hmp)

theorem slotsDisj_of_wf {s : RegistryState} (hwf : WF s) : SlotsDisj s.dataContainer :=
  slotsDisj_of_nodup _ (nodupB_nodup _ hwf.2.2.2.2.2.2.2)

theorem removeCustomData_len (i : Nat) (s : RegistryState) :
    (removeCustomData i s).dataContainer.length = s.dataContainer.length := by
  simp only [removeCustomData]
  split
  · split
    · simp
    · simp
  · simp

/-- One record through `RemoveCustomData` of the container slot owned by
slot `bd` of record `j`: content survives, and every slot other than the
owner stays consistent with its index shifted. -/
theorem removeOwned_slot (bd : Bool) (i j : Nat) (s : RegistryState)
    (r : RegistryRecord) (hj : s.dataContainer[j]? = some r)
    (hidx : slotIdx bd r = some i)
    (hok : SlotsOk s.customDataContainer s.dataContainer)
    (hdisj : SlotsDisj s.dataContainer)
    (p : Nat) (rp : RegistryRecord) (hp : s.dataContainer[p]? = some rp) :
    ∃ rp', (removeCustomData i s).dataContainer[p]? = some rp' ∧
      contentOf rp' = contentOf rp ∧ rp'.repIndex = rp.repIndex ∧
      rp'.checksum = rp.checksum ∧
      ∀ b, (p ≠ j ∨ b ≠ bd) →
        slotIdx b rp' = (slotIdx b rp).map (fun kk => if i < kk then kk - 1 else kk) ∧
        viewSlotOk (eraseAt i s.customDataContainer) (slotIdx b rp') (slotView b rp') ∧
        ∀ kk, slotIdx b rp = some kk → kk ≠ i := by
  have hown : i < s.customDataContainer.length ∧
      s.customDataContainer[i]? = some (slotView bd r) := by
    have h0 := hok j bd r hj
    rw [hidx] at h0
    exact h0
  have hne_of : ∀ (b : Bool) (kk : Nat), (p ≠ j ∨ b ≠ bd) → slotIdx b rp = some kk →
      kk ≠ i := by
    intro b kk hpb hbk hkeq
    subst hkeq
    obtain ⟨hpj, hbd⟩ := hdisj p j b bd rp r kk hp hj hbk hidx
    rcases hpb with h | h
    · exact h hpj
    · exact h hbd
  obtain ⟨hcont, r', hgr, hsh, hap, hrep, hck, Hdp, Hcd, Hdpn, Hcdn, Hdps, Hcds⟩ :=
    removeCustomData_track i s hown.1 p rp hp
  have hdpv : r'.defaultPayload = rp.defaultPayload := by
    cases hdpi : rp.defaultPayloadIndex with
    | none => exact (Hdpn hdpi).2
    | some kk =>
      by_cases hki : kk = i
      · subst hki
        exact (Hdps hdpi).2
      · have hcs : s.customDataContainer[kk]? = some rp.defaultPayload := by
          have h0 := hok p true rp hp
          rw [show slotIdx true rp = some kk from by simp [slotIdx, hdpi]] at h0
          exact h0.2
        exact (Hdp kk hdpi hcs hki).1
  have hcdv : r'.customData = rp.customData := by
    cases hcdi : rp.customDataIndex with
    | none => exact (Hcdn hcdi).2
    | some kk =>
      by_cases hki : kk = i
      · subst hki
        exact (Hcds hcdi).2
      · have hcs : s.customDataContainer[kk]? = some rp.customData := by
          have h0 := hok p false rp hp
          rw [show slotIdx false rp = some kk from by simp [slotIdx, hcdi]] at h0
          exact h0.2
        exact (Hcd kk hcdi hcs hki).1
  refine ⟨r', hgr, by simp [contentOf, hsh, hap, hdpv, hcdv], hrep, hck, ?_⟩
  intro b hpb
  cases b
  · cases hcdi : rp.customDataIndex with
    | none =>
      obtain ⟨hi', hv'⟩ := Hcdn hcdi
      have hinv : rp.customData = Payload.invalid := by
        have h0 := hok p false rp hp
        rw [show slotIdx false rp = none from by simp [slotIdx, hcdi]] at h0
        exact h0
      refine ⟨by simp [slotIdx, hi', hcdi], ?_, ?_⟩
      · rw [show slotIdx false r' = r'.customDataIndex from by simp [slotIdx],
          show slotView false r' = r'.customData from by simp [slotView], hi', hv', hinv]
        exact rfl
      · intro kk hkk
        simp [slotIdx, hcdi] at hkk
    | some kk =>
      have hkki : kk ≠ i := hne_of false kk hpb (by simp [slotIdx, hcdi])
      have hcs : s.customDataContainer[kk]? = some rp.customData := by
        have h0 := hok p false rp hp
        rw [show slotIdx false rp = some kk from by simp [slotIdx, hcdi]] at h0
        exact h0.2
      obtain ⟨hv', hvs, hi'⟩ := Hcd kk hcdi hcs hkki
      refine ⟨by simp [slotIdx, hi', hcdi], ?_, ?_⟩
      · rw [show slotIdx false r' = r'.customDataIndex from by simp [slotIdx],
          show slotView false r' = r'.customData from by simp [slotView], hcdv]
        exact hvs
      · intro kk' hkk'
        simp [slotIdx, hcdi] at hkk'
        subst hkk'
        exact hkki
  · cases hdpi : rp.defaultPayloadIndex with
    | none =>
      obtain ⟨hi', hv'⟩ := Hdpn hdpi
      have hinv : rp.defaultPayload = Payload.invalid := by
        have h0 := hok p true rp hp
        rw [show slotIdx true rp = none from by simp [slotIdx, hdpi]] at h0
        exact h0
      refine ⟨by simp [slotIdx, hi', hdpi], ?_, ?_⟩
      · rw [show slotIdx true r' = r'.defaultPayloadIndex from by simp [slotIdx],
          show slotView true r' = r'.defaultPayload from by simp [slotView], hi', hv', hinv]
        exact rfl
      · intro kk hkk
        simp [slotIdx, hdpi] at hkk
    | some kk =>
      have hkki : kk ≠ i := hne_of true kk hpb (by simp [slotIdx, hdpi])
      have hcs : s.customDataContainer[kk]? = some rp.defaultPayload := by
        have h0 := hok p true rp hp
        rw [show slotIdx true rp = some kk from by simp [slotIdx, hdpi]] at h0
        exact h0.2
      obtain ⟨hv', hvs, hi'⟩ := Hdp kk hdpi hcs hkki
      refine ⟨by simp [slotIdx, hi', hdpi], ?_, ?_⟩
      · rw [show slotIdx true r' = r'.defaultPayloadIndex from by simp [slotIdx],
          show slotView true r' = r'.defaultPayload from by simp [slotView], hdpv]
        exact hvs
      · intro kk' hkk'
        simp [slotIdx, hdpi] at hkk'
        subst hkk'
        exact hkki

/-- `RemoveCustomData` of an owned slot restores consistency and
disjointness for every slot but the (now stale) owner. -/
theorem removeOwned_exc (bd : Bool) (i j : Nat) (s : RegistryState)
    (r : RegistryRecord) (hj : s.dataContainer[j]? = some r)
    (hidx : slotIdx bd r = some i)
    (hok : SlotsOk s.customDataContainer s.dataContainer)
    (hdisj : SlotsDisj s.dataContainer) :
    (removeCustomData i s).customDataContainer = eraseAt i s.customDataContainer ∧
    (removeCustomData i s).dataContainer.length = s.dataContainer.length ∧
    SlotsOkExc (removeCustomData i s).customDataContainer
      (removeCustomData i s).dataContainer j bd ∧
    SlotsDisjExc (removeCustomData i s).dataContainer j bd := by
  have hl : i < s.customDataContainer.length := by
    have h0 := hok j bd r hj
    rw [hidx] at h0
    exact h0.1
  have hcont : (removeCustomData i s).customDataContainer =
      eraseAt i s.customDataContainer :=
    (removeCustomData_track i s hl j r hj).1
  have hlen := removeCustomData_len i s
  have hold : ∀ (p : Nat) (rp' : RegistryRecord),
      (removeCustomData i s).dataContainer[p]? = some rp' →
      ∃ rp, s.dataContainer[p]? = some rp := by
    intro p rp' hp'
    have hplen : p < s.dataContainer.length := by
      have := (List.getElem?_eq_some_iff.mp hp').1
      omega
    have hsome : (s.dataContainer[p]?).isSome = true := by
      rw [List.getElem?_eq_getElem hplen]
      rfl
    obtain ⟨rp, hrp⟩ := Option.isSome_iff_exists.mp hsome
    exact ⟨rp, hrp⟩
  refine ⟨hcont, hlen, ?_, ?_⟩
  · intro p b rp' hp' hpb
    obtain ⟨rp, hrp⟩ := hold p rp' hp'
    obtain ⟨rp'', hgr, -, -, -, hslots⟩ :=
      removeOwned_slot bd i j s r hj hidx hok hdisj p rp hrp
    rw [hgr] at hp'
    cases hp'
    rw [hcont]
    exact (hslots b hpb).2.1
  · intro p q bp bq rp' rq' k hp' hq' hpb hqb h1 h2
    obtain ⟨rp, hrp⟩ := hold p rp' hp'
    obtain ⟨rq, hrq⟩ := hold q rq' hq'
    obtain ⟨rp'', hgrp, -, -, -, hslotsp⟩ :=
      removeOwned_slot bd i j s r hj hidx hok hdisj p rp hrp
    obtain ⟨rq'', hgrq, -, -, -, hslotsq⟩ :=
      removeOwned_slot bd i j s r hj hidx hok hdisj q rq hrq
    rw [hgrp] at hp'
    cases hp'
    rw [hgrq] at hq'
    cases hq'
    obtain ⟨hmp, -, hnep⟩ := hslotsp bp hpb
    obtain ⟨hmq, -, hneq⟩ := hslotsq bq hqb
    rw [hmp] at h1
    rw [hmq] at h2
    obtain ⟨kkp, hkp, hφp⟩ := Option.map_eq_some'.mp h1
    obtain ⟨kkq, hkq, hφq⟩ := Option.map_eq_some'.mp h2
    have hip : kkp ≠ i := hnep kkp hkp
    have hiq : kkq ≠ i := hneq kkq hkq
    have hkk : kkp = kkq := by
      rw [← hφq] at hφp
      split_ifs at hφp <;> omega
    subst hkk
    exact hdisj p q bp bq rp rq kkp hrp hrq hkp hkq

theorem viewSlotOk_append (cont l : List Payload) (o : Option Nat) (v : Payload)
    (h : viewSlotOk cont o v) : viewSlotOk (cont ++ l) o v := by
  cases o with
  | none => exact h
  | some k =>
    obtain ⟨hk, hv⟩ := h
    refine ⟨by simp; omega, ?_⟩
    rw [List.getElem?_append, if_pos hk]
    exact hv

/-- The exact effect of `appendSlot`: record `j`'s slot is rebound to a
fresh container entry (or cleared), everything else untouched. -/
theorem appendSlot_track2 (isDp : Bool) (inView : Payload) (j : Nat) (s : RegistryState)
    (r : RegistryRecord) (hj : s.dataContainer[j]? = some r) :
    (appendSlot isDp inView j s).dataContainer.length = s.dataContainer.length ∧
    (∀ p : Nat, p ≠ j →
      (appendSlot isDp inView j s).dataContainer[p]? = s.dataContainer[p]?) ∧
    (appendSlot isDp inView j s).dataContainer[j]? =
      some (slotSet isDp (normalizeView inView)
        (if inView.isValid then some s.customDataContainer.length else none) r) ∧
    (appendSlot isDp inView j s).customDataContainer =
      (if inView.isValid then s.customDataContainer ++ [inView]
        else s.customDataContainer) ∧
    (appendSlot isDp inView j s).dataMap = s.dataMap ∧
    (appendSlot isDp inView j s).replicationMap = s.replicationMap ∧
    (appendSlot isDp inView j s).archetypes = s.archetypes ∧
    (appendSlot isDp inView j s).checksum = s.checksum := by
  unfold appendSlot
  by_cases hv : inView.isValid = true
  · rw [if_pos hv]
    refine ⟨by simp, ?_, ?_, by rw [if_pos hv], rfl, rfl, rfl, rfl⟩
    · intro p hp
      dsimp only
      rw [modifyAt_getElemQ, if_neg hp]
    · dsimp only
      rw [modifyAt_getElemQ, if_pos rfl, hj, if_pos hv]
      simp [normalizeView, hv]
  · rw [if_neg hv]
    refine ⟨by simp, ?_, ?_, by rw [if_neg hv], rfl, rfl, rfl, rfl⟩
    · intro p hp
      dsimp only
      rw [modifyAt_getElemQ, if_neg hp]
    · dsimp only
      rw [modifyAt_getElemQ, if_pos rfl, hj, if_neg hv]
      simp [normalizeView, hv]

/-- `appendSlot` restores full slot consistency and disjointness from the
states left by the removal/refresh steps. -/
theorem appendSlot_restore (isDp : Bool) (inView : Payload) (j : Nat) (s : RegistryState)
    (r : RegistryRecord) (hj : s.dataContainer[j]? = some r)
    (hok : SlotsOkExc s.customDataContainer s.dataContainer j isDp)
    (hdisj : SlotsDisjExc s.dataContainer j isDp) :
    SlotsOk (appendSlot isDp inView j s).customDataContainer
      (appendSlot isDp inView j s).dataContainer ∧
    SlotsDisj (appendSlot isDp inView j s).dataContainer := by
  obtain ⟨hlen, hother, hjnew, hcont, -, -, -, -⟩ :=
    appendSlot_track2 isDp inView j s r hj
  by_cases hv : inView.isValid = true
  · rw [if_pos hv] at hcont
    constructor
    · intro p b rp' hp'
      by_cases hpj : p = j
      · subst hpj
        rw [hjnew] at hp'
        cases hp'
        by_cases hb : b = isDp
        · subst hb
          rw [slotIdx_slotSet, if_pos rfl, slotView_slotSet, if_pos rfl, if_pos hv,
            hcont]
          refine ⟨by simp, ?_⟩
          rw [List.getElem?_concat_length]
          simp [normalizeView, hv]
        · rw [slotIdx_slotSet, if_neg hb, slotView_slotSet, if_neg hb, hcont]
          exact viewSlotOk_append _ _ _ _ (hok _ b r hj (Or.inr hb))
      · rw [hother p hpj] at hp'
        rw [hcont]
        exact viewSlotOk_append _ _ _ _ (hok p b rp' hp' (Or.inl hpj))
    · intro p q bp bq rp' rq' k hp' hq' h1 h2
      have hbound : ∀ (p0 : Nat) (b0 : Bool) (r0 : RegistryRecord),
          (appendSlot isDp inView j s).dataContainer[p0]? = some r0 →
          (p0 ≠ j ∨ b0 ≠ isDp) → slotIdx b0 r0 = some k →
          (∃ r1, s.dataContainer[p0]? = some r1 ∧ slotIdx b0 r1 = some k) ∧
            k < s.customDataContainer.length := by
        intro p0 b0 r0 hp0 hex hik
        by_cases hpj : p0 = j
        · rw [hpj, hjnew] at hp0
          cases hp0
          have hbne : b0 ≠ isDp := by
            rcases hex with h | h
            · exact absurd hpj h
            · exact h
          rw [slotIdx_slotSet, if_neg hbne] at hik
          have hvok := hok j b0 r hj (Or.inr hbne)
          rw [hik] at hvok
          refine ⟨⟨r, ?_, hik⟩, hvok.1⟩
          rw [hpj]
          exact hj
        · rw [hother p0 hpj] at hp0
          have hvok := hok p0 b0 r0 hp0 (Or.inl hpj)
          rw [hik] at hvok
          exact ⟨⟨r0, hp0, hik⟩, hvok.1⟩
      by_cases hpj : p = j ∧ bp = isDp
      · obtain ⟨hp1, hb1⟩ := hpj
        rw [hp1, hjnew] at hp'
        cases hp'
        rw [hb1, slotIdx_slotSet, if_pos rfl, if_pos hv] at h1
        cases h1
        by_cases hqj : q = j ∧ bq = isDp
        · exact ⟨hp1.trans hqj.1.symm, hb1.trans hqj.2.symm⟩
        · exfalso
          have hq2 : q ≠ j ∨ bq ≠ isDp := by tauto
          have := (hbound q bq rq' hq' hq2 h2).2
          omega
      · have hp2 : p ≠ j ∨ bp ≠ isDp := by tauto
        by_cases hqj : q = j ∧ bq = isDp
        · exfalso
          obtain ⟨hq1, hb1⟩ := hqj
          rw [hq1, hjnew] at hq'
          cases hq'
          rw [hb1, slotIdx_slotSet, if_pos rfl, if_pos hv] at h2
          cases h2
          have := (hbound p bp rp' hp' hp2 h1).2
          omega
        · have hq2 : q ≠ j ∨ bq ≠ isDp := by tauto
          obtain ⟨⟨r1, hr1, hk1⟩, -⟩ := hbound p bp rp' hp' hp2 h1
          obtain ⟨⟨r2, hr2, hk2⟩, -⟩ := hbound q bq rq' hq' hq2 h2
          exact hdisj p q bp bq r1 r2 k hr1 hr2 hp2 hq2 hk1 hk2
  · rw [if_neg hv] at hcont
    constructor
    · intro p b rp' hp'
      by_cases hpj : p = j
      · subst hpj
        rw [hjnew] at hp'
        cases hp'
        by_cases hb : b = isDp
        · subst hb
          rw [slotIdx_slotSet, if_pos rfl, slotView_slotSet, if_pos rfl, if_neg hv,
            hcont]
          simp [normalizeView, hv, viewSlotOk]
        · rw [slotIdx_slotSet, if_neg hb, slotView_slotSet, if_neg hb, hcont]
          exact hok _ b r hj (Or.inr hb)
      · rw [hother p hpj] at hp'
        rw [hcont]
        exact hok p b rp' hp' (Or.inl hpj)
    · intro p q bp bq rp' rq' k hp' hq' h1 h2
      have hback : ∀ (p0 : Nat) (b0 : Bool) (r0 : RegistryRecord),
          (appendSlot isDp inView j s).dataContainer[p0]? = some r0 →
          slotIdx b0 r0 = some k →
          (p0 ≠ j ∨ b0 ≠ isDp) ∧
            ∃ r1, s.dataContainer[p0]? = some r1 ∧ slotIdx b0 r1 = some k := by
        intro p0 b0 r0 hp0 hik
        by_cases hpj : p0 = j
        · subst hpj
          rw [hjnew] at hp0
          cases hp0
          by_cases hb : b0 = isDp
          · subst hb
            rw [slotIdx_slotSet, if_pos rfl, if_neg hv] at hik
            cases hik
          · rw [slotIdx_slotSet, if_neg hb] at hik
            exact ⟨Or.inr hb, r, hj, hik⟩
        · rw [hother p0 hpj] at hp0
          exact ⟨Or.inl hpj, r0, hp0, hik⟩
      obtain ⟨hp2, r1, hr1, hk1⟩ := hback p bp rp' hp' h1
      obtain ⟨hq2, r2, hr2, hk2⟩ := hback q bq rq' hq' h2
      exact hdisj p q bp bq r1 r2 k hr1 hr2 hp2 hq2 hk1 hk2

theorem slotsDisj_congr {recs recs' : List RegistryRecord}
    (h : ∀ (p : Nat) (b : Bool),
      (recs'[p]?).map (slotIdx b) = (recs[p]?).map (slotIdx b))
    (hd : SlotsDisj recs) : SlotsDisj recs' := by
  intro p q bp bq rp rq k hp hq h1 h2
  have e1 := h p bp
  have e2 := h q bq
  rw [hp] at e1
  rw [hq] at e2
  cases hrp0 : recs[p]? with
  | none => rw [hrp0] at e1; cases e1
  | some rp0 =>
    cases hrq0 : recs[q]? with
    | none => rw [hrq0] at e2; cases e2
    | some rq0 =>
      rw [hrp0] at e1
      rw [hrq0] at e2
      simp only [Option.map_some', Option.some_inj] at e1 e2
      exact hd p q bp bq rp0 rq0 k hrp0 hrq0 (by rw [← e1, h1]) (by rw [← e2, h2])

/-- One `RefreshCustomData` call: record `j`'s slot takes the incoming
view, everything else keeps its content, and slot consistency and
disjointness are maintained. -/
theorem refresh_track (isDp : Bool) (inView : Payload) (j : Nat) (s : RegistryState)
    (r : RegistryRecord) (hj : s.dataContainer[j]? = some r)
    (hok : SlotsOk s.customDataContainer s.dataContainer)
    (hdisj : SlotsDisj s.dataContainer) :
    ∃ r', (refreshCustomData isDp inView j s).dataContainer[j]? = some r' ∧
      r'.sharedData = r.sharedData ∧ r'.assetPath = r.assetPath ∧
      r'.repIndex = r.repIndex ∧ r'.checksum = r.checksum ∧
      slotView isDp r' = normalizeView inView ∧
      slotView (!isDp) r' = slotView (!isDp) r ∧
      (refreshCustomData isDp inView j s).dataContainer.length =
        s.dataContainer.length ∧
      (∀ (p : Nat) (rp : RegistryRecord), p ≠ j → s.dataContainer[p]? = some rp →
        ∃ rp', (refreshCustomData isDp inView j s).dataContainer[p]? = some rp' ∧
          contentOf rp' = contentOf rp ∧ rp'.repIndex = rp.repIndex ∧
          rp'.checksum = rp.checksum) ∧
      SlotsOk (refreshCustomData isDp inView j s).customDataContainer
        (refreshCustomData isDp inView j s).dataContainer ∧
      SlotsDisj (refreshCustomData isDp inView j s).dataContainer := by
  by_cases hEx : (if isDp then r.defaultPayload else r.customData).isValid = true ∧
      (if isDp then r.defaultPayloadIndex else r.customDataIndex).isSome = true
  · by_cases hTy : (if isDp then r.defaultPayload else r.customData).ptype = inView.ptype
    · -- in-place copy into the existing shared slot
      obtain ⟨i₀, hEi⟩ := Option.isSome_iff_exists.mp hEx.2
      have hEi' : slotIdx isDp r = some i₀ := hEi
      have hvok : i₀ < s.customDataContainer.length ∧
          s.customDataContainer[i₀]? = some (slotView isDp r) := by
        have h0 := hok j isDp r hj
        rw [hEi'] at h0
        exact h0
      have hvin : inView.isValid = true := by
        have h1 := hEx.1
        have hTy' : (slotView isDp r).ptype = inView.ptype := hTy
        simp only [Payload.isValid, ne_eq, decide_eq_true_eq] at h1 ⊢
        rw [← hTy']
        exact h1
      have hred : refreshCustomData isDp inView j s =
          { s with
            customDataContainer := s.customDataContainer.set i₀ inView,
            dataContainer :=
              modifyAt j (slotSet isDp inView (some i₀)) s.dataContainer } := by
        simp only [refreshCustomData, hj, Option.getD_some]
        rw [if_pos hEx, if_pos hTy, hEi]
        rfl
      rw [hred]
      refine ⟨slotSet isDp inView (some i₀) r, ?_,
        (slotSet_meta _ _ _ _).1, (slotSet_meta _ _ _ _).2.1,
        (slotSet_meta _ _ _ _).2.2.1, (slotSet_meta _ _ _ _).2.2.2,
        by rw [slotView_slotSet, if_pos rfl]; simp [normalizeView, hvin],
        by rw [slotView_slotSet, if_neg (Bool.not_ne_self isDp)],
        by simp, ?_, ?_, ?_⟩
      · show (modifyAt j (slotSet isDp inView (some i₀)) s.dataContainer)[j]? =
          some (slotSet isDp inView (some i₀) r)
        rw [modifyAt_getElemQ, if_pos rfl, hj]
        rfl
      · intro p rp hpj hp
        refine ⟨rp, ?_, rfl, rfl, rfl⟩
        show (modifyAt j (slotSet isDp inView (some i₀)) s.dataContainer)[p]? = some rp
        rw [modifyAt_getElemQ, if_neg hpj]
        exact hp
      · intro p b rp' hp'
        have hp'' : (modifyAt j (slotSet isDp inView (some i₀))
            s.dataContainer)[p]? = some rp' := hp'
        rw [modifyAt_getElemQ] at hp''
        show viewSlotOk (s.customDataContainer.set i₀ inView)
          (slotIdx b rp') (slotView b rp')
        by_cases hpj : p = j
        · rw [if_pos hpj, hj] at hp''
          simp only [Option.map_some', Option.some_inj] at hp''
          subst hp''
          by_cases hb : b = isDp
          · subst hb
            rw [slotIdx_slotSet, if_pos rfl, slotView_slotSet, if_pos rfl]
            show i₀ < (s.customDataContainer.set i₀ inView).length ∧
              (s.customDataContainer.set i₀ inView)[i₀]? = some inView
            rw [List.length_set, List.getElem?_set_self']
            exact ⟨hvok.1, by simp [hvok.1]⟩
          · rw [slotIdx_slotSet, if_neg hb, slotView_slotSet, if_neg hb]
            have h0 := hok j b r hj
            cases hsi : slotIdx b r with
            | none =>
              rw [hsi] at h0
              exact h0
            | some k =>
              rw [hsi] at h0
              have hki : k ≠ i₀ := by
                intro he
                subst he
                obtain ⟨-, hbd⟩ := hdisj j j b isDp r r k hj hj hsi hEi'
                exact hb hbd
              show k < (s.customDataContainer.set i₀ inView).length ∧
                (s.customDataContainer.set i₀ inView)[k]? = some (slotView b r)
              rw [List.length_set, List.getElem?_set_ne (Ne.symm hki)]
              exact ⟨h0.1, h0.2⟩
        · rw [if_neg hpj] at hp''
          have h0 := hok p b rp' hp''
          cases hsi : slotIdx b rp' with
          | none =>
            rw [hsi] at h0
            exact h0
          | some k =>
            rw [hsi] at h0
            have hki : k ≠ i₀ := by
              intro he
              subst he
              obtain ⟨hpj2, -⟩ := hdisj p j b isDp rp' r k hp'' hj hsi hEi'
              exact hpj hpj2
            show k < (s.customDataContainer.set i₀ inView).length ∧
              (s.customDataContainer.set i₀ inView)[k]? = some (slotView b rp')
            rw [List.length_set, List.getElem?_set_ne (Ne.symm hki)]
            exact ⟨h0.1, h0.2⟩
      · apply slotsDisj_congr ?_ hdisj
        intro p b
        show ((modifyAt j (slotSet isDp inView (some i₀))
          s.dataContainer)[p]?).map (slotIdx b) =
          (s.dataContainer[p]?).map (slotIdx b)
        rw [modifyAt_getElemQ]
        by_cases hpj : p = j
        · rw [if_pos hpj, hpj, hj]
          simp only [Option.map_some', Option.some_inj, slotIdx_slotSet]
          by_cases hb : b = isDp
          · rw [if_pos hb, hb, hEi']
          · rw [if_neg hb]
        · rw [if_neg hpj]
    · -- type mismatch: free the old blob, then bind a fresh one
      obtain ⟨i₀, hEi⟩ := Option.isSome_iff_exists.mp hEx.2
      have hEi' : slotIdx isDp r = some i₀ := hEi
      have hred : refreshCustomData isDp inView j s =
          appendSlot isDp inView j (removeCustomData i₀ s) := by
        simp only [refreshCustomData, hj, Option.getD_some]
        rw [if_pos hEx, if_neg hTy, hEi]
        rfl
      obtain ⟨hcont₁, hlen₁, hokE, hdisjE⟩ :=
        removeOwned_exc isDp i₀ j s r hj hEi' hok hdisj
      obtain ⟨r₁, hgr₁, hcnt₁, hrep₁, hck₁, -⟩ :=
        removeOwned_slot isDp i₀ j s r hj hEi' hok hdisj j r hj
      obtain ⟨hlen₂, hother₂, hjnew₂, hcont₂, -, -, -, -⟩ :=
        appendSlot_track2 isDp inView j (removeCustomData i₀ s) r₁ hgr₁
      obtain ⟨hokF, hdisjF⟩ :=
        appendSlot_restore isDp inView j (removeCustomData i₀ s) r₁ hgr₁ hokE hdisjE
      rw [hred]
      obtain ⟨hsh₁, hap₁, -, -⟩ := contentOf_fields hcnt₁
      refine ⟨slotSet isDp (normalizeView inView) _ r₁, hjnew₂,
        by rw [(slotSet_meta _ _ _ _).1, hsh₁],
        by rw [(slotSet_meta _ _ _ _).2.1, hap₁],
        by rw [(slotSet_meta _ _ _ _).2.2.1, hrep₁],
        by rw [(slotSet_meta _ _ _ _).2.2.2, hck₁],
        by rw [slotView_slotSet, if_pos rfl],
        by rw [slotView_slotSet, if_neg (Bool.not_ne_self isDp)];
           exact slotView_of_contentOf hcnt₁ _,
        by rw [hlen₂, hlen₁], ?_, hokF, hdisjF⟩
      intro p rp hpj hp
      obtain ⟨rp₁, hgrp, hcntp, hrepp, hckp, -⟩ :=
        removeOwned_slot isDp i₀ j s r hj hEi' hok hdisj p rp hp
      refine ⟨rp₁, ?_, hcntp, hrepp, hckp⟩
      rw [hother₂ p hpj]
      exact hgrp
  · -- no existing blob: bind a fresh slot directly
    have hred : refreshCustomData isDp inView j s = appendSlot isDp inView j s := by
      simp only [refreshCustomData, hj, Option.getD_some]
      rw [if_neg hEx]
    obtain ⟨hlen₂, hother₂, hjnew₂, hcont₂, -, -, -, -⟩ :=
      appendSlot_track2 isDp inView j s r hj
    obtain ⟨hokF, hdisjF⟩ := appendSlot_restore isDp inView j s r hj
      (slotsOkExc_of_ok j isDp hok) (slotsDisjExc_of_disj j isDp hdisj)
    rw [hred]
    refine ⟨slotSet isDp (normalizeView inView) _ r, hjnew₂,
      (slotSet_meta _ _ _ _).1, (slotSet_meta _ _ _ _).2.1,
      (slotSet_meta _ _ _ _).2.2.1, (slotSet_meta _ _ _ _).2.2.2,
      by rw [slotView_slotSet, if_pos rfl],
      by rw [slotView_slotSet, if_neg (Bool.not_ne_self isDp)],
      hlen₂, ?_, hokF, hdisjF⟩
    intro p rp hpj hp
    exact ⟨rp, by rw [hother₂ p hpj]; exact hp, rfl, rfl, rfl⟩

@[simp] theorem refreshCustomData_replicationMap (isDp : Bool) (v : Payload) (j : Nat)
    (s : RegistryState) : (refreshCustomData isDp v j s).replicationMap =
      s.replicationMap := by
  simp only [refreshCustomData]
  repeat' split
  all_goals simp [appendSlot, removeCustomData]
  all_goals repeat' split
  all_goals simp

/-- `UpdStep1` of the update path: only record `j`'s shared data and asset
path move, and the slot invariants survive untouched. -/
theorem updStep1_track (rec : RegistryRecord) (j : Nat) (s : RegistryState)
    (r : RegistryRecord) (hj : s.dataContainer[j]? = some r)
    (hok : SlotsOk s.customDataContainer s.dataContainer)
    (hdisj : SlotsDisj s.dataContainer) :
    (updStep1 rec j s).dataContainer[j]? =
      some { r with sharedData := rec.sharedData, assetPath := rec.assetPath } ∧
    (updStep1 rec j s).dataContainer.length = s.dataContainer.length ∧
    (∀ p : Nat, p ≠ j → (updStep1 rec j s).dataContainer[p]? = s.dataContainer[p]?) ∧
    (updStep1 rec j s).customDataContainer = s.customDataContainer ∧
    (updStep1 rec j s).dataMap = s.dataMap ∧
    (updStep1 rec j s).replicationMap = s.replicationMap ∧
    SlotsOk (updStep1 rec j s).customDataContainer (updStep1 rec j s).dataContainer ∧
    SlotsDisj (updStep1 rec j s).dataContainer := by
  refine ⟨?_, by simp [updStep1], ?_, rfl, rfl, rfl, ?_, ?_⟩
  · show (modifyAt j _ s.dataContainer)[j]? = _
    rw [modifyAt_getElemQ, if_pos rfl, hj]
    rfl
  · intro p hpj
    show (modifyAt j _ s.dataContainer)[p]? = _
    rw [modifyAt_getElemQ, if_neg hpj]
  · intro p b rp' hp'
    have hp'' : (modifyAt j
        (fun r0 => { r0 with sharedData := rec.sharedData, assetPath := rec.assetPath })
        s.dataContainer)[p]? = some rp' := hp'
    rw [modifyAt_getElemQ] at hp''
    by_cases hpj : p = j
    · rw [if_pos hpj, hj] at hp''
      simp only [Option.map_some', Option.some_inj] at hp''
      subst hp''
      exact hok j b r hj
    · rw [if_neg hpj] at hp''
      exact hok p b rp' hp''
  · apply slotsDisj_congr ?_ hdisj
    intro p b
    show ((modifyAt j
      (fun r0 => { r0 with sharedData := rec.sharedData, assetPath := rec.assetPath })
      s.dataContainer)[p]?).map (slotIdx b) = (s.dataContainer[p]?).map (slotIdx b)
    rw [modifyAt_getElemQ]
    by_cases hpj : p = j
    · rw [if_pos hpj, hpj, hj]
      cases b <;> rfl
    · rw [if_neg hpj]

/-- `UpdStep4` of the update path: only record `j`'s cached checksum is
cleared. -/
theorem updStep4_track (j : Nat) (s : RegistryState) (r : RegistryRecord)
    (hj : s.dataContainer[j]? = some r) :
    (updStep4 j s).dataContainer[j]? = some { r with checksum := 0 } ∧
    (updStep4 j s).dataContainer.length = s.dataContainer.length ∧
    (∀ p : Nat, p ≠ j → (updStep4 j s).dataContainer[p]? = s.dataContainer[p]?) ∧
    (updStep4 j s).dataMap = s.dataMap ∧
    (updStep4 j s).replicationMap = s.replicationMap := by
  refine ⟨?_, by simp [updStep4], ?_, rfl, rfl⟩
  · show (modifyAt j _ s.dataContainer)[j]? = _
    rw [modifyAt_getElemQ, if_pos rfl, hj]
    rfl
  · intro p hpj
    show (modifyAt j _ s.dataContainer)[p]? = _
    rw [modifyAt_getElemQ, if_neg hpj]

/-- **C10.** When `AppendData` is called with a record whose id already
exists, the update path runs and returns `false`, and no index fixup
occurs: the record count, the per-position record ids and replication
indices, the id-to-index map and the replication-index-to-index map are
all unchanged, every other record keeps its shared data, asset path,
payload values and checksum, and only the matched record takes the
incoming shared data, asset path and payload contents. -/
theorem C10_update_path_frame (rec : RegistryRecord) (s : RegistryState)
    (hwf : WF s) (hc : s.containsRecord rec.id = true) :
    ∃ j s', s.appendData rec = (false, s') ∧ findA s.dataMap rec.id = some j ∧
      s'.dataContainer.length = s.dataContainer.length ∧
      s'.dataMap = s.dataMap ∧
      s'.replicationMap = s.replicationMap ∧
      (∀ i : Nat, (s'.dataContainer[i]?).map RegistryRecord.id =
        (s.dataContainer[i]?).map RegistryRecord.id) ∧
      (∀ i : Nat, (s'.dataContainer[i]?).map RegistryRecord.repIndex =
        (s.dataContainer[i]?).map RegistryRecord.repIndex) ∧
      (∀ (p : Nat) (rp : RegistryRecord), p ≠ j → s.dataContainer[p]? = some rp →
        ∃ rp', s'.dataContainer[p]? = some rp' ∧
          contentOf rp' = contentOf rp ∧ rp'.checksum = rp.checksum) ∧
      ∃ r', s'.dataContainer[j]? = some r' ∧
        r'.sharedData = rec.sharedData ∧ r'.assetPath = rec.assetPath ∧
        r'.defaultPayload = normalizeView rec.defaultPayload ∧
        r'.customData = normalizeView rec.customData := by
  obtain ⟨j, hfa, hjlt, hid⟩ := wf_lookup hwf hc
  obtain ⟨r₀, hj0⟩ : ∃ r₀, s.dataContainer[j]? = some r₀ := by
    cases h : s.dataContainer[j]? with
    | none => rw [h] at hid; cases hid
    | some r₀ => exact ⟨r₀, rfl⟩
  have hid0 : r₀.id = rec.id := by
    rw [hj0] at hid
    simpa using hid
  have happ : s.appendData rec = (false, updStep4 j
      (refreshCustomData false rec.customData j
        (refreshCustomData true rec.defaultPayload j (updStep1 rec j s)))) := by
    unfold RegistryState.appendData
    rw [if_pos hc, hfa]
    rfl
  have hok := slotsOk_of_wf hwf
  have hdisj := slotsDisj_of_wf hwf
  obtain ⟨hj1, hlen1, hoth1, hcc1, hdm1, hrm1, hok1, hdisj1⟩ :=
    updStep1_track rec j s r₀ hj0 hok hdisj
  obtain ⟨r₂, hj2, hsh2, hap2, hrep2, hck2, hdp2, hcd2, hlen2, hframe2, hok2, hdisj2⟩ :=
    refresh_track true rec.defaultPayload j (updStep1 rec j s) _ hj1 hok1 hdisj1
  obtain ⟨r₃, hj3, hsh3, hap3, hrep3, hck3, hcd3, hdp3, hlen3, hframe3, hok3, hdisj3⟩ :=
    refresh_track false rec.customData j
      (refreshCustomData true rec.defaultPayload j (updStep1 rec j s)) r₂ hj2 hok2 hdisj2
  obtain ⟨hj4, hlen4, hoth4, hdm4, hrm4⟩ :=
    updStep4_track j (refreshCustomData false rec.customData j
      (refreshCustomData true rec.defaultPayload j (updStep1 rec j s))) r₃ hj3
  have hlenAll : (updStep4 j (refreshCustomData false rec.customData j
      (refreshCustomData true rec.defaultPayload j
        (updStep1 rec j s)))).dataContainer.length = s.dataContainer.length :=
    hlen4.trans (hlen3.trans (hlen2.trans hlen1))
  have hframe : ∀ (p : Nat) (rp : RegistryRecord), p ≠ j →
      s.dataContainer[p]? = some rp →
      ∃ rp', (updStep4 j (refreshCustomData false rec.customData j
          (refreshCustomData true rec.defaultPayload j
            (updStep1 rec j s)))).dataContainer[p]? = some rp' ∧
        contentOf rp' = contentOf rp ∧ rp'.repIndex = rp.repIndex ∧
        rp'.checksum = rp.checksum := by
    intro p rp hpj hp
    have hp1 : (updStep1 rec j s).dataContainer[p]? = some rp := by
      rw [hoth1 p hpj]
      exact hp
    obtain ⟨rpa, hga, hca, hra, hka⟩ := hframe2 p rp hpj hp1
    obtain ⟨rpb, hgb, hcb, hrb, hkb⟩ := hframe3 p rpa hpj hga
    refine ⟨rpb, ?_, hcb.trans hca, hrb.trans hra, hkb.trans hka⟩
    rw [hoth4 p hpj]
    exact hgb
  have hshF : r₃.sharedData = rec.sharedData := hsh3.trans hsh2
  have hapF : r₃.assetPath = rec.assetPath := hap3.trans hap2
  have hdpF : r₃.defaultPayload = normalizeView rec.defaultPayload := hdp3.trans hdp2
  have hcdF : r₃.customData = normalizeView rec.customData := hcd3
  have hrepF : r₃.repIndex = r₀.repIndex := hrep3.trans hrep2
  refine ⟨j, updStep4 j (refreshCustomData false rec.customData j
      (refreshCustomData true rec.defaultPayload j (updStep1 rec j s))), happ, hfa, hlenAll,
    hdm4.trans ((refreshCustomData_dataMap _ _ _ _).trans
      ((refreshCustomData_dataMap _ _ _ _).trans hdm1)),
    hrm4.trans ((refreshCustomData_replicationMap _ _ _ _).trans
      ((refreshCustomData_replicationMap _ _ _ _).trans hrm1)),
    ?_, ?_, ?_, ?_⟩
  · intro i
    by_cases hij : i = j
    · subst hij
      rw [hj4, hj0]
      simp only [Option.map_some', Option.some_inj]
      show ({ r₃ with checksum := 0 } : RegistryRecord).sharedData.primaryAssetId =
        r₀.sharedData.primaryAssetId
      have hid0' : r₀.sharedData.primaryAssetId = rec.sharedData.primaryAssetId := hid0
      rw [hid0']
      exact congrArg SharedData.primaryAssetId hshF
    · cases hsi : s.dataContainer[i]? with
      | none =>
        have hge : s.dataContainer.length ≤ i := by
          by_contra hlt
          push_neg at hlt
          rw [List.getElem?_eq_getElem hlt] at hsi
          cases hsi
        rw [List.getElem?_eq_none (by rw [hlenAll]; exact hge)]
      | some rp =>
        obtain ⟨rp', hgr', hcnt', -, -⟩ := hframe i rp hij hsi
        rw [hgr']
        simp only [Option.map_some', Option.some_inj]
        obtain ⟨hsd, -, -, -⟩ := contentOf_fields hcnt'
        exact congrArg SharedData.primaryAssetId hsd
  · intro i
    by_cases hij : i = j
    · subst hij
      rw [hj4, hj0]
      simp only [Option.map_some', Option.some_inj]
      show r₃.repIndex = r₀.repIndex
      exact hrepF
    · cases hsi : s.dataContainer[i]? with
      | none =>
        have hge : s.dataContainer.length ≤ i := by
          by_contra hlt
          push_neg at hlt
          rw [List.getElem?_eq_getElem hlt] at hsi
          cases hsi
        rw [List.getElem?_eq_none (by rw [hlenAll]; exact hge)]
      | some rp =>
        obtain ⟨rp', hgr', -, hrp', -⟩ := hframe i rp hij hsi
        rw [hgr']
        simp only [Option.map_some', Option.some_inj]
        exact hrp'
  · intro p rp hpj hp
    obtain ⟨rp', hgr', hcnt', -, hck'⟩ := hframe p rp hpj hp
    exact ⟨rp', hgr', hcnt', hck'⟩
  · refine ⟨{ r₃ with checksum := 0 }, hj4, hshF, hapF, hdpF, hcdF⟩

/-- Witness for C10: a concrete well-formed state containing the incoming
record's id satisfies the theorem's hypotheses, and the call reports an
update. -/
theorem C10_witness :
    WF sampleState ∧
    sampleState.containsRecord (sampleRecord 1 1 5 ⟨7, [9, 9]⟩).id = true ∧
    (sampleState.appendData (sampleRecord 1 1 5 ⟨7, [9, 9]⟩)).1 = false :=
  ⟨by decide, by decide, by
    obtain ⟨j, s', happ, -⟩ := C10_update_path_frame (sampleRecord 1 1 5 ⟨7, [9, 9]⟩)
      sampleState (by decide) (by decide)
    rw [happ]⟩

/-! ## Redirects: `FCommonInventoryRedirects` and its resolution pipeline

`FName`s are modelled as `Nat`, with `0` standing for `NAME_None`. -/

/-- `FCommonInventoryRedirector`: one raw `old → new` entry. -/
structure Redirector where
  oldValue : Nat
  newValue : Nat
deriving DecidableEq, Repr

/-- `FCommonInventoryRedirector::IsValid`. -/
def Redirector.isValid (r : Redirector) : Bool :=
  r.oldValue ≠ 0 && r.newValue ≠ 0 && r.oldValue ≠ r.newValue

/-- `FCommonInventoryRedirector::SwapValues`. -/
def Redirector.swapValues (r : Redirector) : Redirector := ⟨r.newValue, r.oldValue⟩

/-- `GenerateRedirectionMap`'s loop: keep valid entries whose old value is
not already a key, in input order. -/
def genMapAux (acc : List (Nat × Nat)) : List Redirector → List (Nat × Nat)
  | [] => acc
  | rd :: rest =>
    if rd.isValid = false then genMapAux acc rest
    else if (findA acc rd.oldValue).isSome then genMapAux acc rest
    else genMapAux (acc ++ [(rd.oldValue, rd.newValue)]) rest

def generateRedirectionMap (rds : List Redirector) : List (Nat × Nat) :=
  genMapAux [] rds

/-- `ResolveValue`'s while loop, fuelled (the fuel below always covers
the longest possible chain). -/
def resolveValueAux (m : List (Nat × Nat)) (stop : Option Nat) (inV : Nat) :
    Nat → List Nat → Nat → Nat
  | 0, _, cur => cur
  | fuel + 1, visited, cur =>
    match findA m cur with
    | none => cur
    | some next =>
      if stop = some next then next
      else if visited.contains next then inV
      else resolveValueAux m stop inV fuel (emplaceS visited cur) next

/-- `ResolveValue`: follow the chain with an optional stop value, falling
back to the input on a cycle; returns whether the value changed, with the
final value. -/
def resolveValue (m : List (Nat × Nat)) (stop : Option Nat) (inV : Nat) : Bool × Nat :=
  let out := resolveValueAux m stop inV (m.length + 1) [inV] inV
  (inV != out, out)

/-- The chain walk of `ResolveRedirectionMap`'s main loop: returns the
visited keys and the final value (`0` = failed on a cycle). -/
def walkAux (m res : List (Nat × Nat)) (inv : List Nat) :
    Nat → List Nat → Nat → List Nat × Nat
  | 0, visited, cur => (visited, cur)
  | fuel + 1, visited, cur =>
    match findA m cur with
    | none => (visited, cur)
    | some next =>
      let visited' := emplaceS visited cur
      match findA res next with
      | some rv => (visited', rv)
      | none =>
        if visited'.contains next || inv.contains next then (visited', 0)
        else walkAux m res inv fuel visited' next

/-- One entry of `ResolveRedirectionMap`'s loop, acting on the pair of
the resolved map and the invalid-keys list. -/
def resolveStep (m : List (Nat × Nat)) (st : List (Nat × Nat) × List Nat)
    (e : Nat × Nat) : List (Nat × Nat) × List Nat :=
  match findA st.1 e.2 with
  | some rv => (emplaceA st.1 e.1 rv, st.2)
  | none =>
    if st.2.contains e.2 then (st.1, emplaceS st.2 e.1)
    else
      let w := walkAux m st.1 st.2 (m.length + 1) [e.1] e.2
      if w.2 ≠ 0 then (w.1.foldl (fun res k => emplaceA res k w.2) st.1, st.2)
      else (st.1, appendS st.2 w.1)

/-- `ResolveRedirectionMap`. -/
def resolveRedirectionMap (m : List (Nat × Nat)) : List (Nat × Nat) :=
  (m.foldl (resolveStep m) ([], [])).1

/-- `TryRedirect` of one value against a resolved map: a single lookup. -/
def tryRedirect (resolved : List (Nat × Nat)) (v : Nat) : Bool × Nat :=
  match findA resolved v with
  | some nv => (true, nv)
  | none => (false, v)

/-- `InRedirects[InRedirects.Find({a, b})].SwapValues()`. -/
def swapFirst : List Redirector → Nat → Nat → List Redirector
  | [], _, _ => []
  | rd :: rest, a, b =>
    if rd = ⟨a, b⟩ then ⟨b, a⟩ :: rest else rd :: swapFirst rest a b

/-- The inversion loop of `AppendRedirects`: swap every link along the
chain starting at `cur`. -/
def swapChainAux (m : List (Nat × Nat)) : Nat → Nat → List Redirector → List Redirector
  | 0, _, rds => rds
  | fuel + 1, cur, rds =>
    match findA m cur with
    | none => rds
    | some next => swapChainAux m fuel next (swapFirst rds cur next)

/-- `AppendRedirects(InRedirects, OldValue, NewValue, bInvertCircularDependency)`. -/
def appendRedirects (rds : List Redirector) (ov nv : Nat) (invertOnCycle : Bool) :
    Bool × List Redirector :=
  if ov = nv then (false, rds)
  else
    let m := generateRedirectionMap rds
    if (findA m ov).isSome then (false, rds)
    else if (findA m nv).isSome = false then (true, rds ++ [⟨ov, nv⟩])
    else if invertOnCycle then
      let rv := resolveValue m none nv
      if rv.1 = false then (false, rds)
      else if rv.2 ≠ ov then (false, rds)
      else (true, swapChainAux m (m.length + 1) nv rds)
    else (false, rds)


theorem findA_emplaceA {α β : Type} [DecidableEq α] :
    ∀ (res : List (α × β)) (k : α) (v : β) (k' : α),
      findA (emplaceA res k v) k' = if k' = k then some v else findA res k' := by
  intro res k v
  induction res with
  | nil =>
    intro k'
    by_cases h : k' = k
    · subst h
      simp [emplaceA, findA]
    · simp only [emplaceA, findA]
      rw [if_neg (fun hh : k = k' => h hh.symm), if_neg h]
  | cons p rest ih =>
    intro k'
    simp only [emplaceA]
    by_cases hp : p.1 = k
    · rw [if_pos hp]
      by_cases hk : k' = k
      · subst hk
        simp [findA]
      · simp only [findA, if_neg hk]
        rw [if_neg (fun hh => hk hh.symm), if_neg (fun hh => hk (hp ▸ hh).symm)]
    · rw [if_neg hp]
      simp only [findA, ih]
      by_cases hpk : p.1 = k'
      · rw [if_pos hpk, if_pos hpk, if_neg (fun hh : k' = k => hp (hpk.trans hh))]
      · rw [if_neg hpk, if_neg hpk]

theorem findA_foldl_emplaceSame {α β : Type} [DecidableEq α] :
    ∀ (ks : List α) (res : List (α × β)) (v : β) (k' : α),
      findA (ks.foldl (fun r k => emplaceA r k v) res) k' =
        if k' ∈ ks then some v else findA res k' := by
  intro ks
  induction ks with
  | nil =>
    intro res v k'
    simp
  | cons a ks ih =>
    intro res v k'
    simp only [List.foldl_cons, ih, findA_emplaceA]
    by_cases hk : k' ∈ a :: ks
    · rw [if_pos hk]
      rcases List.mem_cons.mp hk with h | h
      · by_cases hks : k' ∈ ks
        · rw [if_pos hks]
        · rw [if_neg hks, if_pos h]
      · rw [if_pos h]
    · rw [if_neg hk]
      have h1 : k' ∉ ks := fun h => hk (List.mem_cons_of_mem _ h)
      have h2 : ¬ k' = a := fun h => hk (by rw [h]; exact List.mem_cons_self _ _)
      rw [if_neg h1, if_neg h2]

theorem filter_length_mono {α : Type} (p q : α → Bool)
    (himp : ∀ x, q x = true → p x = true) :
    ∀ l : List α, (l.filter q).length ≤ (l.filter p).length := by
  intro l
  induction l with
  | nil => simp
  | cons x l ih =>
    simp only [List.filter_cons]
    cases hq : q x
    · cases hp : p x
      · simpa using ih
      · simpa using Nat.le_succ_of_le ih
    · rw [himp x hq]
      simpa using ih

theorem filter_length_lt {α : Type} (p q : α → Bool)
    (himp : ∀ x, q x = true → p x = true) (a : α) (hpa : p a = true)
    (hqa : q a = false) :
    ∀ l : List α, a ∈ l → (l.filter q).length < (l.filter p).length := by
  intro l
  induction l with
  | nil => intro h; cases h
  | cons x l ih =>
    intro ha
    simp only [List.filter_cons]
    rcases List.mem_cons.mp ha with h | h
    · subst h
      rw [hpa, hqa]
      simpa using Nat.lt_succ_of_le (filter_length_mono p q himp l)
    · cases hq : q x
      · cases hp : p x
        · simpa using ih h
        · simpa using Nat.lt_succ_of_lt (ih h)
      · rw [himp x hq]
        simpa using Nat.succ_lt_succ (ih h)

theorem findA_mem_keysA {α β : Type} [DecidableEq α] :
    ∀ (m : List (α × β)) (k : α), (findA m k).isSome = true → k ∈ keysA m := by
  intro m k
  induction m with
  | nil => simp [findA, keysA]
  | cons p rest ih =>
    simp only [findA, keysA, List.map]
    by_cases hp : p.1 = k
    · intro _
      exact List.mem_cons.mpr (Or.inl hp.symm)
    · rw [if_neg hp]
      intro h
      exact List.mem_cons_of_mem _ (ih h)

/-- With enough fuel, a nonzero walk result is never itself redirected,
provided the cached results are collapsed. -/
theorem walkAux_collapsed (m res : List (Nat × Nat)) (inv : List Nat)
    (hres : ∀ k v, findA res k = some v → findA m v = none) :
    ∀ (fuel : Nat) (visited : List Nat) (cur : Nat),
      visited.contains cur = false →
      ((keysA m).filter (fun k => !visited.contains k)).length < fuel →
      (walkAux m res inv fuel visited cur).2 ≠ 0 →
      findA m (walkAux m res inv fuel visited cur).2 = none := by
  intro fuel
  induction fuel with
  | zero =>
    intro visited cur _ hf
    exact absurd hf (Nat.not_lt_zero _)
  | succ fuel ih =>
    intro visited cur hvc hf hnz
    simp only [walkAux] at hnz ⊢
    cases hfc : findA m cur with
    | none =>
      rw [hfc] at hnz
      dsimp only at hnz ⊢
      exact hfc
    | some next =>
      rw [hfc] at hnz
      dsimp only at hnz ⊢
      cases hfr : findA res next with
      | some rv =>
        rw [hfr] at hnz
        dsimp only at hnz ⊢
        exact hres next rv hfr
      | none =>
        rw [hfr] at hnz
        dsimp only at hnz ⊢
        by_cases hcc : ((emplaceS visited cur).contains next
            || inv.contains next) = true
        · rw [if_pos hcc] at hnz
          exact absurd rfl hnz
        · rw [if_neg hcc] at hnz ⊢
          have hcc2 := hcc
          simp only [Bool.or_eq_true, not_or, Bool.not_eq_true] at hcc2
          have hvc' : cur ∉ visited := by
            intro hmem
            have hct : visited.contains cur = true := by simpa using hmem
            rw [hct] at hvc
            exact Bool.noConfusion hvc
          have hemp : emplaceS visited cur = visited ++ [cur] := by
            unfold emplaceS
            rw [if_neg hvc']
          have hkey : cur ∈ keysA m := findA_mem_keysA m cur (by rw [hfc]; rfl)
          have hlt := filter_length_lt (fun k => !visited.contains k)
            (fun k => !(emplaceS visited cur).contains k)
            (fun x hx => by
              rw [hemp] at hx
              simp at hx ⊢
              exact hx.1)
            cur (by simp [hvc']) (by simp [hemp]) (keysA m) hkey
          exact ih (emplaceS visited cur) next hcc2.1 (by omega) hnz

/-- The top-level walk of `ResolveRedirectionMap` is always given enough
fuel. -/
theorem walkTop_collapsed (m res : List (Nat × Nat)) (inv : List Nat)
    (hres : ∀ k v, findA res k = some v → findA m v = none) (a b : Nat)
    (hnz : (walkAux m res inv (m.length + 1) [a] b).2 ≠ 0) :
    findA m (walkAux m res inv (m.length + 1) [a] b).2 = none := by
  by_cases hab : ([a].contains b) = false
  · refine walkAux_collapsed m res inv hres _ _ _ hab ?_ hnz
    calc ((keysA m).filter (fun k => !([a].contains k))).length
        ≤ (keysA m).length := List.length_filter_le _ _
      _ = m.length := by simp [keysA]
      _ < m.length + 1 := Nat.lt_succ_self _
  · have hba : b = a := by
      simp only [Bool.not_eq_false] at hab
      simpa using hab
    subst hba
    simp only [walkAux] at hnz ⊢
    cases hfc : findA m b with
    | none =>
      rw [hfc] at hnz
      dsimp only at hnz ⊢
      exact hfc
    | some next =>
      rw [hfc] at hnz
      dsimp only at hnz ⊢
      have hemp : emplaceS [b] b = [b] := by simp [emplaceS]
      rw [hemp] at hnz ⊢
      cases hfr : findA res next with
      | some rv =>
        rw [hfr] at hnz
        dsimp only at hnz ⊢
        exact hres next rv hfr
      | none =>
        rw [hfr] at hnz
        dsimp only at hnz ⊢
        by_cases hcc : ([b].contains next || inv.contains next) = true
        · rw [if_pos hcc] at hnz
          exact absurd rfl hnz
        · rw [if_neg hcc] at hnz ⊢
          have hcc2 := hcc
          simp only [Bool.or_eq_true, not_or, Bool.not_eq_true] at hcc2
          have hkey : b ∈ keysA m := findA_mem_keysA m b (by rw [hfc]; rfl)
          refine walkAux_collapsed m res inv hres m.length [b] next hcc2.1 ?_ hnz
          have hlt := filter_length_lt (fun _ => true)
            (fun k => !([b].contains k)) (fun x _ => rfl) b rfl
            (by simp) (keysA m) hkey
          simp only [List.filter_true] at hlt
          simpa [keysA] using hlt

/-- One resolution step keeps every cached target collapsed. -/
theorem resolveStep_collapsed (m : List (Nat × Nat))
    (st : List (Nat × Nat) × List Nat) (e : Nat × Nat)
    (hres : ∀ k v, findA st.1 k = some v → findA m v = none) :
    ∀ k v, findA (resolveStep m st e).1 k = some v → findA m v = none := by
  unfold resolveStep
  cases hca : findA st.1 e.2 with
  | some rv =>
    intro k v h
    dsimp only at h
    rw [findA_emplaceA] at h
    split at h
    · cases h
      exact hres e.2 _ hca
    · exact hres k v h
  | none =>
    dsimp only
    split
    · exact hres
    · split
      · intro k v h
        dsimp only at h
        rw [findA_foldl_emplaceSame] at h
        split at h
        · cases h
          exact walkTop_collapsed m st.1 st.2 hres e.1 e.2 (by assumption)
        · exact hres k v h
      · exact hres

/-- Every target stored in the resolved redirection map is final: looking
it up in the raw map finds nothing further. -/
theorem resolveRedirectionMap_collapsed (m : List (Nat × Nat)) :
    ∀ k v, findA (resolveRedirectionMap m) k = some v → findA m v = none := by
  unfold resolveRedirectionMap
  have main : ∀ (es : List (Nat × Nat)) (st : List (Nat × Nat) × List Nat),
      (∀ k v, findA st.1 k = some v → findA m v = none) →
      ∀ k v, findA (es.foldl (resolveStep m) st).1 k = some v →
        findA m v = none := by
    intro es
    induction es with
    | nil => intro st h; exact h
    | cons e es ih =>
      intro st h
      exact ih _ (resolveStep_collapsed m st e h)
  exact main m ([], []) (by intro k v h; cases h)

/-- **C6.** Redirect resolution flattens chains: every target stored in
the resolved map is final (no further redirect applies to it, so a
`TryRedirect` lookup never needs chain traversal), and the acyclic,
unambiguous chain `A→B→C` resolves both `A` and `B` directly to `C` in a
single lookup. -/
theorem C6_redirect_chain_flattening :
    (∀ (m : List (Nat × Nat)) (k v : Nat),
      findA (resolveRedirectionMap m) k = some v → findA m v = none) ∧
    (∀ A B C : Nat, A ≠ 0 → B ≠ 0 → C ≠ 0 → A ≠ B → B ≠ C → A ≠ C →
      tryRedirect (resolveRedirectionMap
        (generateRedirectionMap [⟨A, B⟩, ⟨B, C⟩])) A = (true, C) ∧
      tryRedirect (resolveRedirectionMap
        (generateRedirectionMap [⟨A, B⟩, ⟨B, C⟩])) B = (true, C)) := by
  refine ⟨resolveRedirectionMap_collapsed, ?_⟩
  intro A B C hA hB hC hAB hBC hAC
  have hgen : generateRedirectionMap [⟨A, B⟩, ⟨B, C⟩] = [(A, B), (B, C)] := by
    simp [generateRedirectionMap, genMapAux, Redirector.isValid, findA,
      hA, hB, hC, hAB, hBC]
  have hres : resolveRedirectionMap [(A, B), (B, C)] = [(A, C), (B, C)] := by
    simp [resolveRedirectionMap, resolveStep, walkAux, findA, emplaceS, emplaceA,
      hAB, hBC, hAC, Ne.symm hAB, Ne.symm hBC, Ne.symm hAC, hA, hB, hC]
  rw [hgen, hres]
  constructor
  · simp [tryRedirect, findA]
  · simp [tryRedirect, findA, hAB, Ne.symm hAB]

/-- Witness for C6: the chain `1→2→3` collapses to a direct `1→3`. -/
theorem C6_witness :
    ((1 : Nat) ≠ 0 ∧ (2 : Nat) ≠ 0 ∧ (3 : Nat) ≠ 0 ∧
      (1 : Nat) ≠ 2 ∧ (2 : Nat) ≠ 3 ∧ (1 : Nat) ≠ 3) ∧
    tryRedirect (resolveRedirectionMap
      (generateRedirectionMap [⟨1, 2⟩, ⟨2, 3⟩])) 1 = (true, 3) :=
  ⟨by decide,
    (C6_redirect_chain_flattening.2 1 2 3 (by decide) (by decide) (by decide)
      (by decide) (by decide) (by decide)).1⟩

/-- **C7.** A cyclic chain is detected and falls back to identity: with
the raw list `A→B, B→A, C→D`, the two entries on the cycle resolve to
nothing (`TryRedirect` leaves them unchanged), while the independent
entry `C→D` still resolves — the whole resolution never fails. -/
theorem C7_redirect_cycle_fallback :
    ∀ A B C D : Nat, A ≠ 0 → B ≠ 0 → C ≠ 0 → D ≠ 0 →
      A ≠ B → A ≠ C → A ≠ D → B ≠ C → B ≠ D → C ≠ D →
      tryRedirect (resolveRedirectionMap
        (generateRedirectionMap [⟨A, B⟩, ⟨B, A⟩, ⟨C, D⟩])) A = (false, A) ∧
      tryRedirect (resolveRedirectionMap
        (generateRedirectionMap [⟨A, B⟩, ⟨B, A⟩, ⟨C, D⟩])) B = (false, B) ∧
      tryRedirect (resolveRedirectionMap
        (generateRedirectionMap [⟨A, B⟩, ⟨B, A⟩, ⟨C, D⟩])) C = (true, D) := by
  intro A B C D hA hB hC hD hAB hAC hAD hBC hBD hCD
  have hgen : generateRedirectionMap [⟨A, B⟩, ⟨B, A⟩, ⟨C, D⟩] =
      [(A, B), (B, A), (C, D)] := by
    simp [generateRedirectionMap, genMapAux, Redirector.isValid, findA,
      hA, hB, hC, hD, hAB, hAC, hBC, hCD, Ne.symm hAB, Ne.symm hAC, Ne.symm hBC]
  have hres : resolveRedirectionMap [(A, B), (B, A), (C, D)] = [(C, D)] := by
    simp [resolveRedirectionMap, resolveStep, walkAux, findA, emplaceS, emplaceA,
      appendS, hAB, hAC, hAD, hBC, hBD, hCD, Ne.symm hAB, Ne.symm hAC,
      Ne.symm hAD, Ne.symm hBC, Ne.symm hBD, Ne.symm hCD, hA, hB, hC, hD]
  rw [hgen, hres]
  refine ⟨?_, ?_, ?_⟩
  · simp [tryRedirect, findA, Ne.symm hAC]
  · simp [tryRedirect, findA, Ne.symm hBC]
  · simp [tryRedirect, findA]

/-- Witness for C7: the cycle `1↔2` is inert while `3→4` resolves. -/
theorem C7_witness :
    ((1 : Nat) ≠ 2 ∧ (3 : Nat) ≠ 4) ∧
    tryRedirect (resolveRedirectionMap
      (generateRedirectionMap [⟨1, 2⟩, ⟨2, 1⟩, ⟨3, 4⟩])) 1 = (false, 1) ∧
    tryRedirect (resolveRedirectionMap
      (generateRedirectionMap [⟨1, 2⟩, ⟨2, 1⟩, ⟨3, 4⟩])) 3 = (true, 4) := by
  have h := C7_redirect_cycle_fallback 1 2 3 4 (by decide) (by decide) (by decide)
    (by decide) (by decide) (by decide) (by decide) (by decide) (by decide)
    (by decide)
  exact ⟨by decide, h.1, h.2.2⟩

/-- **C8.** `AppendRedirects` rejects self-redirects and ambiguous
duplicates without mutating the list; without `invert_on_cycle` it also
rejects concatenation (the new value being a source of further
redirects); and with `invert_on_cycle` set, an insertion closing a cycle
back to the old value instead swaps every link along that cycle and
reports success. -/
theorem C8_append_reject_invert :
    (∀ (rds : List Redirector) (v : Nat) (b : Bool),
      appendRedirects rds v v b = (false, rds)) ∧
    (∀ (rds : List Redirector) (ov nv : Nat) (b : Bool), ov ≠ nv →
      (findA (generateRedirectionMap rds) ov).isSome = true →
      appendRedirects rds ov nv b = (false, rds)) ∧
    (∀ (rds : List Redirector) (ov nv : Nat), ov ≠ nv →
      (findA (generateRedirectionMap rds) ov).isSome = false →
      (findA (generateRedirectionMap rds) nv).isSome = true →
      appendRedirects rds ov nv false = (false, rds)) ∧
    (∀ A B C : Nat, A ≠ 0 → B ≠ 0 → C ≠ 0 → A ≠ B → B ≠ C → A ≠ C →
      appendRedirects [⟨A, B⟩, ⟨B, C⟩] C A true = (true, [⟨B, A⟩, ⟨C, B⟩])) := by
  refine ⟨?_, ?_, ?_, ?_⟩
  · intro rds v b
    simp [appendRedirects]
  · intro rds ov nv b hne hov
    simp [appendRedirects, hne, hov]
  · intro rds ov nv hne hov hnv
    simp [appendRedirects, hne, hov, hnv]
  · intro A B C hA hB hC hAB hBC hAC
    have hgen : generateRedirectionMap [⟨A, B⟩, ⟨B, C⟩] = [(A, B), (B, C)] := by
      simp [generateRedirectionMap, genMapAux, Redirector.isValid, findA,
        hA, hB, hC, hAB, hBC]
    simp [appendRedirects, hgen, resolveValue, resolveValueAux, swapChainAux,
      swapFirst, findA, emplaceS, Redirector.mk.injEq,
      hAB, hBC, hAC, Ne.symm hAB, Ne.symm hBC, Ne.symm hAC, hA, hB, hC]

/-- Witness for C8: concrete self-redirect rejection and cycle inversion. -/
theorem C8_witness :
    appendRedirects [⟨1, 2⟩] 3 3 false = (false, [⟨1, 2⟩]) ∧
    ((1 : Nat) ≠ 2 ∧ (2 : Nat) ≠ 3 ∧ (1 : Nat) ≠ 3) ∧
    appendRedirects [⟨1, 2⟩, ⟨2, 3⟩] 3 1 true = (true, [⟨2, 1⟩, ⟨3, 2⟩]) :=
  ⟨C8_append_reject_invert.1 [⟨1, 2⟩] 3 false, by decide,
    C8_append_reject_invert.2.2.2 1 2 3 (by decide) (by decide) (by decide)
      (by decide) (by decide) (by decide)⟩

/-! ## Claim C3: defaults propagation (`PropagateItemDefaults`) -/

/-- `TryRedirect(FPrimaryAssetId&)`: redirect the name and the type
independently through the resolved maps. -/
def tryRedirectId (typeM nameM : List (Nat × Nat)) (id : PrimaryAssetId) :
    PrimaryAssetId :=
  ⟨(tryRedirect typeM id.ptype).2, (tryRedirect nameM id.pname).2⟩

/-- `FCommonInventoryDefaultsPropagator::FContext`: the original registry
state captured before the change, with the active redirect maps. -/
structure PropagationContext where
  originalState : RegistryState
  typeRedirects : List (Nat × Nat)
  nameRedirects : List (Nat × Nat)

/-- Per-property migration: skip if the default is unchanged, overwrite a
stored value equal to the previous default, keep a customized value. -/
def propagateField (newDefault oldDefault stored : Int) : Int :=
  if newDefault = oldDefault then stored
  else if stored = oldDefault then newDefault
  else stored

/-- The top-level property iteration of `PropagateItemDefaults`. -/
def propagateFields : List Int → List Int → List Int → List Int
  | st :: sts, nd :: nds, od :: ods =>
    propagateField nd od st :: propagateFields sts nds ods
  | sts, _, _ => sts

/-- `UCommonInventoryRegistry::PropagateItemDefaults`: returns the
adjusted id and payload. -/
def propagateItemDefaults (ctx : PropagationContext) (live : RegistryState)
    (id : PrimaryAssetId) (payload : Payload) : PrimaryAssetId × Payload :=
  if id.isValid = true ∧ ctx.originalState.containsRecord id = true then
    let id' := tryRedirectId ctx.typeRedirects ctx.nameRedirects id
    match live.getRecordPtr id' with
    | some rec =>
      if rec.defaultPayload.ptype ≠ payload.ptype then
        (id', rec.defaultPayload)
      else
        let orig := (ctx.originalState.getRecord id).defaultPayload
        (id', ⟨payload.ptype,
          propagateFields payload.fields rec.defaultPayload.fields orig.fields⟩)
    | none => (⟨0, 0⟩, Payload.invalid)
  else (id, payload)

theorem propagateFields_getElemQ :
    ∀ (st nd od : List Int) (i : Nat) (s n o : Int),
      st[i]? = some s → nd[i]? = some n → od[i]? = some o →
      (propagateFields st nd od)[i]? = some (propagateField n o s) := by
  intro st
  induction st with
  | nil => intro nd od i s n o hs; cases hs
  | cons x sts ih =>
    intro nd od i s n o hs hn ho
    cases nd with
    | nil => cases hn
    | cons y nds =>
      cases od with
      | nil => cases ho
      | cons z ods =>
        cases i with
        | zero =>
          simp only [List.getElem?_cons_zero, Option.some_inj] at hs hn ho
          subst hs
          subst hn
          subst ho
          simp [propagateFields]
        | succ i =>
          simp only [propagateFields, List.getElem?_cons_succ] at hs hn ho ⊢
          exact ih nds ods i s n o hs hn ho

/-- **C3.** Defaults propagation of an item whose original id is known to
the captured state: when the stored payload's struct still matches the
live default's struct, each top-level field whose default changed from
`v1` (original state) to `v2` (live registry) is overwritten iff the
holder still stored `v1`, and kept iff the holder customized it; when the
structs differ, the payload is replaced wholesale by the live default. -/
theorem C3_defaults_propagation (ctx : PropagationContext) (live : RegistryState)
    (id : PrimaryAssetId) (payload : Payload) (rec : RegistryRecord)
    (hvalid : id.isValid = true)
    (hcont : ctx.originalState.containsRecord id = true)
    (hlive : live.getRecordPtr (tryRedirectId ctx.typeRedirects ctx.nameRedirects id)
      = some rec) :
    (rec.defaultPayload.ptype ≠ payload.ptype →
      (propagateItemDefaults ctx live id payload).2 = rec.defaultPayload) ∧
    (rec.defaultPayload.ptype = payload.ptype →
      ∀ (i : Nat) (v1 v2 v : Int),
        ((ctx.originalState.getRecord id).defaultPayload).fields[i]? = some v1 →
        rec.defaultPayload.fields[i]? = some v2 →
        payload.fields[i]? = some v →
        (propagateItemDefaults ctx live id payload).2.fields[i]? =
          some (if v2 = v1 then v else if v = v1 then v2 else v)) := by
  have hred : propagateItemDefaults ctx live id payload =
      (if rec.defaultPayload.ptype ≠ payload.ptype then
        (tryRedirectId ctx.typeRedirects ctx.nameRedirects id, rec.defaultPayload)
      else
        (tryRedirectId ctx.typeRedirects ctx.nameRedirects id, ⟨payload.ptype,
          propagateFields payload.fields rec.defaultPayload.fields
            ((ctx.originalState.getRecord id).defaultPayload).fields⟩)) := by
    simp only [propagateItemDefaults]
    rw [if_pos ⟨hvalid, hcont⟩, hlive]
  constructor
  · intro hne
    rw [hred, if_pos hne]
  · intro heq i v1 v2 v ho hn hs
    rw [hred, if_neg (by simpa using heq)]
    dsimp only
    rw [propagateFields_getElemQ payload.fields _ _ i v v2 v1 hs hn ho]
    rfl

/-- Witness for C3: a concrete propagation where one field follows the
default and another keeps its customization. -/
theorem C3_witness :
    ((⟨1, 1⟩ : PrimaryAssetId).isValid = true ∧
      sampleState.containsRecord ⟨1, 1⟩ = true ∧
      sampleState.getRecordPtr (tryRedirectId [] [] ⟨1, 1⟩) =
        some (sampleState.getRecord ⟨1, 1⟩)) ∧
    ((sampleState.getRecord ⟨1, 1⟩).defaultPayload.ptype = (⟨7, [1, 5]⟩ : Payload).ptype →
      ∀ (i : Nat) (v1 v2 v : Int),
        ((sampleState.getRecord ⟨1, 1⟩).defaultPayload).fields[i]? = some v1 →
        (sampleState.getRecord ⟨1, 1⟩).defaultPayload.fields[i]? = some v2 →
        (⟨7, [1, 5]⟩ : Payload).fields[i]? = some v →
        (propagateItemDefaults ⟨sampleState, [], []⟩ sampleState ⟨1, 1⟩
          ⟨7, [1, 5]⟩).2.fields[i]? =
          some (if v2 = v1 then v else if v = v1 then v2 else v)) :=
  ⟨⟨by decide, by decide, by decide⟩,
    (C3_defaults_propagation ⟨sampleState, [], []⟩ sampleState ⟨1, 1⟩ ⟨7, [1, 5]⟩
      (sampleState.getRecord ⟨1, 1⟩) (by decide) (by decide) (by decide)).2⟩

/-! ## Claims C1/C2: `SaveState` / `LoadState`

The byte stream is a `List Nat`: the nine header atoms carry whole header
fields, the body is genuine bytes (`< 256`). -/

/-- Decode an `INDEX_NONE`-style optional index. -/
def decIdx (bs : List Nat) : Option (Option Nat × List Nat) :=
  (decInt bs).map (fun p => (intToIdx p.1, p.2))

/-- Decode a payload encoded by `encPayload`. -/
def decPayload (bs : List Nat) : Option (Payload × List Nat) :=
  (decNat bs).bind (fun p => (decList decInt p.2).map (fun q => (⟨p.1, q.1⟩, q.2)))

/-- Decode shared data encoded by `encSharedData`. -/
def decSharedData (bs : List Nat) : Option (SharedData × List Nat) :=
  (decNat bs).bind (fun p => (decNat p.2).bind (fun q =>
    (decInt q.2).map (fun r => (⟨⟨p.1, q.1⟩, r.1⟩, r.2))))

/-- The record a load constructs: persisted properties from the stream,
everything else default-initialized (views, replication index and the
cached checksum are rebuilt or recomputed later). -/
def persistOf (r : RegistryRecord) : RegistryRecord :=
  { sharedData := r.sharedData, assetPath := r.assetPath,
    defaultPayloadIndex := r.defaultPayloadIndex,
    customDataIndex := r.customDataIndex }

/-- Decode one record's persisted properties. -/
def decRecordPersist (bs : List Nat) : Option (RegistryRecord × List Nat) :=
  (decSharedData bs).bind (fun p => (decNat p.2).bind (fun q =>
    (decIdx q.2).bind (fun r => (decIdx r.2).map (fun t =>
      ({ sharedData := p.1, assetPath := q.1,
         defaultPayloadIndex := r.1, customDataIndex := t.1 }, t.2)))))

/-- The serialized body: the two persisted `UPROPERTY` containers of
`FCommonInventoryRegistryState`. -/
def encBody (s : RegistryState) : List Nat :=
  encList encRecordPersist s.dataContainer ++ encList encPayload s.customDataContainer

def decBody (bs : List Nat) :
    Option ((List RegistryRecord × List Payload) × List Nat) :=
  (decList decRecordPersist bs).bind (fun p =>
    (decList decPayload p.2).map (fun q => ((p.1, q.1), q.2)))

/-- `FInventoryRegistryHeaderVersion::Magic`: "Common Inventory". -/
def magicWords : List Nat := [0x6D6D6F43, 0x49206E6F, 0x6E65766E, 0x79726F74]

/-- `FInventoryRegistryHeaderVersion::LatestVersion`. -/
def latestVersion : Nat := 0

/-- The header: magic, version, body checksum, cooked flag, data-source
class path, custom-version container (opaque). -/
def encHeader (version checksum : Nat) (cooked : Bool)
    (dataSourceClass versionContainer : Nat) : List Nat :=
  magicWords ++ [version, checksum, if cooked then 1 else 0,
    dataSourceClass, versionContainer]

/-- Read the header back; `none` = magic mismatch or truncated stream. -/
def decHeader : List Nat → Option ((Nat × Nat × Bool × Nat × Nat) × List Nat)
  | m0 :: m1 :: m2 :: m3 :: v :: ck :: ic :: dsc :: vc :: rest =>
    if [m0, m1, m2, m3] = magicWords then some ((v, ck, ic = 1, dsc, vc), rest)
    else none
  | _ => none

/-- `SaveState`: serialize the body into a buffer, compute its crc32,
then write the header carrying that checksum followed by the buffer. -/
def RegistryState.saveState (s : RegistryState) (cooked : Bool)
    (dataSourceClass versionContainer : Nat) : List Nat :=
  encHeader latestVersion (crc32 (encBody s)) cooked dataSourceClass
    versionContainer ++ encBody s

/-- `LoadState` on receiver `s`: header checks and the crc comparison
reject without touching the state; a deserialization error or an invalid
blob resets to empty; success rebuilds the secondary data with
`FixupDependencies()`. -/
def RegistryState.loadState (s : RegistryState) (bs : List Nat) (cooked : Bool)
    (dataSourceClass : Nat) : Bool × RegistryState :=
  match decHeader bs with
  | none => (false, s)
  | some ((version, ck, hcooked, dsc, _vc), body) =>
    if latestVersion < version then (false, s)
    else if dsc ≠ dataSourceClass then (false, s)
    else if hcooked ≠ cooked then (false, s)
    else if crc32 body ≠ ck then (false, s)
    else
      match decBody body with
      | none => (false, RegistryState.reset [] s)
      | some ((recs, blobs), rest) =>
        if rest ≠ [] then (false, RegistryState.reset [] s)
        else if blobs.all Payload.isValid = false then
          (false, RegistryState.reset [] s)
        else (true, fixupDependencies false
          { s with dataContainer := recs, customDataContainer := blobs })

theorem decNat_encNatAux :
    ∀ (fuel n : Nat) (rest : List Nat), n ≤ fuel →
      decNat (digits255Aux fuel n ++ 255 :: rest) = some (n, rest) := by
  intro fuel
  induction fuel with
  | zero =>
    intro n rest hn
    have : n = 0 := Nat.le_zero.mp hn
    subst this
    simp [digits255Aux, decNat]
  | succ fuel ih =>
    intro n rest hn
    cases n with
    | zero => simp [digits255Aux, decNat]
    | succ m =>
      have hmod : (m + 1) % 255 < 255 := Nat.mod_lt _ (by norm_num)
      have hdiv : (m + 1) / 255 ≤ fuel := by
        have : (m + 1) / 255 < m + 1 := Nat.div_lt_self (Nat.succ_pos m) (by norm_num)
        omega
      simp only [digits255Aux, List.cons_append, decNat, List.append_eq]
      rw [if_neg (by omega), ih _ rest hdiv]
      simp only [Option.map_some', Option.some_inj, Prod.mk.injEq]
      refine ⟨?_, trivial⟩
      have h2 := Nat.div_add_mod (m + 1) 255
      omega

theorem decNat_encNat (n : Nat) (rest : List Nat) :
    decNat (encNat n ++ rest) = some (n, rest) := by
  have : encNat n ++ rest = digits255Aux n n ++ 255 :: rest := by
    simp [encNat, digits255]
  rw [this]
  exact decNat_encNatAux n n rest le_rfl

theorem decInt_encInt (i : Int) (rest : List Nat) :
    decInt (encInt i ++ rest) = some (i, rest) := by
  by_cases hi : i < 0
  · have hval : -(i.natAbs : Int) = i := by omega
    simp only [encInt, if_pos hi, List.cons_append, decInt, decNat_encNat,
      Option.map_some']
    rw [if_pos trivial, hval]
  · have hval : (i.natAbs : Int) = i := by omega
    simp only [encInt, if_neg hi, List.cons_append, decInt, decNat_encNat,
      Option.map_some']
    rw [if_neg (by norm_num), hval]

theorem decIdx_encIdx (o : Option Nat) (rest : List Nat) :
    decIdx (encIdx o ++ rest) = some (o, rest) := by
  simp only [decIdx, encIdx, decInt_encInt, Option.map_some']
  congr 1
  cases o with
  | none => simp [idxToInt, intToIdx]
  | some n => simp [idxToInt, intToIdx]

theorem decListN_encAux {α : Type}
    (enc : α → List Nat) (dec : List Nat → Option (α × List Nat))
    (helem : ∀ (a : α) (rest : List Nat), dec (enc a ++ rest) = some (a, rest)) :
    ∀ (l : List α) (rest : List Nat),
      decListN dec l.length ((l.map enc).flatten ++ rest) = some (l, rest) := by
  intro l
  induction l with
  | nil => intro rest; simp [decListN]
  | cons a l ih =>
    intro rest
    have hsplit : ((a :: l).map enc).flatten ++ rest =
        enc a ++ ((l.map enc).flatten ++ rest) := by
      simp [List.append_assoc]
    rw [List.length_cons, hsplit]
    simp only [decListN, helem, Option.some_bind, ih, Option.map_some']

theorem decList_encList {α : Type}
    (enc : α → List Nat) (dec : List Nat → Option (α × List Nat))
    (helem : ∀ (a : α) (rest : List Nat), dec (enc a ++ rest) = some (a, rest))
    (l : List α) (rest : List Nat) :
    decList dec (encList enc l ++ rest) = some (l, rest) := by
  have hsplit : encList enc l ++ rest = encNat l.length ++ ((l.map enc).flatten ++ rest) := by
    simp [encList, List.append_assoc]
  rw [hsplit]
  simp only [decList, decNat_encNat, Option.some_bind]
  exact decListN_encAux enc dec helem l rest

theorem decPayload_encPayload (p : Payload) (rest : List Nat) :
    decPayload (encPayload p ++ rest) = some (p, rest) := by
  have hsplit : encPayload p ++ rest = encNat p.ptype ++ (encList encInt p.fields ++ rest) := by
    simp [encPayload, List.append_assoc]
  rw [hsplit]
  simp only [decPayload, decNat_encNat, Option.some_bind,
    decList_encList encInt decInt decInt_encInt, Option.map_some']

theorem decSharedData_encSharedData (sd : SharedData) (rest : List Nat) :
    decSharedData (encSharedData sd ++ rest) = some (sd, rest) := by
  have hsplit : encSharedData sd ++ rest = encNat sd.primaryAssetId.ptype ++
      (encNat sd.primaryAssetId.pname ++ (encInt sd.data ++ rest)) := by
    simp [encSharedData, List.append_assoc]
  rw [hsplit]
  simp only [decSharedData, decNat_encNat, Option.some_bind, decInt_encInt,
    Option.map_some']

theorem decRecordPersist_encRecordPersist (r : RegistryRecord) (rest : List Nat) :
    decRecordPersist (encRecordPersist r ++ rest) = some (persistOf r, rest) := by
  have hsplit : encRecordPersist r ++ rest = encSharedData r.sharedData ++
      (encNat r.assetPath ++ (encIdx r.defaultPayloadIndex ++
        (encIdx r.customDataIndex ++ rest))) := by
    simp [encRecordPersist, List.append_assoc]
  rw [hsplit]
  simp only [decRecordPersist, decSharedData_encSharedData, Option.some_bind,
    decNat_encNat, decIdx_encIdx, Option.map_some']
  rfl

theorem decListN_encMap {α β : Type}
    (enc : α → List Nat) (dec : List Nat → Option (β × List Nat)) (f : α → β)
    (helem : ∀ (a : α) (rest : List Nat), dec (enc a ++ rest) = some (f a, rest)) :
    ∀ (l : List α) (rest : List Nat),
      decListN dec l.length ((l.map enc).flatten ++ rest) = some (l.map f, rest) := by
  intro l
  induction l with
  | nil => intro rest; simp [decListN]
  | cons a l ih =>
    intro rest
    have hsplit : ((a :: l).map enc).flatten ++ rest =
        enc a ++ ((l.map enc).flatten ++ rest) := by
      simp [List.append_assoc]
    rw [List.length_cons, hsplit]
    simp only [decListN, helem, Option.some_bind, ih, Option.map_some',
      List.map_cons]

theorem decList_encMap {α β : Type}
    (enc : α → List Nat) (dec : List Nat → Option (β × List Nat)) (f : α → β)
    (helem : ∀ (a : α) (rest : List Nat), dec (enc a ++ rest) = some (f a, rest))
    (l : List α) (rest : List Nat) :
    decList dec (encList enc l ++ rest) = some (l.map f, rest) := by
  have hsplit : encList enc l ++ rest =
      encNat l.length ++ ((l.map enc).flatten ++ rest) := by
    simp [encList, List.append_assoc]
  rw [hsplit]
  simp only [decList, decNat_encNat, Option.some_bind]
  exact decListN_encMap enc dec f helem l rest

theorem decBody_encBody (s : RegistryState) :
    decBody (encBody s) = some ((s.dataContainer.map persistOf,
      s.customDataContainer), []) := by
  have hsplit : encBody s = encList encRecordPersist s.dataContainer ++
      (encList encPayload s.customDataContainer ++ []) := by
    simp [encBody]
  rw [hsplit, decBody]
  rw [decList_encMap encRecordPersist decRecordPersist persistOf
    decRecordPersist_encRecordPersist s.dataContainer _]
  simp only [Option.some_bind,
    decList_encList encPayload decPayload decPayload_encPayload,
    Option.map_some']

/-! ### Every body byte is `< 256` -/

theorem digits255Aux_bytes : ∀ (fuel n : Nat), ∀ x ∈ digits255Aux fuel n, x < 256 := by
  intro fuel
  induction fuel with
  | zero => intro n x hx; cases hx
  | succ fuel ih =>
    intro n x hx
    cases n with
    | zero => cases hx
    | succ m =>
      simp only [digits255Aux, List.mem_cons] at hx
      rcases hx with h | h
      · have : (m + 1) % 255 < 255 := Nat.mod_lt _ (by norm_num)
        omega
      · exact ih _ x h

theorem encNat_bytes (n : Nat) : ∀ x ∈ encNat n, x < 256 := by
  intro x hx
  simp only [encNat, digits255, List.mem_append, List.mem_singleton] at hx
  rcases hx with h | h
  · exact digits255Aux_bytes n n x h
  · omega

theorem encInt_bytes (i : Int) : ∀ x ∈ encInt i, x < 256 := by
  intro x hx
  simp only [encInt, List.mem_cons] at hx
  rcases hx with h | h
  · split at h <;> omega
  · exact encNat_bytes _ x h

theorem encList_bytes {α : Type} (enc : α → List Nat)
    (helem : ∀ (a : α) (x : Nat), x ∈ enc a → x < 256) (l : List α) :
    ∀ x ∈ encList enc l, x < 256 := by
  intro x hx
  simp only [encList, List.mem_append, List.mem_flatten, List.mem_map] at hx
  rcases hx with h | ⟨bs, ⟨a, _, hbs⟩, hxbs⟩
  · exact encNat_bytes _ x h
  · exact helem a x (hbs ▸ hxbs)

theorem encPayload_bytes (p : Payload) : ∀ x ∈ encPayload p, x < 256 := by
  intro x hx
  simp only [encPayload, List.mem_append] at hx
  rcases hx with h | h
  · exact encNat_bytes _ x h
  · exact encList_bytes encInt (fun a => encInt_bytes a) _ x h

theorem encSharedData_bytes (sd : SharedData) : ∀ x ∈ encSharedData sd, x < 256 := by
  intro x hx
  simp only [encSharedData, List.mem_append] at hx
  rcases hx with (h | h) | h
  · exact encNat_bytes _ x h
  · exact encNat_bytes _ x h
  · exact encInt_bytes _ x h

theorem encRecordPersist_bytes (r : RegistryRecord) :
    ∀ x ∈ encRecordPersist r, x < 256 := by
  intro x hx
  simp only [encRecordPersist, encIdx, List.mem_append] at hx
  rcases hx with ((h | h) | h) | h
  · exact encSharedData_bytes _ x h
  · exact encNat_bytes _ x h
  · exact encInt_bytes _ x h
  · exact encInt_bytes _ x h

theorem encBody_bytes (s : RegistryState) : ∀ x ∈ encBody s, x < 256 := by
  intro x hx
  simp only [encBody, List.mem_append] at hx
  rcases hx with h | h
  · exact encList_bytes encRecordPersist (fun r => encRecordPersist_bytes r) _ x h
  · exact encList_bytes encPayload (fun p => encPayload_bytes p) _ x h

/-! ### crc32 distinguishes single-byte changes -/

theorem crcRound_lt {c : Nat} (h : c < 2^32) : crcRound c < 2^32 := by
  unfold crcRound
  have h1 : c / 2 < 2^32 := by omega
  split
  · exact Nat.xor_lt_two_pow h1 (by norm_num [crcPoly])
  · exact Nat.xor_lt_two_pow h1 (by norm_num)

theorem crcRound_parity {c : Nat} (h : c < 2^32) :
    (crcRound c).testBit 31 = decide (c % 2 = 1) := by
  unfold crcRound
  have hdiv : c / 2 < 2^31 := by omega
  by_cases hp : c % 2 = 1
  · rw [if_pos hp, Nat.testBit_xor, Nat.testBit_lt_two_pow hdiv]
    have hbit : Nat.testBit 0xEDB88320 31 = true := by decide
    simp [hp, crcPoly, hbit]
  · rw [if_neg hp, Nat.xor_zero, Nat.testBit_lt_two_pow hdiv]
    simp [hp]

theorem xor_cancel_right {a b x : Nat} (h : a ^^^ x = b ^^^ x) : a = b := by
  have := congrArg (fun y => y ^^^ x) h
  simpa [Nat.xor_assoc] using this

theorem crcRound_inj {c₁ c₂ : Nat} (h₁ : c₁ < 2^32) (h₂ : c₂ < 2^32)
    (h : crcRound c₁ = crcRound c₂) : c₁ = c₂ := by
  have hp : decide (c₁ % 2 = 1) = decide (c₂ % 2 = 1) := by
    rw [← crcRound_parity h₁, ← crcRound_parity h₂, h]
  have hpar : c₁ % 2 = c₂ % 2 := by
    rcases Nat.mod_two_eq_zero_or_one c₁ with e1 | e1 <;>
      rcases Nat.mod_two_eq_zero_or_one c₂ with e2 | e2 <;>
        simp [e1, e2] at hp ⊢
  have hdiv : c₁ / 2 = c₂ / 2 := by
    unfold crcRound at h
    rw [hpar] at h
    by_cases ho : c₂ % 2 = 1
    · rw [if_pos ho] at h
      exact xor_cancel_right h
    · rw [if_neg ho] at h
      simpa using h
  omega

theorem crcRound8_lt {c : Nat} (h : c < 2^32) : crcRound8 c < 2^32 := by
  unfold crcRound8
  exact crcRound_lt (crcRound_lt (crcRound_lt (crcRound_lt
    (crcRound_lt (crcRound_lt (crcRound_lt (crcRound_lt h)))))))

theorem crcRound8_inj {c₁ c₂ : Nat} (h₁ : c₁ < 2^32) (h₂ : c₂ < 2^32)
    (h : crcRound8 c₁ = crcRound8 c₂) : c₁ = c₂ := by
  unfold crcRound8 at h
  have r1 := crcRound_lt h₁
  have r2 := crcRound_lt (crcRound_lt h₁)
  have r3 := crcRound_lt r2
  have r4 := crcRound_lt r3
  have r5 := crcRound_lt r4
  have r6 := crcRound_lt r5
  have r7 := crcRound_lt r6
  have s1 := crcRound_lt h₂
  have s2 := crcRound_lt (crcRound_lt h₂)
  have s3 := crcRound_lt s2
  have s4 := crcRound_lt s3
  have s5 := crcRound_lt s4
  have s6 := crcRound_lt s5
  have s7 := crcRound_lt s6
  exact crcRound_inj h₁ h₂ (crcRound_inj r1 s1 (crcRound_inj r2 s2
    (crcRound_inj r3 s3 (crcRound_inj r4 s4 (crcRound_inj r5 s5
      (crcRound_inj r6 s6 (crcRound_inj r7 s7 h)))))))

theorem crcStep_lt {c : Nat} (b : Nat) (h : c < 2^32) : crcStep c b < 2^32 := by
  unfold crcStep
  exact crcRound8_lt (Nat.xor_lt_two_pow h (by
    have : b % 256 < 256 := Nat.mod_lt _ (by norm_num)
    omega))

theorem crcStep_inj_state {c₁ c₂ : Nat} (b : Nat) (h₁ : c₁ < 2^32) (h₂ : c₂ < 2^32)
    (h : crcStep c₁ b = crcStep c₂ b) : c₁ = c₂ := by
  unfold crcStep at h
  have hb : b % 256 < 2^32 := by
    have : b % 256 < 256 := Nat.mod_lt _ (by norm_num)
    omega
  have := crcRound8_inj (Nat.xor_lt_two_pow h₁ hb) (Nat.xor_lt_two_pow h₂ hb) h
  exact xor_cancel_right this

theorem crcStep_inj_byte {c b₁ b₂ : Nat} (h : c < 2^32) (hb₁ : b₁ < 256)
    (hb₂ : b₂ < 256) (hne : b₁ ≠ b₂) : crcStep c b₁ ≠ crcStep c b₂ := by
  intro heq
  unfold crcStep at heq
  have h1 : c ^^^ b₁ % 256 < 2^32 := Nat.xor_lt_two_pow h (by omega)
  have h2 : c ^^^ b₂ % 256 < 2^32 := Nat.xor_lt_two_pow h (by omega)
  have := crcRound8_inj h1 h2 heq
  have hx : b₂ % 256 = b₁ % 256 := by
    have := congrArg (fun y => c ^^^ y) this.symm
    simpa [← Nat.xor_assoc, Nat.xor_self, Nat.zero_xor] using this
  rw [Nat.mod_eq_of_lt hb₁, Nat.mod_eq_of_lt hb₂] at hx
  exact hne hx.symm

theorem crcFold_lt {c : Nat} (bs : List Nat) (h : c < 2^32) : crcFold c bs < 2^32 := by
  induction bs generalizing c with
  | nil => exact h
  | cons b bs ih => exact ih (crcStep_lt b h)

theorem crcFold_inj_state {c₁ c₂ : Nat} (bs : List Nat) (h₁ : c₁ < 2^32)
    (h₂ : c₂ < 2^32) (hne : c₁ ≠ c₂) : crcFold c₁ bs ≠ crcFold c₂ bs := by
  induction bs generalizing c₁ c₂ with
  | nil => exact hne
  | cons b bs ih =>
    refine ih (crcStep_lt b h₁) (crcStep_lt b h₂) ?_
    intro heq
    exact hne (crcStep_inj_state b h₁ h₂ heq)

/-- crc32 detects any single-byte change. -/
theorem crc32_flip (pre suf : List Nat) {b b' : Nat} (hb : b < 256) (hb' : b' < 256)
    (hne : b ≠ b') : crc32 (pre ++ b :: suf) ≠ crc32 (pre ++ b' :: suf) := by
  intro heq
  unfold crc32 at heq
  have heq2 : crcFold 0xFFFFFFFF (pre ++ b :: suf) =
      crcFold 0xFFFFFFFF (pre ++ b' :: suf) := xor_cancel_right heq
  simp only [crcFold, List.foldl_append, List.foldl_cons] at heq2
  have hpre : crcFold 0xFFFFFFFF pre < 2^32 := crcFold_lt pre (by norm_num)
  exact crcFold_inj_state suf (crcStep_lt b hpre) (crcStep_lt b' hpre)
    (crcStep_inj_byte hpre hb hb' hne) heq2

theorem decHeader_encHeader (v ck : Nat) (cooked : Bool) (dsc vc : Nat)
    (rest : List Nat) :
    decHeader (encHeader v ck cooked dsc vc ++ rest) =
      some ((v, ck, cooked, dsc, vc), rest) := by
  cases cooked <;> simp [encHeader, decHeader, magicWords]

theorem set_append_right_off {α : Type} (l1 l2 : List α) (i : Nat) (a : α) :
    (l1 ++ l2).set (l1.length + i) a = l1 ++ l2.set i a := by
  rw [List.set_append_right]
  · simp
  · omega

theorem encHeader_length (v ck : Nat) (cooked : Bool) (dsc vc : Nat) :
    (encHeader v ck cooked dsc vc).length = 9 := by
  cases cooked <;> simp [encHeader, magicWords]

/-- **C1 (amended).** If the bytes after the header fail the crc32
comparison against the header's stored checksum, `LoadState` returns
`false` and leaves the receiver state exactly as it was — it is never
partially populated from the corrupt input (but it is *not* reset to
empty). In particular, flipping any single byte of a saved stream's body
changes the computed crc32 and triggers exactly this rejection. -/
theorem C1_load_corruption_rejection :
    (∀ (s₀ : RegistryState) (bs body : List Nat) (cooked : Bool)
      (dsc v ck : Nat) (hc : Bool) (dsc' vc : Nat),
      decHeader bs = some ((v, ck, hc, dsc', vc), body) →
      crc32 body ≠ ck →
      s₀.loadState bs cooked dsc = (false, s₀)) ∧
    (∀ (s s₀ : RegistryState) (cooked : Bool) (dsc vc i b b' : Nat),
      (encBody s)[i]? = some b → b' < 256 → b' ≠ b →
      s₀.loadState ((s.saveState cooked dsc vc).set (9 + i) b') cooked dsc =
        (false, s₀)) := by
  have main : ∀ (s₀ : RegistryState) (bs body : List Nat) (cooked : Bool)
      (dsc v ck : Nat) (hc : Bool) (dsc' vc : Nat),
      decHeader bs = some ((v, ck, hc, dsc', vc), body) →
      crc32 body ≠ ck →
      s₀.loadState bs cooked dsc = (false, s₀) := by
    intro s₀ bs body cooked dsc v ck hc dsc' vc hdec hck
    unfold RegistryState.loadState
    rw [hdec]
    dsimp only
    by_cases h1 : latestVersion < v
    · rw [if_pos h1]
    · rw [if_neg h1]
      by_cases h2 : dsc' ≠ dsc
      · rw [if_pos h2]
      · rw [if_neg h2]
        by_cases h3 : hc ≠ cooked
        · rw [if_pos h3]
        · rw [if_neg h3, if_pos hck]
  refine ⟨main, ?_⟩
  intro s s₀ cooked dsc vc i b b' hbi hb' hne
  have hil : i < (encBody s).length := (List.getElem?_eq_some_iff.mp hbi).1
  have hbv : (encBody s)[i] = b := (List.getElem?_eq_some_iff.mp hbi).2
  have hset : (s.saveState cooked dsc vc).set (9 + i) b' =
      encHeader latestVersion (crc32 (encBody s)) cooked dsc vc ++
        (encBody s).set i b' := by
    unfold RegistryState.saveState
    rw [show (9 : Nat) + i =
        (encHeader latestVersion (crc32 (encBody s)) cooked dsc vc).length + i from
      by rw [encHeader_length]]
    exact set_append_right_off _ _ i b'
  have hpre : encBody s = (encBody s).take i ++ b :: (encBody s).drop (i + 1) := by
    conv_lhs => rw [← List.take_append_drop i (encBody s)]
    rw [List.drop_eq_getElem_cons hil, hbv]
  have hset2 : (encBody s).set i b' =
      (encBody s).take i ++ b' :: (encBody s).drop (i + 1) := by
    rw [List.set_eq_take_append_cons_drop, if_pos hil]
  have hbb : b < 256 := by
    have : b ∈ encBody s := by
      rw [← hbv]
      exact List.getElem_mem hil
    exact encBody_bytes s b this
  have hckne : crc32 ((encBody s).set i b') ≠ crc32 (encBody s) := by
    rw [hset2]
    conv_rhs => rw [hpre]
    exact crc32_flip _ _ hb' hbb hne
  rw [hset]
  exact main s₀ _ _ cooked dsc _ _ _ _ _
    (decHeader_encHeader latestVersion (crc32 (encBody s)) cooked dsc vc _) hckne

/-- Counterexample to the claim's "state is reset to empty": a flipped
body byte makes the load fail, but the (non-empty) receiver state is left
unchanged, not emptied. -/
theorem C1_counterexample :
    (sampleState.loadState
      (((RegistryState.reset [] sampleState).saveState true 5 7).set 9 0) true 5).1
        = false ∧
    (sampleState.loadState
      (((RegistryState.reset [] sampleState).saveState true 5 7).set 9 0) true 5).2
        = sampleState ∧
    sampleState.dataContainer ≠ [] := by
  refine ⟨by decide, by decide, by decide⟩

/-- Witness for C1: a concrete saved stream with one body byte flipped is
rejected with the receiver untouched. -/
theorem C1_witness :
    ((encBody (RegistryState.reset [] sampleState))[0]? = some 255 ∧
      (0 : Nat) < 256 ∧ (0 : Nat) ≠ 255) ∧
    sampleState.loadState
      (((RegistryState.reset [] sampleState).saveState true 5 7).set (9 + 0) 0)
      true 5 = (false, sampleState) :=
  ⟨⟨by decide, by decide, by decide⟩,
    C1_load_corruption_rejection.2 (RegistryState.reset [] sampleState) sampleState
      true 5 7 0 255 0 (by decide) (by decide) (by decide)⟩

/-! ### C2: the round trip -/

/-- Cached checksums, when valid, agree with the values their lazy
recomputation would produce. Every state whose checksums were only ever
produced by `GetChecksum` satisfies this. -/
def CkCoherent (s : RegistryState) : Prop :=
  (∀ r ∈ s.dataContainer, r.checksum ≠ 0 → r.checksum = recordContentHash r) ∧
  (∀ g ∈ s.archetypes, g.checksum ≠ 0 →
    g.checksum = (groupSlice s g).foldl
      (fun acc r => typeCrc32 r.getChecksumVal acc) 0) ∧
  (s.checksum ≠ 0 →
    s.checksum = s.archetypes.foldl
      (fun acc g => typeCrc32 (groupChecksumVal s g) acc) 0)

instance (s : RegistryState) : Decidable (CkCoherent s) := by
  unfold CkCoherent
  infer_instance

/-- `LoadState` over a `SaveState` stream reaches the success path. -/
theorem loadState_saveState (s s₀ : RegistryState) (cooked : Bool) (dsc vc : Nat)
    (hvalid : ∀ p ∈ s.customDataContainer, p.isValid = true) :
    s₀.loadState (s.saveState cooked dsc vc) cooked dsc =
      (true, fixupDependencies false
        { s₀ with
          dataContainer := s.dataContainer.map persistOf
          customDataContainer := s.customDataContainer }) := by
  unfold RegistryState.saveState RegistryState.loadState
  rw [decHeader_encHeader]
  dsimp only
  rw [if_neg (lt_irrefl _), if_neg (by simp), if_neg (by simp), if_neg (by simp),
    decBody_encBody]
  dsimp only
  have hall : s.customDataContainer.all Payload.isValid = true :=
    List.all_eq_true.mpr (fun p hp => hvalid p hp)
  rw [if_neg (by simp), if_neg (by simp [hall])]

theorem foldl_congr_mem {α β : Type} (l : List α) (f g : β → α → β)
    (h : ∀ (acc : β) (a : α), a ∈ l → f acc a = g acc a) :
    ∀ b : β, l.foldl f b = l.foldl g b := by
  induction l with
  | nil => intro b; rfl
  | cons a l ih =>
    intro b
    simp only [List.foldl_cons]
    rw [h b a (List.mem_cons_self _ _)]
    exact ih (fun acc x hx => h acc x (List.mem_cons_of_mem _ hx)) _

theorem mem_groupSlice {s : RegistryState} {g : ArchetypeGroup} {r : RegistryRecord}
    (h : r ∈ groupSlice s g) : r ∈ s.dataContainer := by
  unfold groupSlice at h
  exact List.mem_of_mem_drop (List.mem_of_mem_take h)

/-- Under coherent caches, `GetChecksum` equals the full recomputation
from record contents. -/
theorem getChecksum_coherent (s : RegistryState) (hcoh : CkCoherent s) :
    s.getChecksum = s.archetypes.foldl
      (fun acc g => typeCrc32 ((groupSlice s g).foldl
        (fun acc2 r => typeCrc32 (recordContentHash r) acc2) 0) acc) 0 := by
  obtain ⟨hrec, hgrp, htop⟩ := hcoh
  have hgv : ∀ g ∈ s.archetypes, groupChecksumVal s g =
      (groupSlice s g).foldl (fun acc2 r => typeCrc32 (recordContentHash r) acc2) 0 := by
    intro g hg
    have hinner : (groupSlice s g).foldl
        (fun acc r => typeCrc32 r.getChecksumVal acc) 0 =
        (groupSlice s g).foldl (fun acc r => typeCrc32 (recordContentHash r) acc) 0 := by
      refine foldl_congr_mem _ _ _ ?_ 0
      intro acc r hr
      congr 1
      unfold RegistryRecord.getChecksumVal
      split
      · rename_i hnz
        exact hrec r (mem_groupSlice hr) hnz
      · rfl
    unfold groupChecksumVal
    split
    · rename_i hnz
      rw [hgrp g hg hnz, hinner]
    · exact hinner
  have houter : s.archetypes.foldl
      (fun acc g => typeCrc32 (groupChecksumVal s g) acc) 0 =
      s.archetypes.foldl (fun acc g => typeCrc32 ((groupSlice s g).foldl
        (fun acc2 r => typeCrc32 (recordContentHash r) acc2) 0) acc) 0 := by
    refine foldl_congr_mem _ _ _ ?_ 0
    intro acc g hg
    rw [hgv g hg]
  unfold RegistryState.getChecksum
  split
  · rename_i hnz
    rw [htop hnz, houter]
  · exact houter

theorem recordContentHash_congr {a b : RegistryRecord}
    (h : contentOf a = contentOf b) : recordContentHash a = recordContentHash b := by
  obtain ⟨h1, h2, h3, h4⟩ := contentOf_fields h
  unfold recordContentHash encRecordContent
  rw [h1, h2, h3, h4]

theorem buildGroups_congr : ∀ (l l' : List RegistryRecord) (i : Nat),
    l.length = l'.length →
    (∀ j : Nat, (l[j]?).map RegistryRecord.ptypeOf =
      (l'[j]?).map RegistryRecord.ptypeOf) →
    buildGroups l i = buildGroups l' i := by
  intro l
  induction l with
  | nil =>
    intro l' i hlen _
    cases l' with
    | nil => rfl
    | cons => simp at hlen
  | cons r l ih =>
    intro l' i hlen hpt
    cases l' with
    | nil => simp at hlen
    | cons r' l'' =>
      have hpt0 := hpt 0
      simp only [List.getElem?_cons_zero, Option.map_some', Option.some_inj] at hpt0
      have hrec : buildGroups l (i + 1) = buildGroups l'' (i + 1) :=
        ih l'' (i + 1) (by simpa using hlen) (fun j => by simpa using hpt (j + 1))
      simp only [buildGroups, hrec, hpt0]

theorem sliceFold_map (recs : List RegistryRecord) (b o : Nat) :
    ((recs.drop b).take o).foldl (fun a r => typeCrc32 (recordContentHash r) a) 0 =
      (((recs.map recordContentHash).drop b).take o).foldl
        (fun a n => typeCrc32 n a) 0 := by
  rw [← List.map_drop, ← List.map_take, List.foldl_map]

theorem fold_groups_congr (hm : List Nat) : ∀ (gs gs' : List ArchetypeGroup),
    stripGroups gs = stripGroups gs' →
    ∀ acc : Nat, gs.foldl (fun a g => typeCrc32
        (((hm.drop g.begin).take g.offset).foldl (fun a2 n => typeCrc32 n a2) 0) a)
        acc =
      gs'.foldl (fun a g => typeCrc32
        (((hm.drop g.begin).take g.offset).foldl (fun a2 n => typeCrc32 n a2) 0) a)
        acc := by
  intro gs
  induction gs with
  | nil =>
    intro gs' hstrip acc
    cases gs' with
    | nil => rfl
    | cons => simp [stripGroups] at hstrip
  | cons g gs ih =>
    intro gs' hstrip acc
    cases gs' with
    | nil => simp [stripGroups] at hstrip
    | cons g' gs'' =>
      simp only [stripGroups, List.map_cons, List.cons.injEq, Prod.mk.injEq] at hstrip
      obtain ⟨⟨-, hb, ho⟩, htail⟩ := hstrip
      simp only [List.foldl_cons, hb, ho]
      exact ih gs'' htail _

theorem viewAt_of_slotOk {cont : List Payload} {o : Option Nat} {v : Payload}
    (h : viewSlotOk cont o v) : viewAt cont o = v := by
  cases o with
  | none =>
    have hv : v = Payload.invalid := h
    rw [hv]
    rfl
  | some k =>
    obtain ⟨-, hv⟩ := h
    simp [viewAt, hv]

/-- Loading a well-formed state's stream reproduces every record's
content and replication index (with a freshly invalidated checksum). -/
theorem roundtrip_content (s s₀ : RegistryState) (hwf : WF s) :
    (fixupDependencies false
      { s₀ with
        dataContainer := s.dataContainer.map persistOf
        customDataContainer := s.customDataContainer }).dataContainer.length =
      s.dataContainer.length ∧
    ∀ (i : Nat) (r : RegistryRecord), s.dataContainer[i]? = some r →
      ∃ r', (fixupDependencies false
        { s₀ with
          dataContainer := s.dataContainer.map persistOf
          customDataContainer := s.customDataContainer }).dataContainer[i]?
          = some r' ∧
        contentOf r' = contentOf r ∧ r'.repIndex = r.repIndex ∧ r'.checksum = 0 := by
  constructor
  · simp [fixupDependencies, fixupRecords]
  · intro i r hi
    obtain ⟨hlt, hval⟩ := List.getElem?_eq_some_iff.mp hi
    have hlt' : i < (s.dataContainer.map persistOf).length := by simpa using hlt
    have hfix := fixupRecords_getElem s.customDataContainer
      (s.dataContainer.map persistOf) i hlt'
      (by rw [fixupRecords_length]; exact hlt')
    have hmap : (s.dataContainer.map persistOf)[i] = persistOf r := by
      rw [List.getElem_map _]
      rw [hval]
    rw [hmap] at hfix
    have hmem : r ∈ s.dataContainer := hval ▸ List.getElem_mem hlt
    have hslots := hwf.2.2.2.2.2.1 r hmem
    have hdp : viewAt s.customDataContainer (persistOf r).defaultPayloadIndex =
        r.defaultPayload := viewAt_of_slotOk hslots.1
    have hcd : viewAt s.customDataContainer (persistOf r).customDataIndex =
        r.customData := viewAt_of_slotOk hslots.2
    have hrep : r.repIndex = i + 1 := by
      have := hwf.2.2.2.2.1 i hlt
      rw [hval] at this
      exact this
    rw [hdp, hcd] at hfix
    refine ⟨{ persistOf r with
        repIndex := i + 1
        defaultPayload := r.defaultPayload
        customData := r.customData }, ?_, rfl, hrep.symm, rfl⟩
    show (fixupRecords s.customDataContainer
      (s.dataContainer.map persistOf))[i]? = some _
    rw [List.getElem?_eq_getElem (by simpa [fixupRecords] using hlt)]
    exact congrArg some hfix

/-- The reloaded state recomputes the same top-level checksum. -/
theorem roundtrip_checksum (s s₀ : RegistryState) (hwf : WF s) (hcoh : CkCoherent s) :
    (fixupDependencies false
      { s₀ with
        dataContainer := s.dataContainer.map persistOf
        customDataContainer := s.customDataContainer }).getChecksum =
      s.getChecksum := by
  obtain ⟨hlenL, hcont⟩ := roundtrip_content s s₀ hwf
  have hcohL : CkCoherent (fixupDependencies false
      { s₀ with
        dataContainer := s.dataContainer.map persistOf
        customDataContainer := s.customDataContainer }) := by
    refine ⟨?_, ?_, ?_⟩
    · intro r hr hnz
      exfalso
      obtain ⟨j, hj, hjv⟩ := List.mem_iff_getElem.mp hr
      have hjs : j < s.dataContainer.length := by omega
      obtain ⟨rs, hrs⟩ : ∃ rs, s.dataContainer[j]? = some rs :=
        ⟨_, List.getElem?_eq_getElem hjs⟩
      obtain ⟨r', hr', -, -, hck0⟩ := hcont j rs hrs
      rw [List.getElem?_eq_getElem hj] at hr'
      have : r = r' := by
        have := Option.some_inj.mp hr'
        rw [← hjv, this]
      rw [this, hck0] at hnz
      exact hnz rfl
    · intro g hg hnz
      exfalso
      have : g.checksum = 0 := buildGroups_ck_zero _ 0 g hg
      exact hnz this
    · intro hnz
      exact absurd rfl hnz
  rw [getChecksum_coherent _ hcohL, getChecksum_coherent s hcoh]
  have hmEq : (fixupDependencies false
      { s₀ with
        dataContainer := s.dataContainer.map persistOf
        customDataContainer := s.customDataContainer }).dataContainer.map
          recordContentHash = s.dataContainer.map recordContentHash := by
    apply List.ext_getElem?
    intro i
    simp only [List.getElem?_map]
    cases hi : s.dataContainer[i]? with
    | none =>
      have hge : s.dataContainer.length ≤ i := by
        by_contra hlt
        push_neg at hlt
        rw [List.getElem?_eq_getElem hlt] at hi
        cases hi
      rw [List.getElem?_eq_none (by omega)]
    | some r =>
      obtain ⟨r', hr', hc, -, -⟩ := hcont i r hi
      rw [hr']
      simp [recordContentHash_congr hc]
  have hpt : ∀ j : Nat, ((fixupDependencies false
      { s₀ with
        dataContainer := s.dataContainer.map persistOf
        customDataContainer := s.customDataContainer }).dataContainer[j]?).map
          RegistryRecord.ptypeOf =
        (s.dataContainer[j]?).map RegistryRecord.ptypeOf := by
    intro j
    cases hj : s.dataContainer[j]? with
    | none =>
      have hge : s.dataContainer.length ≤ j := by
        by_contra hlt
        push_neg at hlt
        rw [List.getElem?_eq_getElem hlt] at hj
        cases hj
      rw [List.getElem?_eq_none (by omega)]
    | some r =>
      obtain ⟨r', hr', hc, -, -⟩ := hcont j r hj
      rw [hr']
      obtain ⟨h1, -, -, -⟩ := contentOf_fields hc
      simp [RegistryRecord.ptypeOf, RegistryRecord.id, h1]
  have harch : (fixupDependencies false
      { s₀ with
        dataContainer := s.dataContainer.map persistOf
        customDataContainer := s.customDataContainer }).archetypes =
      buildGroups (fixupDependencies false
        { s₀ with
          dataContainer := s.dataContainer.map persistOf
          customDataContainer := s.customDataContainer }).dataContainer 0 := rfl
  have hbg : buildGroups (fixupDependencies false
      { s₀ with
        dataContainer := s.dataContainer.map persistOf
        customDataContainer := s.customDataContainer }).dataContainer 0 =
      buildGroups s.dataContainer 0 :=
    buildGroups_congr _ _ 0 hlenL hpt
  have hmform : ∀ (t : RegistryState) (hm : List Nat),
      t.dataContainer.map recordContentHash = hm →
      t.archetypes.foldl (fun acc g => typeCrc32 ((groupSlice t g).foldl
        (fun acc2 r => typeCrc32 (recordContentHash r) acc2) 0) acc) 0 =
      t.archetypes.foldl (fun acc g => typeCrc32
        (((hm.drop g.begin).take g.offset).foldl (fun a2 n => typeCrc32 n a2) 0) acc)
        0 := by
    intro t hm hhm
    refine foldl_congr_mem _ _ _ ?_ 0
    intro acc g _
    rw [show groupSlice t g = (t.dataContainer.drop g.begin).take g.offset from rfl,
      sliceFold_map, hhm]
  rw [hmform _ (s.dataContainer.map recordContentHash) hmEq,
    hmform s (s.dataContainer.map recordContentHash) rfl, harch, hbg]
  exact fold_groups_congr (s.dataContainer.map recordContentHash)
    (buildGroups s.dataContainer 0) s.archetypes (hwf.2.2.2.1).symm 0

/-- **C2.** Saving a well-formed, checksum-coherent registry state and
loading the produced bytes back (same cooked flag and data-source
setting) succeeds and yields a state equal to the original in top-level
checksum and in full record content. -/
theorem C2_save_load_roundtrip (s s₀ : RegistryState) (cooked : Bool) (dsc vc : Nat)
    (hwf : WF s) (hcoh : CkCoherent s) :
    (s₀.loadState (s.saveState cooked dsc vc) cooked dsc).1 = true ∧
    (s₀.loadState (s.saveState cooked dsc vc) cooked dsc).2.getChecksum =
      s.getChecksum ∧
    (s₀.loadState (s.saveState cooked dsc vc) cooked dsc).2.dataContainer.length =
      s.dataContainer.length ∧
    ∀ (i : Nat) (r : RegistryRecord), s.dataContainer[i]? = some r →
      ∃ r', (s₀.loadState (s.saveState cooked dsc vc) cooked
        dsc).2.dataContainer[i]? = some r' ∧ contentOf r' = contentOf r := by
  have hvalid := hwf.2.2.2.2.2.2.1
  rw [loadState_saveState s s₀ cooked dsc vc hvalid]
  obtain ⟨hlen, hcont⟩ := roundtrip_content s s₀ hwf
  exact ⟨rfl, roundtrip_checksum s s₀ hwf hcoh, hlen,
    fun i r hi => (hcont i r hi).imp (fun r' h => ⟨h.1, h.2.1⟩)⟩

/-- Witness for C2: the concrete sample state survives the round trip. -/
theorem C2_witness :
    (WF sampleState ∧ CkCoherent sampleState) ∧
    (sampleState.loadState (sampleState.saveState false 3 4) false 3).1 = true :=
  ⟨⟨by decide, by decide⟩,
    (C2_save_load_roundtrip sampleState sampleState false 3 4
      (by decide) (by decide)).1⟩

/-! ## `DiffRecords`: identity and one-record difference (C9) -/

/-- A record's identity together with its user-visible content (shared
data, asset path and both payload views). -/
def idContent (r : RegistryRecord) :
    PrimaryAssetId × SharedData × Nat × Payload × Payload :=
  (r.id, r.sharedData, r.assetPath, r.defaultPayload, r.customData)

theorem idContent_eq_contentOf (r : RegistryRecord) :
    idContent r = (r.id, contentOf r) := rfl

theorem map_fst_idContent (l : List RegistryRecord) :
    (l.map idContent).map Prod.fst = l.map RegistryRecord.id := by
  rw [List.map_map]
  rfl

theorem viewIdentical_refl (a : Payload) : viewIdentical a a = true := by
  simp [viewIdentical]

theorem hasIdenticalData_refl (r : RegistryRecord) : r.hasIdenticalData r = true := by
  simp [RegistryRecord.hasIdenticalData, viewIdentical_refl]

theorem containsRecord_iff_mem {s : RegistryState} (hwf : WF s) (id : PrimaryAssetId) :
    s.containsRecord id = true ↔ id ∈ s.dataContainer.map RegistryRecord.id := by
  have hk : keysA s.dataMap = s.dataContainer.map RegistryRecord.id := by
    rw [hwf.2.1]
    exact keysA_mkDataMap s.dataContainer 0
  unfold RegistryState.containsRecord
  rw [← hk]
  exact ⟨fun h => (findA_isSome_iff _ _).mp (by simpa using h),
    fun h => by simpa using (findA_isSome_iff _ _).mpr h⟩

theorem wf_ids_nodup {s : RegistryState} (hwf : WF s) :
    (s.dataContainer.map RegistryRecord.id).Nodup := by
  have hp := sortedAdjB_pairwise _ hwf.1
  unfold List.Nodup
  rw [List.pairwise_map]
  exact hp.imp (fun hab => recordLt_id_ne hab)

/-- In a well-formed state, looking up a stored record by its own id
returns that very record. -/
theorem wf_getRecordPtr_self {s : RegistryState} (hwf : WF s) {q : Nat}
    {r : RegistryRecord} (hq : s.dataContainer[q]? = some r) :
    s.getRecordPtr r.id = some r := by
  have hqlt : q < s.dataContainer.length := (List.getElem?_eq_some_iff.mp hq).1
  have hmem : r.id ∈ s.dataContainer.map RegistryRecord.id := by
    obtain ⟨hl, rfl⟩ := List.getElem?_eq_some_iff.mp hq
    exact List.mem_map.mpr ⟨_, List.getElem_mem hl, rfl⟩
  have hc : s.containsRecord r.id = true := (containsRecord_iff_mem hwf _).mpr hmem
  obtain ⟨j, hfa, hjlt, hjid⟩ := wf_lookup hwf hc
  have hqid : (s.dataContainer.map RegistryRecord.id)[q]? = some r.id := by
    rw [List.getElem?_map, hq]
    rfl
  have hjid' : (s.dataContainer.map RegistryRecord.id)[j]? = some r.id := by
    rw [List.getElem?_map]
    exact hjid
  have hjq : j = q :=
    List.getElem?_inj (by simpa using hjlt) (wf_ids_nodup hwf) (hjid'.trans hqid.symm)
  unfold RegistryState.getRecordPtr
  rw [hfa, hjq]
  simpa using hq

theorem reset_nil_dataContainer (s : RegistryState) :
    (RegistryState.reset [] s).dataContainer = [] := rfl

theorem filterMap_all_some {α β : Type} (f : α → Option β) (g : α → β) :
    ∀ l : List α, (∀ a ∈ l, f a = some (g a)) → l.filterMap f = l.map g := by
  intro l
  induction l with
  | nil => intro _; rfl
  | cons a t ih =>
    intro h
    rw [List.filterMap_cons, h a (by simp), ih (fun x hx => h x (by simp [hx]))]
    rfl

/-- Diffing a well-formed state against itself marks every record as
pending removal (each record is identical to itself, on both the fast
checksum path and the full comparison path). -/
theorem diff_pending_self (s : RegistryState) (hwf : WF s) (c : Bool) :
    s.dataContainer.filterMap
      (fun fr =>
        match s.getRecordPtr fr.id with
        | some sr =>
          if (if c then sr.hasIdenticalDataFast fr else sr.hasIdenticalData fr)
          then some fr.id else none
        | none => none) = s.dataContainer.map RegistryRecord.id := by
  apply filterMap_all_some
  intro fr hm
  obtain ⟨q, hq⟩ := List.mem_iff_getElem?.mp hm
  rw [wf_getRecordPtr_self hwf hq]
  cases c
  · simp [hasIdenticalData_refl]
  · simp [RegistryRecord.hasIdenticalDataFast]

theorem diff_self_empty (s : RegistryState) (hwf : WF s) :
    (s.diffRecords s).dataContainer = [] := by
  by_cases hsE : s.dataContainer = []
  · simp [RegistryState.diffRecords, RegistryState.hasRecords, hsE]
  · have hh : s.hasRecords = true := by simp [RegistryState.hasRecords, hsE]
    simp only [RegistryState.diffRecords, hh, Bool.and_self, if_true, ite_self]
    rw [diff_pending_self s hwf]
    rw [if_pos (by simp [RegistryState.getRecordsNum])]
    exact reset_nil_dataContainer s

/-- Consistency of every slot of every record other than record `j`. -/
@[reducible] def SlotsOkExcR (cont : List Payload) (recs : List RegistryRecord)
    (j : Nat) : Prop :=
  ∀ (p : Nat) (b : Bool) (r : RegistryRecord), recs[p]? = some r → p ≠ j →
    viewSlotOk cont (slotIdx b r) (slotView b r)

/-- Disjointness among the slots of the records other than record `j`. -/
@[reducible] def SlotsDisjExcR (recs : List RegistryRecord) (j : Nat) : Prop :=
  ∀ (p q : Nat) (bp bq : Bool) (rp rq : RegistryRecord) (k : Nat),
    recs[p]? = some rp → recs[q]? = some rq → p ≠ j → q ≠ j →
    slotIdx bp rp = some k → slotIdx bq rq = some k → p = q ∧ bp = bq

theorem slotsOkExcR_of_exc {cont : List Payload} {recs : List RegistryRecord}
    {j : Nat} {bd : Bool} (h : SlotsOkExc cont recs j bd) : SlotsOkExcR cont recs j :=
  fun p b r hp hpj => h p b r hp (Or.inl hpj)

theorem slotsDisjExcR_of_exc {recs : List RegistryRecord} {j : Nat} {bd : Bool}
    (h : SlotsDisjExc recs j bd) : SlotsDisjExcR recs j :=
  fun p q bp bq rp rq k hp hq hpj hqj h1 h2 =>
    h p q bp bq rp rq k hp hq (Or.inl hpj) (Or.inl hqj) h1 h2

/-- One record (other than the owner `j`) through `RemoveCustomData` of
the container slot owned by record `j`'s custom-data slot, assuming
consistency and disjointness only away from record `j`. -/
theorem removeOwned_slotR (i j : Nat) (s : RegistryState)
    (rj : RegistryRecord) (hj : s.dataContainer[j]? = some rj)
    (hidx : rj.customDataIndex = some i)
    (hiok : i < s.customDataContainer.length)
    (hokR : SlotsOkExcR s.customDataContainer s.dataContainer j)
    (hfree : ∀ (p : Nat) (b : Bool) (rp : RegistryRecord) (k : Nat),
      s.dataContainer[p]? = some rp → p ≠ j → slotIdx b rp = some k → k ≠ i)
    (p : Nat) (rp : RegistryRecord) (hp : s.dataContainer[p]? = some rp)
    (hpj : p ≠ j) :
    ∃ rp', (removeCustomData i s).dataContainer[p]? = some rp' ∧
      contentOf rp' = contentOf rp ∧ rp'.repIndex = rp.repIndex ∧
      rp'.checksum = rp.checksum ∧
      ∀ b,
        slotIdx b rp' = (slotIdx b rp).map (fun kk => if i < kk then kk - 1 else kk) ∧
        viewSlotOk (eraseAt i s.customDataContainer) (slotIdx b rp') (slotView b rp') ∧
        ∀ kk, slotIdx b rp = some kk → kk ≠ i := by
  have hne_of : ∀ (b : Bool) (kk : Nat), slotIdx b rp = some kk → kk ≠ i :=
    fun b kk hbk => hfree p b rp kk hp hpj hbk
  obtain ⟨hcont, r', hgr, hsh, hap, hrep, hck, Hdp, Hcd, Hdpn, Hcdn, Hdps, Hcds⟩ :=
    removeCustomData_track i s hiok p rp hp
  have hdpv : r'.defaultPayload = rp.defaultPayload := by
    cases hdpi : rp.defaultPayloadIndex with
    | none => exact (Hdpn hdpi).2
    | some kk =>
      have hki : kk ≠ i := hne_of true kk (by simp [slotIdx, hdpi])
      have hcs : s.customDataContainer[kk]? = some rp.defaultPayload := by
        have h0 := hokR p true rp hp hpj
        rw [show slotIdx true rp = some kk from by simp [slotIdx, hdpi]] at h0
        exact h0.2
      exact (Hdp kk hdpi hcs hki).1
  have hcdv : r'.customData = rp.customData := by
    cases hcdi : rp.customDataIndex with
    | none => exact (Hcdn hcdi).2
    | some kk =>
      have hki : kk ≠ i := hne_of false kk (by simp [slotIdx, hcdi])
      have hcs : s.customDataContainer[kk]? = some rp.customData := by
        have h0 := hokR p false rp hp hpj
        rw [show slotIdx false rp = some kk from by simp [slotIdx, hcdi]] at h0
        exact h0.2
      exact (Hcd kk hcdi hcs hki).1
  refine ⟨r', hgr, by simp [contentOf, hsh, hap, hdpv, hcdv], hrep, hck, ?_⟩
  intro b
  cases b
  · cases hcdi : rp.customDataIndex with
    | none =>
      obtain ⟨hi', hv'⟩ := Hcdn hcdi
      have hinv : rp.customData = Payload.invalid := by
        have h0 := hokR p false rp hp hpj
        rw [show slotIdx false rp = none from by simp [slotIdx, hcdi]] at h0
        exact h0
      refine ⟨by simp [slotIdx, hi', hcdi], ?_, ?_⟩
      · rw [show slotIdx false r' = r'.customDataIndex from by simp [slotIdx],
          show slotView false r' = r'.customData from by simp [slotView], hi', hv', hinv]
        exact rfl
      · intro kk hkk
        simp [slotIdx, hcdi] at hkk
    | some kk =>
      have hkki : kk ≠ i := hne_of false kk (by simp [slotIdx, hcdi])
      have hcs : s.customDataContainer[kk]? = some rp.customData := by
        have h0 := hokR p false rp hp hpj
        rw [show slotIdx false rp = some kk from by simp [slotIdx, hcdi]] at h0
        exact h0.2
      obtain ⟨hv', hvs, hi'⟩ := Hcd kk hcdi hcs hkki
      refine ⟨by simp [slotIdx, hi', hcdi], ?_, ?_⟩
      · rw [show slotIdx false r' = r'.customDataIndex from by simp [slotIdx],
          show slotView false r' = r'.customData from by simp [slotView], hcdv]
        exact hvs
      · intro kk' hkk'
        simp [slotIdx, hcdi] at hkk'
        subst hkk'
        exact hkki
  · cases hdpi : rp.defaultPayloadIndex with
    | none =>
      obtain ⟨hi', hv'⟩ := Hdpn hdpi
      have hinv : rp.defaultPayload = Payload.invalid := by
        have h0 := hokR p true rp hp hpj
        rw [show slotIdx true rp = none from by simp [slotIdx, hdpi]] at h0
        exact h0
      refine ⟨by simp [slotIdx, hi', hdpi], ?_, ?_⟩
      · rw [show slotIdx true r' = r'.defaultPayloadIndex from by simp [slotIdx],
          show slotView true r' = r'.defaultPayload from by simp [slotView], hi', hv', hinv]
        exact rfl
      · intro kk hkk
        simp [slotIdx, hdpi] at hkk
    | some kk =>
      have hkki : kk ≠ i := hne_of true kk (by simp [slotIdx, hdpi])
      have hcs : s.customDataContainer[kk]? = some rp.defaultPayload := by
        have h0 := hokR p true rp hp hpj
        rw [show slotIdx true rp = some kk from by simp [slotIdx, hdpi]] at h0
        exact h0.2
      obtain ⟨hv', hvs, hi'⟩ := Hdp kk hdpi hcs hkki
      refine ⟨by simp [slotIdx, hi', hdpi], ?_, ?_⟩
      · rw [show slotIdx true r' = r'.defaultPayloadIndex from by simp [slotIdx],
          show slotView true r' = r'.defaultPayload from by simp [slotView], hdpv]
        exact hvs
      · intro kk' hkk'
        simp [slotIdx, hdpi] at hkk'
        subst hkk'
        exact hkki

/-- `RemoveCustomData` of record `j`'s owned custom-data slot restores
consistency and disjointness away from record `j`. -/
theorem removeOwned_excR (i j : Nat) (s : RegistryState)
    (rj : RegistryRecord) (hj : s.dataContainer[j]? = some rj)
    (hidx : rj.customDataIndex = some i)
    (hiok : i < s.customDataContainer.length)
    (hokR : SlotsOkExcR s.customDataContainer s.dataContainer j)
    (hdisjR : SlotsDisjExcR s.dataContainer j)
    (hfree : ∀ (p : Nat) (b : Bool) (rp : RegistryRecord) (k : Nat),
      s.dataContainer[p]? = some rp → p ≠ j → slotIdx b rp = some k → k ≠ i) :
    (removeCustomData i s).customDataContainer = eraseAt i s.customDataContainer ∧
    (removeCustomData i s).dataContainer.length = s.dataContainer.length ∧
    SlotsOkExcR (removeCustomData i s).customDataContainer
      (removeCustomData i s).dataContainer j ∧
    SlotsDisjExcR (removeCustomData i s).dataContainer j ∧
    ∃ rj', (removeCustomData i s).dataContainer[j]? = some rj' ∧
      rj'.sharedData = rj.sharedData := by
  have hcont : (removeCustomData i s).customDataContainer =
      eraseAt i s.customDataContainer := (removeCustomData_track i s hiok j rj hj).1
  have hlen := removeCustomData_len i s
  have hold : ∀ (p : Nat) (rp' : RegistryRecord),
      (removeCustomData i s).dataContainer[p]? = some rp' →
      ∃ rp, s.dataContainer[p]? = some rp := by
    intro p rp' hp'
    have hplen : p < s.dataContainer.length := by
      have := (List.getElem?_eq_some_iff.mp hp').1
      omega
    have hsome : (s.dataContainer[p]?).isSome = true := by
      rw [List.getElem?_eq_getElem hplen]
      rfl
    obtain ⟨rp, hrp⟩ := Option.isSome_iff_exists.mp hsome
    exact ⟨rp, hrp⟩
  refine ⟨hcont, hlen, ?_, ?_, ?_⟩
  · intro p b rp' hp' hpj
    obtain ⟨rp, hrp⟩ := hold p rp' hp'
    obtain ⟨rp'', hgr, -, -, -, hslots⟩ :=
      removeOwned_slotR i j s rj hj hidx hiok hokR hfree p rp hrp hpj
    rw [hgr] at hp'
    cases hp'
    rw [hcont]
    exact (hslots b).2.1
  · intro p q bp bq rp' rq' k hp' hq' hpj hqj h1 h2
    obtain ⟨rp, hrp⟩ := hold p rp' hp'
    obtain ⟨rq, hrq⟩ := hold q rq' hq'
    obtain ⟨rp'', hgrp, -, -, -, hslotsp⟩ :=
      removeOwned_slotR i j s rj hj hidx hiok hokR hfree p rp hrp hpj
    obtain ⟨rq'', hgrq, -, -, -, hslotsq⟩ :=
      removeOwned_slotR i j s rj hj hidx hiok hokR hfree q rq hrq hqj
    rw [hgrp] at hp'
    cases hp'
    rw [hgrq] at hq'
    cases hq'
    obtain ⟨hmp, -, hnep⟩ := hslotsp bp
    obtain ⟨hmq, -, hneq⟩ := hslotsq bq
    rw [hmp] at h1
    rw [hmq] at h2
    obtain ⟨kkp, hkp, hφp⟩ := Option.map_eq_some'.mp h1
    obtain ⟨kkq, hkq, hφq⟩ := Option.map_eq_some'.mp h2
    have hip : kkp ≠ i := hnep kkp hkp
    have hiq : kkq ≠ i := hneq kkq hkq
    have hkk : kkp = kkq := by
      rw [← hφq] at hφp
      split_ifs at hφp <;> omega
    subst hkk
    exact hdisjR p q bp bq rp rq kkp hrp hrq hpj hqj hkp hkq
  · obtain ⟨hcont2, rj', hgr, hsh, -⟩ := removeCustomData_track i s hiok j rj hj
    exact ⟨rj', hgr, hsh⟩

theorem getElem?_total {α : Type} {l l' : List α} (hlen : l'.length = l.length)
    {p : Nat} {a : α} (hp : l'[p]? = some a) : ∃ b, l[p]? = some b := by
  have hplen : p < l.length := by
    have := (List.getElem?_eq_some_iff.mp hp).1
    omega
  exact ⟨l[p], List.getElem?_eq_getElem hplen⟩

/-- `rdStep1` (free the removed record's default payload blob): every
other record keeps its content, slot consistency and disjointness hold
away from record `j`, and record `j`'s custom-data slot stays consistent
and disjoint from all other slots. -/
theorem rdStep1_full (j : Nat) (s : RegistryState) (r0 : RegistryRecord)
    (hj : s.dataContainer[j]? = some r0)
    (hok : SlotsOk s.customDataContainer s.dataContainer)
    (hdisj : SlotsDisj s.dataContainer) :
    (rdStep1 r0 s).customDataContainer.Sublist s.customDataContainer ∧
    (rdStep1 r0 s).dataContainer.length = s.dataContainer.length ∧
    (rdStep1 r0 s).archetypes = s.archetypes ∧
    (rdStep1 r0 s).dataMap = s.dataMap ∧
    (∀ (p : Nat) (rp : RegistryRecord), s.dataContainer[p]? = some rp → p ≠ j →
      ∃ rp', (rdStep1 r0 s).dataContainer[p]? = some rp' ∧
        contentOf rp' = contentOf rp) ∧
    SlotsOkExcR (rdStep1 r0 s).customDataContainer (rdStep1 r0 s).dataContainer j ∧
    SlotsDisjExcR (rdStep1 r0 s).dataContainer j ∧
    ∃ rj', (rdStep1 r0 s).dataContainer[j]? = some rj' ∧
      rj'.sharedData = r0.sharedData ∧
      rj'.customData = r0.customData ∧
      viewSlotOk (rdStep1 r0 s).customDataContainer rj'.customDataIndex rj'.customData ∧
      (∀ (p : Nat) (b : Bool) (rp : RegistryRecord) (k : Nat),
        (rdStep1 r0 s).dataContainer[p]? = some rp → p ≠ j →
        slotIdx b rp = some k → rj'.customDataIndex ≠ some k) := by
  unfold rdStep1
  by_cases hv : r0.defaultPayload.isValid = true
  · obtain ⟨i, hdp⟩ : ∃ i, r0.defaultPayloadIndex = some i := by
      cases hdpi : r0.defaultPayloadIndex with
      | none =>
        have h0 := hok j true r0 hj
        rw [show slotIdx true r0 = none from by simp [slotIdx, hdpi]] at h0
        have : r0.defaultPayload = Payload.invalid := h0
        rw [this] at hv
        simp [Payload.isValid, Payload.invalid] at hv
      | some i => exact ⟨i, rfl⟩
    rw [if_pos hv]
    simp only [hdp, Option.getD_some]
    have hidx : slotIdx true r0 = some i := by simp [slotIdx, hdp]
    obtain ⟨hcont, hlen, hokE, hdisjE⟩ :=
      removeOwned_exc true i j s r0 hj hidx hok hdisj
    obtain ⟨rj', hgrj, hcntj, -, -, hslotsj⟩ :=
      removeOwned_slot true i j s r0 hj hidx hok hdisj j r0 hj
    obtain ⟨hshj, -, -, hcdj⟩ := contentOf_fields hcntj
    obtain ⟨hmapj, hokj, hnej⟩ := hslotsj false (Or.inr (by simp))
    refine ⟨by rw [hcont]; exact List.eraseIdx_sublist _ _, hlen,
      removeCustomData_archetypes _ _, removeCustomData_dataMap _ _, ?_, ?_, ?_,
      rj', hgrj, hshj, hcdj, ?_, ?_⟩
    · intro p rp hp hpj
      obtain ⟨rp', hgr, hcnt, -, -, -⟩ :=
        removeOwned_slot true i j s r0 hj hidx hok hdisj p rp hp
      exact ⟨rp', hgr, hcnt⟩
    · exact slotsOkExcR_of_exc hokE
    · exact slotsDisjExcR_of_exc hdisjE
    · have := hokj
      rw [show slotIdx false rj' = rj'.customDataIndex from by simp [slotIdx],
        show slotView false rj' = rj'.customData from by simp [slotView]] at this
      rw [hcont]
      exact this
    · intro p b rp k hp hpj hbk hcdk
      obtain ⟨rp0, hrp0⟩ := getElem?_total hlen hp
      obtain ⟨rp', hgr, -, -, -, hslotsp⟩ :=
        removeOwned_slot true i j s r0 hj hidx hok hdisj p rp0 hrp0
      rw [hgr] at hp
      cases hp
      obtain ⟨hmp, -, hnep⟩ := hslotsp b (Or.inl hpj)
      rw [hmp] at hbk
      obtain ⟨kk, hkk, hφk⟩ := Option.map_eq_some'.mp hbk
      have hkki : kk ≠ i := hnep kk hkk
      rw [show slotIdx false rj' = rj'.customDataIndex from by simp [slotIdx]] at hmapj
      rw [hcdk] at hmapj
      obtain ⟨kk0, hkk0, hφk0⟩ := Option.map_eq_some'.mp hmapj.symm
      have hkk0i : kk0 ≠ i := hnej kk0 hkk0
      have hkkeq : kk = kk0 := by
        rw [← hφk0] at hφk
        split_ifs at hφk <;> omega
      subst hkkeq
      obtain ⟨hpj', -⟩ := hdisj p j b false rp0 r0 kk hrp0 hj hkk hkk0
      exact hpj hpj'
  · rw [if_neg hv]
    refine ⟨List.Sublist.refl _, rfl, rfl, rfl, ?_, ?_, ?_, r0, hj, rfl, rfl, ?_, ?_⟩
    · intro p rp hp hpj
      exact ⟨rp, hp, rfl⟩
    · intro p b r hp hpj
      exact hok p b r hp
    · intro p q bp bq rp rq k hp hq hpj hqj h1 h2
      exact hdisj p q bp bq rp rq k hp hq h1 h2
    · have h0 := hok j false r0 hj
      rw [show slotIdx false r0 = r0.customDataIndex from by simp [slotIdx],
        show slotView false r0 = r0.customData from by simp [slotView]] at h0
      exact h0
    · intro p b rp k hp hpj hbk hcdk
      obtain ⟨hpj', -⟩ := hdisj p j b false rp r0 k hp hj hbk
        (by rw [show slotIdx false r0 = r0.customDataIndex from by simp [slotIdx]]; exact hcdk)
      exact hpj hpj'

/-- `rdStep2` (free the removed record's custom data blob) acting on a
state whose record-`j` slots may already be stale on the default-payload
side. -/
theorem rdStep2_excR (j : Nat) (t : RegistryState) (rj : RegistryRecord)
    (hj : t.dataContainer[j]? = some rj)
    (hokR : SlotsOkExcR t.customDataContainer t.dataContainer j)
    (hdisjR : SlotsDisjExcR t.dataContainer j)
    (hcd : viewSlotOk t.customDataContainer rj.customDataIndex rj.customData)
    (hfree : ∀ (p : Nat) (b : Bool) (rp : RegistryRecord) (k : Nat),
      t.dataContainer[p]? = some rp → p ≠ j → slotIdx b rp = some k →
      rj.customDataIndex ≠ some k) :
    (rdStep2 j t).customDataContainer.Sublist t.customDataContainer ∧
    (rdStep2 j t).dataContainer.length = t.dataContainer.length ∧
    (rdStep2 j t).archetypes = t.archetypes ∧
    (rdStep2 j t).dataMap = t.dataMap ∧
    (∀ (p : Nat) (rp : RegistryRecord), t.dataContainer[p]? = some rp → p ≠ j →
      ∃ rp', (rdStep2 j t).dataContainer[p]? = some rp' ∧
        contentOf rp' = contentOf rp) ∧
    SlotsOkExcR (rdStep2 j t).customDataContainer (rdStep2 j t).dataContainer j ∧
    SlotsDisjExcR (rdStep2 j t).dataContainer j ∧
    ∃ rj', (rdStep2 j t).dataContainer[j]? = some rj' ∧
      rj'.sharedData = rj.sharedData := by
  unfold rdStep2
  rw [hj]
  simp only [Option.getD_some]
  by_cases hv : rj.customData.isValid = true
  · obtain ⟨i, hcdi⟩ : ∃ i, rj.customDataIndex = some i := by
      cases hci : rj.customDataIndex with
      | none =>
        rw [hci] at hcd
        have : rj.customData = Payload.invalid := hcd
        rw [this] at hv
        simp [Payload.isValid, Payload.invalid] at hv
      | some i => exact ⟨i, rfl⟩
    rw [if_pos hv]
    simp only [hcdi, Option.getD_some]
    have hiok : i < t.customDataContainer.length := by
      rw [hcdi] at hcd
      exact hcd.1
    have hfree' : ∀ (p : Nat) (b : Bool) (rp : RegistryRecord) (k : Nat),
        t.dataContainer[p]? = some rp → p ≠ j → slotIdx b rp = some k → k ≠ i := by
      intro p b rp k hp hpj hbk hki
      subst hki
      exact hfree p b rp k hp hpj hbk hcdi
    obtain ⟨hcont, hlen, hokE, hdisjE, rj', hgrj, hshj⟩ :=
      removeOwned_excR i j t rj hj hcdi hiok hokR hdisjR hfree'
    refine ⟨by rw [hcont]; exact List.eraseIdx_sublist _ _, hlen,
      removeCustomData_archetypes _ _, removeCustomData_dataMap _ _, ?_,
      hokE, hdisjE, rj', hgrj, hshj⟩
    intro p rp hp hpj
    obtain ⟨rp', hgr, hcnt, -, -, -⟩ :=
      removeOwned_slotR i j t rj hj hcdi hiok hokR hfree' p rp hp hpj
    exact ⟨rp', hgr, hcnt⟩
  · rw [if_neg hv]
    exact ⟨List.Sublist.refl _, rfl, rfl, rfl,
      fun p rp hp hpj => ⟨rp, hp, rfl⟩, hokR, hdisjR, rj, hj, rfl⟩

theorem stripGroups_migrateGroups (old gs : List ArchetypeGroup) :
    stripGroups (migrateGroups old gs) = stripGroups gs := by
  unfold stripGroups migrateGroups
  rw [List.map_map]
  apply List.map_congr_left
  intro g hg
  simp only [Function.comp]
  split <;> rfl

theorem sortedAdjB_of_pairwise :
    ∀ l : List RegistryRecord, l.Pairwise (fun a b => recordLt a b = true) →
      sortedAdjB l = true := by
  intro l
  induction l with
  | nil => intro _; rfl
  | cons a rest ih =>
    intro h
    obtain ⟨h1, h2⟩ := List.pairwise_cons.mp h
    cases rest with
    | nil => rfl
    | cons b rest2 =>
      simp only [sortedAdjB, Bool.and_eq_true]
      exact ⟨h1 b (by simp), ih h2⟩

/-- Sortedness only looks at the record identifiers. -/
theorem sortedAdjB_eq_of_ids :
    ∀ (l l' : List RegistryRecord),
      l.map RegistryRecord.id = l'.map RegistryRecord.id →
      sortedAdjB l = sortedAdjB l' := by
  intro l
  induction l with
  | nil =>
    intro l' h
    cases l' with
    | nil => rfl
    | cons b t => simp at h
  | cons a t ih =>
    intro l' h
    cases l' with
    | nil => simp at h
    | cons b t' =>
      simp only [List.map_cons, List.cons.injEq] at h
      obtain ⟨hab, ht⟩ := h
      cases t with
      | nil =>
        cases t' with
        | nil => rfl
        | cons c t2 => simp at ht
      | cons c t2 =>
        cases t' with
        | nil => simp at ht
        | cons c' t2' =>
          have hcc : c.id = c'.id := by
            have h0 := congrArg (fun m => m[0]?) ht
            simpa [List.getElem?_cons_zero] using h0
          simp only [sortedAdjB]
          rw [ih (c' :: t2') ht]
          unfold recordLt
          rw [hab, hcc]

theorem fixupRecords_ids (cont : List Payload) :
    ∀ (recs : List RegistryRecord) (n : Nat),
      (idxMap (fun i r =>
        { r with
          repIndex := i + 1
          defaultPayload := viewAt cont r.defaultPayloadIndex
          customData := viewAt cont r.customDataIndex }) n recs).map RegistryRecord.id =
      recs.map RegistryRecord.id := by
  intro recs
  induction recs with
  | nil => intro n; rfl
  | cons r rest ih =>
    intro n
    simp only [idxMap, List.map_cons]
    rw [ih (n + 1)]
    simp [RegistryRecord.id]

theorem fixupRecords_map_id (cont : List Payload) (recs : List RegistryRecord) :
    (fixupRecords cont recs).map RegistryRecord.id = recs.map RegistryRecord.id :=
  fixupRecords_ids cont recs 0

theorem eraseAt_map {α β : Type} (f : α → β) :
    ∀ (j : Nat) (l : List α), (eraseAt j l).map f = eraseAt j (l.map f) := by
  intro j
  induction j with
  | zero => intro l; cases l <;> rfl
  | succ j ih =>
    intro l
    cases l with
    | nil => rfl
    | cons x l =>
      simp only [eraseAt, List.eraseIdx] at ih ⊢
      simp [ih l]

theorem sortedAdjB_eraseAt (j : Nat) (l : List RegistryRecord)
    (h : sortedAdjB l = true) : sortedAdjB (eraseAt j l) = true :=
  sortedAdjB_of_pairwise _
    (List.Pairwise.sublist (List.eraseIdx_sublist l j) (sortedAdjB_pairwise l h))

theorem mem_slotIdxs_slotIdx {r : RegistryRecord} {k : Nat} (h : k ∈ slotIdxs r) :
    ∃ b, slotIdx b r = some k := by
  unfold slotIdxs at h
  rcases List.mem_append.mp h with h1 | h1
  · refine ⟨true, ?_⟩
    have hdp : r.defaultPayloadIndex = some k := by simpa using h1
    simp [slotIdx, hdp]
  · refine ⟨false, ?_⟩
    have hcd : r.customDataIndex = some k := by simpa using h1
    simp [slotIdx, hcd]

theorem nodup_ownedIdxs_of_disj (recs : List RegistryRecord)
    (hdisj : SlotsDisj recs) : (ownedIdxs recs).Nodup := by
  rw [ownedIdxs, List.nodup_flatten]
  constructor
  · intro l hl
    obtain ⟨r, hr, rfl⟩ := List.mem_map.mp hl
    obtain ⟨p, hp⟩ := List.mem_iff_getElem?.mp hr
    cases hdp : r.defaultPayloadIndex with
    | none =>
      cases hcd : r.customDataIndex with
      | none => simp [slotIdxs, hdp, hcd]
      | some k => simp [slotIdxs, hdp, hcd]
    | some k =>
      cases hcd : r.customDataIndex with
      | none => simp [slotIdxs, hdp, hcd]
      | some k' =>
        simp only [slotIdxs, hdp, hcd]
        have hne : k ≠ k' := by
          intro he
          subst he
          obtain ⟨-, hbb⟩ := hdisj p p true false r r k hp hp
            (by simp [slotIdx, hdp]) (by simp [slotIdx, hcd])
          simp at hbb
        simp [hne]
  · rw [List.pairwise_iff_getElem]
    intro a b ha hb hab
    intro x hxa hxb
    rw [List.getElem_map] at hxa hxb
    obtain ⟨ba, hba⟩ := mem_slotIdxs_slotIdx hxa
    obtain ⟨bb, hbb⟩ := mem_slotIdxs_slotIdx hxb
    have ha' : a < recs.length := by simpa using ha
    have hb' : b < recs.length := by simpa using hb
    have hga : recs[a]? = some recs[a] := List.getElem?_eq_getElem ha'
    have hgb : recs[b]? = some recs[b] := List.getElem?_eq_getElem hb'
    obtain ⟨hab', -⟩ := hdisj a b ba bb _ _ x hga hgb hba hbb
    omega

theorem nodupB_of_nodup {α : Type} [DecidableEq α] :
    ∀ l : List α, l.Nodup → nodupB l = true := by
  intro l
  induction l with
  | nil => intro _; rfl
  | cons a t ih =>
    intro h
    obtain ⟨ha, ht⟩ := List.nodup_cons.mp h
    simp only [nodupB, Bool.and_eq_true, Bool.not_eq_true']
    exact ⟨by simpa using ha, ih ht⟩

theorem viewSlotOk_viewAt {cont : List Payload} {o : Option Nat} {v : Payload}
    (h : viewSlotOk cont o v) : viewSlotOk cont o (viewAt cont o) := by
  rw [viewAt_of_slotOk h]
  exact h

theorem fixupRecords_getElemQ (cont : List Payload) (recs : List RegistryRecord) (i : Nat) :
    (fixupRecords cont recs)[i]? = (recs[i]?).map (fun r =>
      { r with
        repIndex := i + 1
        defaultPayload := viewAt cont r.defaultPayloadIndex
        customData := viewAt cont r.customDataIndex }) := by
  by_cases h : i < recs.length
  · have h2 : i < (fixupRecords cont recs).length := by
      simpa [fixupRecords_length] using h
    rw [List.getElem?_eq_getElem h2, List.getElem?_eq_getElem h, Option.map_some']
    congr 1
    exact fixupRecords_getElem cont recs i h h2
  · have h2 : ¬ i < (fixupRecords cont recs).length := by
      simpa [fixupRecords_length] using h
    rw [List.getElem?_eq_none (by omega), List.getElem?_eq_none (by omega)]
    rfl

/-- `RemoveData` of a contained id on a well-formed state: it reports
success, preserves well-formedness, removes exactly the record at the
id's position (identity and content of every other record survive), and
resets the top-level checksum. -/
theorem removeData_master (s : RegistryState) (id : PrimaryAssetId) (hwf : WF s)
    (hc : s.containsRecord id = true) :
    (s.removeData id).1 = true ∧
    WF (s.removeData id).2 ∧
    (∃ j, findA s.dataMap id = some j ∧ idAtQ s.dataContainer j = some id ∧
      (s.removeData id).2.dataContainer.map idContent =
        eraseAt j (s.dataContainer.map idContent)) ∧
    (s.removeData id).2.checksum = 0 := by
  obtain ⟨j, hfa, hjlt, hjid⟩ := wf_lookup hwf hc
  obtain ⟨r0, hr0⟩ : ∃ r0, s.dataContainer[j]? = some r0 := by
    cases hl : s.dataContainer[j]? with
    | none => rw [hl] at hjid; simp at hjid
    | some r => exact ⟨r, rfl⟩
  have hr0id : r0.id = id := by
    rw [hr0] at hjid
    simpa using hjid
  have hgp : s.getRecordPtr id = some r0 := by
    unfold RegistryState.getRecordPtr
    rw [hfa]
    simpa using hr0
  have hok := slotsOk_of_wf hwf
  have hdisj := slotsDisj_of_wf hwf
  obtain ⟨hS1sub, hS1len, hS1ar, hS1dm, hS1cnt, hS1ok, hS1disj,
      rj1, hj1, hsh1, hcdv1, hcdok1, hfree1⟩ := rdStep1_full j s r0 hr0 hok hdisj
  obtain ⟨hS2sub, hS2len, hS2ar, hS2dm, hS2cnt, hS2ok, hS2disj, rj2, hj2, hsh2⟩ :=
    rdStep2_excR j (rdStep1 r0 s) rj1 hj1 hS1ok hS1disj hcdok1 hfree1
  have hremove : s.removeData id =
      (true, rdStep4 j (rdStep3 j (rdStep2 j (rdStep1 r0 s)))) := by
    unfold RegistryState.removeData
    rw [hgp, hfa]
    rfl
  have hlen2 : (rdStep2 j (rdStep1 r0 s)).dataContainer.length = s.dataContainer.length :=
    hS2len.trans hS1len
  have hid2 : rj2.id = id := by
    show rj2.sharedData.primaryAssetId = id
    rw [hsh2, hsh1]
    exact hr0id
  have htrack : ∀ (p : Nat) (rs : RegistryRecord), s.dataContainer[p]? = some rs → p ≠ j →
      ∃ rq, (rdStep2 j (rdStep1 r0 s)).dataContainer[p]? = some rq ∧
        contentOf rq = contentOf rs := by
    intro p rs hrs hp
    obtain ⟨ra, hra, hca⟩ := hS1cnt p rs hrs hp
    obtain ⟨rb, hrb, hcb⟩ := hS2cnt p ra hra hp
    exact ⟨rb, hrb, hcb.trans hca⟩
  have hids2 : (rdStep2 j (rdStep1 r0 s)).dataContainer.map RegistryRecord.id =
      s.dataContainer.map RegistryRecord.id := by
    apply List.ext_getElem?
    intro p
    rw [List.getElem?_map, List.getElem?_map]
    by_cases hpj : p = j
    · subst hpj
      rw [hj2, hr0]
      simp [hid2, hr0id]
    · cases hsp : s.dataContainer[p]? with
      | none =>
        have hn : (rdStep2 j (rdStep1 r0 s)).dataContainer[p]? = none := by
          rw [List.getElem?_eq_none]
          have := List.getElem?_eq_none_iff.mp hsp
          omega
        rw [hn]
      | some rs =>
        obtain ⟨rq, hrq, hcq⟩ := htrack p rs hsp hpj
        rw [hrq]
        have hqid : rq.id = rs.id := by
          show rq.sharedData.primaryAssetId = rs.sharedData.primaryAssetId
          rw [(contentOf_fields hcq).1]
        simp [hqid]
  have htrL : ∀ {α : Type} (l : List α) (p : Nat), (eraseAt j l)[p]? =
      l[if p < j then p else p + 1]? := by
    intro α l p
    by_cases hp : p < j
    · rw [if_pos hp]
      exact eraseAt_getElemQ_lt j p _ hp
    · rw [if_neg hp]
      exact eraseAt_getElemQ_ge j p _ (by omega)
  have htrne : ∀ p : Nat, (if p < j then p else p + 1) ≠ j := by
    intro p
    split <;> omega
  have hread : (((rdStep3 j (rdStep2 j (rdStep1 r0 s))).dataContainer[j]?).getD default)
      = rj2 := by
    show (((rdStep2 j (rdStep1 r0 s)).dataContainer)[j]?).getD default = rj2
    rw [hj2]
    rfl
  have hstep4 : rdStep4 j (rdStep3 j (rdStep2 j (rdStep1 r0 s))) =
      fixupDependencies true
        { rdStep3 j (rdStep2 j (rdStep1 r0 s)) with
          dataContainer := eraseAt j (rdStep2 j (rdStep1 r0 s)).dataContainer } := by
    unfold rdStep4
    rw [hread, hid2]
    rw [show findA (rdStep3 j (rdStep2 j (rdStep1 r0 s))).dataMap id = some j from by
      rw [show (rdStep3 j (rdStep2 j (rdStep1 r0 s))).dataMap = s.dataMap from
        hS2dm.trans hS1dm]
      exact hfa]
    rfl
  have herase_ok : SlotsOk (rdStep2 j (rdStep1 r0 s)).customDataContainer
      (eraseAt j (rdStep2 j (rdStep1 r0 s)).dataContainer) := by
    intro p b r hp
    rw [htrL _ p] at hp
    exact hS2ok _ b r hp (htrne p)
  have herase_disj : SlotsDisj (eraseAt j (rdStep2 j (rdStep1 r0 s)).dataContainer) := by
    intro p q bp bq rp rq k hp hq h1 h2
    rw [htrL _ p] at hp
    rw [htrL _ q] at hq
    obtain ⟨hpq, hbb⟩ := hS2disj _ _ bp bq rp rq k hp hq (htrne p) (htrne q) h1 h2
    refine ⟨?_, hbb⟩
    split_ifs at hpq <;> omega
  have hcontentEq : (fixupDependencies true
      { rdStep3 j (rdStep2 j (rdStep1 r0 s)) with
        dataContainer :=
          eraseAt j (rdStep2 j (rdStep1 r0 s)).dataContainer }).dataContainer.map
        idContent = eraseAt j (s.dataContainer.map idContent) := by
    show (fixupRecords (rdStep2 j (rdStep1 r0 s)).customDataContainer
        (eraseAt j (rdStep2 j (rdStep1 r0 s)).dataContainer)).map idContent = _
    rw [show eraseAt j (s.dataContainer.map idContent) =
      (eraseAt j s.dataContainer).map idContent from (eraseAt_map idContent j _).symm]
    apply List.ext_getElem?
    intro p
    rw [List.getElem?_map, fixupRecords_getElemQ, htrL _ p, List.getElem?_map,
      htrL s.dataContainer p]
    have hp'ne : (if p < j then p else p + 1) ≠ j := htrne p
    cases hsp : s.dataContainer[if p < j then p else p + 1]? with
    | none =>
      have hn : (rdStep2 j (rdStep1 r0 s)).dataContainer[if p < j then p else p + 1]?
          = none := by
        rw [List.getElem?_eq_none]
        have := List.getElem?_eq_none_iff.mp hsp
        omega
      rw [hn]
      rfl
    | some rs =>
      obtain ⟨rq, hrq, hcq⟩ := htrack _ rs hsp hp'ne
      rw [hrq]
      simp only [Option.map_some', Option.map_map]
      have hdpok := hS2ok _ true rq hrq hp'ne
      have hcdok := hS2ok _ false rq hrq hp'ne
      rw [show slotIdx true rq = rq.defaultPayloadIndex from by simp [slotIdx],
        show slotView true rq = rq.defaultPayload from by simp [slotView]] at hdpok
      rw [show slotIdx false rq = rq.customDataIndex from by simp [slotIdx],
        show slotView false rq = rq.customData from by simp [slotView]] at hcdok
      have h1 := viewAt_of_slotOk hdpok
      have h2 := viewAt_of_slotOk hcdok
      obtain ⟨ha, hb, hc1, hd⟩ := contentOf_fields hcq
      simp [idContent, RegistryRecord.id, h1, h2, ha, hb, hc1, hd]
  have hwf' : WF (fixupDependencies true
      { rdStep3 j (rdStep2 j (rdStep1 r0 s)) with
        dataContainer := eraseAt j (rdStep2 j (rdStep1 r0 s)).dataContainer }) := by
    unfold WF
    refine ⟨?_, rfl, rfl, ?_, ?_, ?_, ?_, ?_⟩
    · show sortedAdjB (fixupRecords (rdStep2 j (rdStep1 r0 s)).customDataContainer
        (eraseAt j (rdStep2 j (rdStep1 r0 s)).dataContainer)) = true
      have hidsE : (fixupRecords (rdStep2 j (rdStep1 r0 s)).customDataContainer
          (eraseAt j (rdStep2 j (rdStep1 r0 s)).dataContainer)).map RegistryRecord.id =
          (eraseAt j s.dataContainer).map RegistryRecord.id := by
        rw [fixupRecords_map_id, eraseAt_map, eraseAt_map, hids2]
      rw [sortedAdjB_eq_of_ids _ _ hidsE]
      exact sortedAdjB_eraseAt j _ hwf.1
    · exact stripGroups_migrateGroups _ _
    · show ∀ i (h : i < (fixupRecords (rdStep2 j (rdStep1 r0 s)).customDataContainer
          (eraseAt j (rdStep2 j (rdStep1 r0 s)).dataContainer)).length),
        ((fixupRecords (rdStep2 j (rdStep1 r0 s)).customDataContainer
          (eraseAt j (rdStep2 j (rdStep1 r0 s)).dataContainer))[i]).repIndex = i + 1
      intro i h
      have h' : i < (eraseAt j (rdStep2 j (rdStep1 r0 s)).dataContainer).length := by
        simpa [fixupRecords_length] using h
      simp [fixupRecords_getElem _ _ i h' h]
    · intro r hr
      obtain ⟨p, hp⟩ := List.mem_iff_getElem?.mp hr
      rw [show (fixupDependencies true
          { rdStep3 j (rdStep2 j (rdStep1 r0 s)) with
            dataContainer :=
              eraseAt j (rdStep2 j (rdStep1 r0 s)).dataContainer }).dataContainer =
        fixupRecords (rdStep2 j (rdStep1 r0 s)).customDataContainer
          (eraseAt j (rdStep2 j (rdStep1 r0 s)).dataContainer) from rfl,
        fixupRecords_getElemQ] at hp
      obtain ⟨rq, hrq, hfix⟩ := Option.map_eq_some'.mp hp
      have hok1 := herase_ok p true rq hrq
      have hok2 := herase_ok p false rq hrq
      rw [show slotIdx true rq = rq.defaultPayloadIndex from by simp [slotIdx],
        show slotView true rq = rq.defaultPayload from by simp [slotView]] at hok1
      rw [show slotIdx false rq = rq.customDataIndex from by simp [slotIdx],
        show slotView false rq = rq.customData from by simp [slotView]] at hok2
      rw [← hfix]
      exact ⟨viewSlotOk_viewAt hok1, viewSlotOk_viewAt hok2⟩
    · intro pl hpl
      exact hwf.2.2.2.2.2.2.1 pl (hS1sub.subset (hS2sub.subset hpl))
    · apply nodupB_of_nodup
      apply nodup_ownedIdxs_of_disj
      intro p q bp bq rp rq k hp hq h1 h2
      rw [show (fixupDependencies true
          { rdStep3 j (rdStep2 j (rdStep1 r0 s)) with
            dataContainer :=
              eraseAt j (rdStep2 j (rdStep1 r0 s)).dataContainer }).dataContainer =
        fixupRecords (rdStep2 j (rdStep1 r0 s)).customDataContainer
          (eraseAt j (rdStep2 j (rdStep1 r0 s)).dataContainer) from rfl,
        fixupRecords_getElemQ] at hp hq
      obtain ⟨rp0, hrp0, hfix1⟩ := Option.map_eq_some'.mp hp
      obtain ⟨rq0, hrq0, hfix2⟩ := Option.map_eq_some'.mp hq
      have hsp : slotIdx bp rp0 = some k := by
        rw [← hfix1] at h1
        cases bp <;> simpa [slotIdx] using h1
      have hsq : slotIdx bq rq0 = some k := by
        rw [← hfix2] at h2
        cases bq <;> simpa [slotIdx] using h2
      exact herase_disj p q bp bq rp0 rq0 k hrp0 hrq0 hsp hsq
  rw [hremove, hstep4]
  exact ⟨rfl, hwf', ⟨j, hfa, hjid, hcontentEq⟩, rfl⟩

theorem eraseAt_eq_filter {α : Type} (p : α → Bool) :
    ∀ (l : List α) (j : Nat) (a : α), l[j]? = some a → p a = false →
      (∀ (i : Nat) (b : α), l[i]? = some b → i ≠ j → p b = true) →
      l.filter p = eraseAt j l := by
  intro l
  induction l with
  | nil => intro j a hj _ _; simp at hj
  | cons x t ih =>
    intro j a hj hpa hother
    cases j with
    | zero =>
      have hxa : x = a := by simpa using hj
      subst hxa
      rw [List.filter_cons_of_neg (by simp [hpa])]
      show t.filter p = t
      apply List.filter_eq_self.mpr
      intro b hb
      obtain ⟨i, hi⟩ := List.mem_iff_getElem?.mp hb
      exact hother (i + 1) b (by simpa using hi) (by omega)
    | succ j =>
      have hj' : t[j]? = some a := by simpa using hj
      have hpx : p x = true := hother 0 x (by simp) (by omega)
      rw [List.filter_cons_of_pos hpx]
      show x :: t.filter p = eraseAt (j + 1) (x :: t)
      rw [show eraseAt (j + 1) (x :: t) = x :: eraseAt j t from rfl]
      congr 1
      exact ih j a hj' hpa (fun i b hb hij => hother (i + 1) b (by simpa using hb)
        (by omega))

/-- Folding `RemoveData` over a duplicate-free list of contained ids
preserves well-formedness and removes exactly the records with those
ids. -/
theorem fold_removeData :
    ∀ (ids : List PrimaryAssetId) (t : RegistryState), WF t → ids.Nodup →
      (∀ id ∈ ids, id ∈ t.dataContainer.map RegistryRecord.id) →
      WF (ids.foldl (fun acc pid => (RegistryState.removeData pid acc).2) t) ∧
      (ids.foldl (fun acc pid =>
          (RegistryState.removeData pid acc).2) t).dataContainer.map idContent =
        (t.dataContainer.map idContent).filter (fun sg => !(ids.contains sg.1)) := by
  intro ids
  induction ids with
  | nil =>
    intro t hwf _ _
    refine ⟨hwf, ?_⟩
    simp
  | cons id0 rest ih =>
    intro t hwf hnd hmem
    have hc : t.containsRecord id0 = true :=
      (containsRecord_iff_mem hwf id0).mpr (hmem id0 (by simp))
    obtain ⟨-, hwf1, ⟨j, hfa, hjid, hcnt⟩, -⟩ := removeData_master t id0 hwf hc
    obtain ⟨rj, hrj, hrjid⟩ : ∃ rj, t.dataContainer[j]? = some rj ∧ rj.id = id0 := by
      cases hl : t.dataContainer[j]? with
      | none => rw [show idAtQ t.dataContainer j = (t.dataContainer[j]?).map
          RegistryRecord.id from rfl, hl] at hjid; simp at hjid
      | some r =>
        refine ⟨r, rfl, ?_⟩
        rw [show idAtQ t.dataContainer j = (t.dataContainer[j]?).map
          RegistryRecord.id from rfl, hl] at hjid
        simpa using hjid
    have hsig_j : (t.dataContainer.map idContent)[j]? = some (idContent rj) := by
      rw [List.getElem?_map, hrj]
      rfl
    have hkey_j : (fun sg : PrimaryAssetId × SharedData × Nat × Payload × Payload =>
        (decide ¬(sg.1 = id0))) (idContent rj) = false := by
      simp [idContent, hrjid]
    have hother : ∀ (i : Nat) (sg : PrimaryAssetId × SharedData × Nat × Payload × Payload),
        (t.dataContainer.map idContent)[i]? = some sg → i ≠ j →
        (decide ¬(sg.1 = id0)) = true := by
      intro i sg hi hij
      rw [List.getElem?_map] at hi
      obtain ⟨rb, hrb, hrbsig⟩ := Option.map_eq_some'.mp hi
      have hbne : rb.id ≠ id0 := by
        intro hbid
        apply hij
        have hii : (t.dataContainer.map RegistryRecord.id)[i]? = some id0 := by
          rw [List.getElem?_map, hrb]
          simpa using hbid
        have hjj : (t.dataContainer.map RegistryRecord.id)[j]? = some id0 := by
          rw [List.getElem?_map, hrj]
          simpa using hrjid
        have hilt : i < (t.dataContainer.map RegistryRecord.id).length := by
          have := (List.getElem?_eq_some_iff.mp hii).1
          omega
        exact List.getElem?_inj hilt (wf_ids_nodup hwf) (hii.trans hjj.symm)
      rw [← hrbsig]
      simp [idContent, hbne]
    have hfilter : (t.dataContainer.map idContent).filter
        (fun sg => (decide ¬(sg.1 = id0))) = eraseAt j (t.dataContainer.map idContent) :=
      eraseAt_eq_filter _ _ j (idContent rj) hsig_j hkey_j hother
    have hcnt' : (t.removeData id0).2.dataContainer.map idContent =
        (t.dataContainer.map idContent).filter (fun sg => (decide ¬(sg.1 = id0))) := by
      rw [hfilter]
      exact hcnt
    have hmem1 : ∀ id' ∈ rest, id' ∈ (t.removeData id0).2.dataContainer.map
        RegistryRecord.id := by
      intro id' hid'
      have hne0 : id' ≠ id0 := by
        intro he
        subst he
        exact (List.nodup_cons.mp hnd).1 hid'
      have hmemt := hmem id' (by simp [hid'])
      obtain ⟨rold, hrold, hroldid⟩ := List.mem_map.mp hmemt
      have hsg : idContent rold ∈ (t.removeData id0).2.dataContainer.map idContent := by
        rw [hcnt']
        apply List.mem_filter.mpr
        refine ⟨List.mem_map.mpr ⟨rold, hrold, rfl⟩, ?_⟩
        simp [idContent, hroldid, hne0]
      rw [← map_fst_idContent]
      exact List.mem_map.mpr ⟨idContent rold, hsg, by simp [idContent, hroldid]⟩
    rw [List.foldl_cons]
    obtain ⟨hwfF, hcntF⟩ :=
      ih (t.removeData id0).2 hwf1 (List.nodup_cons.mp hnd).2 hmem1
    refine ⟨hwfF, ?_⟩
    rw [hcntF, hcnt', List.filter_filter]
    apply List.filter_congr
    intro sg hsg
    by_cases he : sg.1 = id0 <;> simp [he, List.contains_cons]

theorem insertAt_getElemQ {α : Type} (x : α) :
    ∀ (n : Nat) (l : List α) (p : Nat), n ≤ l.length →
      (insertAt n x l)[p]? =
        if p < n then l[p]? else if p = n then some x else l[p - 1]? := by
  intro n
  induction n with
  | zero =>
    intro l p _
    cases l <;> cases p <;> simp [insertAt]
  | succ n ih =>
    intro l p h
    cases l with
    | nil => simp at h
    | cons y t =>
      cases p with
      | zero => simp [insertAt]
      | succ p =>
        simp only [insertAt, List.getElem?_cons_succ]
        rw [ih t p (by simpa using h)]
        by_cases h1 : p < n
        · rw [if_pos h1, if_pos (by omega)]
        · rw [if_neg h1]
          by_cases h2 : p = n
          · rw [if_pos h2, if_neg (by omega), if_pos (by omega)]
          · rw [if_neg h2, if_neg (by omega), if_neg (by omega)]
            have hp1 : p + 1 - 1 = (p - 1) + 1 := by omega
            rw [hp1, List.getElem?_cons_succ]

theorem insertAt_map {α β : Type} (f : α → β) (x : α) :
    ∀ (n : Nat) (l : List α),
      (insertAt n x l).map f = insertAt n (f x) (l.map f) := by
  intro n
  induction n with
  | zero => intro l; cases l <;> rfl
  | succ n ih =>
    intro l
    cases l with
    | nil => rfl
    | cons y t =>
      simp only [insertAt, List.map_cons]
      rw [ih t]

theorem idLt_total {a b : PrimaryAssetId} (h1 : idLt a b = false) (h2 : a ≠ b) :
    idLt b a = true := by
  have h1' : ¬(a.ptype < b.ptype ∨ (a.ptype = b.ptype ∧ a.pname < b.pname)) := by
    rw [← idLt_iff]
    simp [h1]
  have hne : a.ptype ≠ b.ptype ∨ a.pname ≠ b.pname := by
    by_contra hcon
    push_neg at hcon
    apply h2
    cases a
    cases b
    simp only at hcon
    simp [hcon.1, hcon.2]
  rw [idLt_iff]
  omega

theorem recordLt_total {a b : RegistryRecord} (h1 : recordLt a b = false)
    (h2 : a.id ≠ b.id) : recordLt b a = true :=
  idLt_total h1 h2

theorem sortedAdjB_tail {x : RegistryRecord} {t : List RegistryRecord}
    (h : sortedAdjB (x :: t) = true) : sortedAdjB t = true := by
  cases t with
  | nil => rfl
  | cons y t2 =>
    simp only [sortedAdjB, Bool.and_eq_true] at h
    exact h.2

/-- In a sorted list missing `rec.id`, every element past the lower bound
is strictly greater than `rec`. -/
theorem rec_lt_dropWhile (rec : RegistryRecord) :
    ∀ l : List RegistryRecord, sortedAdjB l = true →
      rec.id ∉ l.map RegistryRecord.id →
      ∀ b ∈ l.dropWhile (fun r => recordLt r rec), recordLt rec b = true := by
  intro l
  induction l with
  | nil => intro _ _ b hb; simp at hb
  | cons x t ih =>
    intro hs hnm b hb
    rw [List.dropWhile_cons] at hb
    by_cases hx : recordLt x rec = true
    · rw [if_pos (by simp [hx])] at hb
      exact ih (sortedAdjB_tail hs) (fun hm => hnm (by simp [hm])) b hb
    · rw [if_neg (by simp [hx])] at hb
      have hxid : rec.id ≠ x.id := by
        intro he
        exact hnm (by simp [he])
      have hrx : recordLt rec x = true :=
        recordLt_total (by simpa using hx) (fun he => hxid he.symm)
      rcases List.mem_cons.mp hb with rfl | hbt
      · exact hrx
      · have hp := sortedAdjB_pairwise _ hs
        have hxb := (List.pairwise_cons.mp hp).1 b hbt
        exact recordLt_trans hrx hxb

theorem insertAt_eq_take_drop {α : Type} (x : α) :
    ∀ (n : Nat) (l : List α), n ≤ l.length →
      insertAt n x l = l.take n ++ x :: l.drop n := by
  intro n
  induction n with
  | zero => intro l _; cases l <;> rfl
  | succ n ih =>
    intro l h
    cases l with
    | nil => simp at h
    | cons y t =>
      show y :: insertAt n x t = y :: (t.take n ++ x :: t.drop n)
      rw [ih t (by simpa using h)]

/-- Inserting a fresh record at its lower-bound position keeps the array
sorted. -/
theorem sortedAdjB_insertAt_lowerBound (l : List RegistryRecord) (rec : RegistryRecord)
    (hs : sortedAdjB l = true) (hnm : rec.id ∉ l.map RegistryRecord.id) :
    sortedAdjB (insertAt (lowerBoundIdx l rec) rec l) = true := by
  have hle : lowerBoundIdx l rec ≤ l.length := lowerBoundIdx_le l rec
  rw [insertAt_eq_take_drop rec _ l hle]
  have htake : l.take (lowerBoundIdx l rec) = l.takeWhile (fun r => recordLt r rec) := by
    unfold lowerBoundIdx
    exact (List.prefix_iff_eq_take.mp (List.takeWhile_prefix _)).symm
  have hdrop : l.drop (lowerBoundIdx l rec) = l.dropWhile (fun r => recordLt r rec) := by
    have hsplit : l.take (lowerBoundIdx l rec) ++ l.drop (lowerBoundIdx l rec) = l :=
      List.take_append_drop _ l
    rw [htake] at hsplit
    have hsplit2 : l.takeWhile (fun r => recordLt r rec) ++
        l.dropWhile (fun r => recordLt r rec) = l :=
      List.takeWhile_append_dropWhile _ _
    exact List.append_cancel_left (hsplit.trans hsplit2.symm)
  rw [htake, hdrop]
  apply sortedAdjB_of_pairwise
  have hp := sortedAdjB_pairwise l hs
  rw [List.pairwise_append]
  refine ⟨List.Pairwise.sublist (List.takeWhile_sublist _) hp, ?_, ?_⟩
  · rw [List.pairwise_cons]
    refine ⟨rec_lt_dropWhile rec l hs hnm, ?_⟩
    exact List.Pairwise.sublist (List.dropWhile_sublist _) hp
  · intro a ha b hb
    have har := List.mem_takeWhile_imp ha
    rcases List.mem_cons.mp hb with rfl | hbd
    · exact har
    · exact recordLt_trans har (rec_lt_dropWhile rec l hs hnm b hbd)

/-- The container-slot index given to the inserted record's default
payload by the insert path. -/
def insDpIdx (s : RegistryState) (rec : RegistryRecord) : Option Nat :=
  if rec.defaultPayload.isValid then some s.customDataContainer.length else none

/-- The container-slot index given to the inserted record's custom data
by the insert path. -/
def insCdIdx (s : RegistryState) (rec : RegistryRecord) : Option Nat :=
  if rec.customData.isValid then
    some (s.customDataContainer.length + (if rec.defaultPayload.isValid then 1 else 0))
  else none

/-- The blobs appended to the shared container by the insert path. -/
def insExt (rec : RegistryRecord) : List Payload :=
  (if rec.defaultPayload.isValid then [rec.defaultPayload] else []) ++
    (if rec.customData.isValid then [rec.customData] else [])

/-- The inserted record as stored before the final fixup. -/
def insRec (s : RegistryState) (rec : RegistryRecord) : RegistryRecord :=
  slotSetIdx false (insCdIdx s rec)
    (slotSetIdx true (insDpIdx s rec) { rec with checksum := 0 })

theorem appendNewSlot_shape (isDp : Bool) (v : Payload) (j : Nat) (t : RegistryState) :
    (appendNewSlot isDp v j t).customDataContainer =
      t.customDataContainer ++ (if v.isValid then [v] else []) ∧
    (appendNewSlot isDp v j t).dataContainer =
      modifyAt j (slotSetIdx isDp
        (if v.isValid then some t.customDataContainer.length else none))
        t.dataContainer := by
  unfold appendNewSlot
  by_cases hv : v.isValid = true
  · rw [if_pos hv, if_pos hv, if_pos hv]
    exact ⟨rfl, rfl⟩
  · rw [if_neg hv, if_neg hv, if_neg hv]
    exact ⟨by simp, rfl⟩

theorem insPre_shape (s : RegistryState) (rec : RegistryRecord) (idx : Nat)
    (hidx : idx ≤ s.dataContainer.length) :
    (appendNewSlot false rec.customData idx
      (appendNewSlot true rec.defaultPayload idx
        (insStep1 rec idx s))).customDataContainer =
      s.customDataContainer ++ insExt rec ∧
    (appendNewSlot false rec.customData idx
      (appendNewSlot true rec.defaultPayload idx (insStep1 rec idx s))).dataContainer =
      insertAt idx (insRec s rec) s.dataContainer := by
  have hA : (insStep1 rec idx s).dataContainer =
      insertAt idx { rec with checksum := 0 } s.dataContainer := by
    show modifyAt idx (fun r => { r with checksum := 0 })
      (insertAt idx rec s.dataContainer) = _
    rw [modifyAt_insertAt_same _ _ idx _ hidx]
  have hAc : (insStep1 rec idx s).customDataContainer = s.customDataContainer := rfl
  obtain ⟨hBc, hBr⟩ := appendNewSlot_shape true rec.defaultPayload idx (insStep1 rec idx s)
  obtain ⟨hCc, hCr⟩ := appendNewSlot_shape false rec.customData idx
    (appendNewSlot true rec.defaultPayload idx (insStep1 rec idx s))
  constructor
  · rw [hCc, hBc, hAc, List.append_assoc]
    rfl
  · rw [hCr, hBr, hA, modifyAt_insertAt_same _ _ idx _ hidx,
      modifyAt_insertAt_same _ _ idx _ hidx, hBc, hAc]
    by_cases hdv : rec.defaultPayload.isValid = true <;>
      simp [hdv, insRec, insDpIdx, insCdIdx]

theorem viewSlotOk_viewAt_any (cont : List Payload) (o : Option Nat)
    (h : ∀ k, o = some k → k < cont.length) :
    viewSlotOk cont o (viewAt cont o) := by
  cases o with
  | none => rfl
  | some k =>
    have hk := h k rfl
    constructor
    · exact hk
    · show cont[k]? = some ((cont[k]?).getD Payload.invalid)
      rw [List.getElem?_eq_getElem hk]
      rfl

theorem insRec_fields (s : RegistryState) (rec : RegistryRecord) :
    (insRec s rec).sharedData = rec.sharedData ∧
    (insRec s rec).assetPath = rec.assetPath ∧
    (insRec s rec).defaultPayloadIndex = insDpIdx s rec ∧
    (insRec s rec).customDataIndex = insCdIdx s rec ∧
    (insRec s rec).defaultPayload = rec.defaultPayload ∧
    (insRec s rec).customData = rec.customData :=
  ⟨rfl, rfl, rfl, rfl, rfl, rfl⟩

theorem insExt_dp_entry (s : RegistryState) (rec : RegistryRecord)
    (hdv : rec.defaultPayload.isValid = true) :
    (s.customDataContainer ++ insExt rec)[s.customDataContainer.length]? =
      some rec.defaultPayload := by
  rw [List.getElem?_append_right (Nat.le_refl _)]
  simp [insExt, hdv]

theorem insExt_cd_entry (s : RegistryState) (rec : RegistryRecord)
    (hcv : rec.customData.isValid = true) :
    (s.customDataContainer ++ insExt rec)[s.customDataContainer.length +
      (if rec.defaultPayload.isValid then 1 else 0)]? = some rec.customData := by
  rw [List.getElem?_append_right (by omega)]
  by_cases hdv : rec.defaultPayload.isValid = true <;> simp [insExt, hdv, hcv]

theorem insExt_length_pos_dp (rec : RegistryRecord)
    (hdv : rec.defaultPayload.isValid = true) : 1 ≤ (insExt rec).length := by
  by_cases hcv : rec.customData.isValid = true <;> simp [insExt, hdv, hcv]

theorem insExt_length_cd (rec : RegistryRecord) (hcv : rec.customData.isValid = true) :
    (if rec.defaultPayload.isValid then 1 else 0) < (insExt rec).length := by
  by_cases hdv : rec.defaultPayload.isValid = true <;> simp [insExt, hdv, hcv]

/-- `AppendData` of a fresh id on a well-formed state: it reports an
insertion, preserves well-formedness, adds exactly one record at the
sorted lower-bound position (with views normalized by the fixup), leaves
every other record's identity and content unchanged, and resets the
top-level checksum. -/
theorem appendInsert_master (s : RegistryState) (rec : RegistryRecord) (hwf : WF s)
    (hnc : s.containsRecord rec.id = false) :
    (s.appendData rec).1 = true ∧
    WF (s.appendData rec).2 ∧
    (s.appendData rec).2.dataContainer.map idContent =
      insertAt (lowerBoundIdx s.dataContainer rec)
        (rec.id, rec.sharedData, rec.assetPath,
          normalizeView rec.defaultPayload, normalizeView rec.customData)
        (s.dataContainer.map idContent) ∧
    (s.appendData rec).2.checksum = 0 := by
  have happ : s.appendData rec =
      (true, appendDataInsert rec (lowerBoundIdx s.dataContainer rec) s) := by
    unfold RegistryState.appendData
    rw [hnc]
    rfl
  rw [happ]
  have hidx : lowerBoundIdx s.dataContainer rec ≤ s.dataContainer.length :=
    lowerBoundIdx_le _ _
  obtain ⟨hCc, hCr⟩ := insPre_shape s rec _ hidx
  have hnm : rec.id ∉ s.dataContainer.map RegistryRecord.id := by
    intro hm
    have hcm := (containsRecord_iff_mem hwf rec.id).mpr hm
    rw [hcm] at hnc
    simp at hnc
  have hsOk := slotsOk_of_wf hwf
  have hsDisj := slotsDisj_of_wf hwf
  obtain ⟨hish, hiap, hidp, hicd, hivdp, hivcd⟩ := insRec_fields s rec
  have hdc : (appendDataInsert rec (lowerBoundIdx s.dataContainer rec) s).dataContainer =
      fixupRecords (s.customDataContainer ++ insExt rec)
        (insertAt (lowerBoundIdx s.dataContainer rec) (insRec s rec) s.dataContainer) := by
    show fixupRecords
      (appendNewSlot false rec.customData (lowerBoundIdx s.dataContainer rec)
        (appendNewSlot true rec.defaultPayload (lowerBoundIdx s.dataContainer rec)
          (insStep1 rec (lowerBoundIdx s.dataContainer rec) s))).customDataContainer
      (appendNewSlot false rec.customData (lowerBoundIdx s.dataContainer rec)
        (appendNewSlot true rec.defaultPayload (lowerBoundIdx s.dataContainer rec)
          (insStep1 rec (lowerBoundIdx s.dataContainer rec) s))).dataContainer = _
    rw [hCc, hCr]
  have hnewdp : viewSlotOk (s.customDataContainer ++ insExt rec) (insDpIdx s rec)
      (normalizeView rec.defaultPayload) := by
    by_cases hdv : rec.defaultPayload.isValid = true
    · rw [show insDpIdx s rec = some s.customDataContainer.length from by
        simp [insDpIdx, hdv]]
      have hlen := insExt_length_pos_dp rec hdv
      refine ⟨by simp; omega, ?_⟩
      rw [insExt_dp_entry s rec hdv]
      simp [normalizeView, hdv]
    · rw [show insDpIdx s rec = none from by simp [insDpIdx, hdv]]
      show normalizeView rec.defaultPayload = Payload.invalid
      simp [normalizeView, hdv]
  have hnewcd : viewSlotOk (s.customDataContainer ++ insExt rec) (insCdIdx s rec)
      (normalizeView rec.customData) := by
    by_cases hcv : rec.customData.isValid = true
    · rw [show insCdIdx s rec = some (s.customDataContainer.length +
        (if rec.defaultPayload.isValid then 1 else 0)) from by simp [insCdIdx, hcv]]
      have hlen := insExt_length_cd rec hcv
      refine ⟨by simp; omega, ?_⟩
      rw [insExt_cd_entry s rec hcv]
      simp [normalizeView, hcv]
    · rw [show insCdIdx s rec = none from by simp [insCdIdx, hcv]]
      show normalizeView rec.customData = Payload.invalid
      simp [normalizeView, hcv]
  have hrecsC : ∀ p : Nat,
      (insertAt (lowerBoundIdx s.dataContainer rec) (insRec s rec) s.dataContainer)[p]? =
      if p < lowerBoundIdx s.dataContainer rec then s.dataContainer[p]?
      else if p = lowerBoundIdx s.dataContainer rec then some (insRec s rec)
      else s.dataContainer[p - 1]? :=
    fun p => insertAt_getElemQ _ _ _ p hidx
  have hold_lt : ∀ (p : Nat) (b : Bool) (r : RegistryRecord) (k : Nat),
      s.dataContainer[p]? = some r → slotIdx b r = some k →
      k < s.customDataContainer.length := by
    intro p b r k hp hk
    have h0 := hsOk p b r hp
    rw [hk] at h0
    exact h0.1
  have hself : ∀ k, insDpIdx s rec = some k → insCdIdx s rec = some k → False := by
    intro k h1 h2
    unfold insDpIdx at h1
    split at h1
    · rename_i hdv
      have hk1 : s.customDataContainer.length = k := by simpa using h1
      unfold insCdIdx at h2
      rw [if_pos hdv] at h2
      split at h2
      · have hk2 : s.customDataContainer.length + 1 = k := by simpa using h2
        omega
      · simp at h2
    · simp at h1
  have hslot_insRec : ∀ (b : Bool) (k : Nat), slotIdx b (insRec s rec) = some k →
      s.customDataContainer.length ≤ k := by
    intro b k hk
    cases b
    · have hcd : insCdIdx s rec = some k := by rw [← hicd]; exact hk
      unfold insCdIdx at hcd
      split at hcd
      · have hke : s.customDataContainer.length +
            (if rec.defaultPayload.isValid then 1 else 0) = k := by simpa using hcd
        omega
      · simp at hcd
    · have hdp : insDpIdx s rec = some k := by rw [← hidp]; exact hk
      unfold insDpIdx at hdp
      split at hdp
      · have : s.customDataContainer.length = k := by simpa using hdp
        omega
      · simp at hdp
  have hslot_insRec_disj : ∀ (bp bq : Bool) (k : Nat),
      slotIdx bp (insRec s rec) = some k → slotIdx bq (insRec s rec) = some k →
      bp = bq := by
    intro bp bq k h1 h2
    cases bp <;> cases bq
    · rfl
    · exact (hself k (by rw [← hidp]; exact h2) (by rw [← hicd]; exact h1)).elim
    · exact (hself k (by rw [← hidp]; exact h1) (by rw [← hicd]; exact h2)).elim
    · rfl
  have hdisjC : SlotsDisj
      (insertAt (lowerBoundIdx s.dataContainer rec) (insRec s rec) s.dataContainer) := by
    intro p q bp bq rp rq k hp hq h1 h2
    rw [hrecsC p] at hp
    rw [hrecsC q] at hq
    by_cases hp1 : p < lowerBoundIdx s.dataContainer rec
    · rw [if_pos hp1] at hp
      by_cases hq1 : q < lowerBoundIdx s.dataContainer rec
      · rw [if_pos hq1] at hq
        exact hsDisj p q bp bq rp rq k hp hq h1 h2
      · rw [if_neg hq1] at hq
        by_cases hq2 : q = lowerBoundIdx s.dataContainer rec
        · rw [if_pos hq2] at hq
          have hrq : rq = insRec s rec := by injection hq with h; exact h.symm
          subst hrq
          have hk1 := hslot_insRec bq k h2
          have hk2 := hold_lt p bp rp k hp h1
          omega
        · rw [if_neg hq2] at hq
          obtain ⟨hpq, -⟩ := hsDisj p (q - 1) bp bq rp rq k hp hq h1 h2
          exact absurd hpq (by omega)
    · rw [if_neg hp1] at hp
      by_cases hp2 : p = lowerBoundIdx s.dataContainer rec
      · rw [if_pos hp2] at hp
        have hrp : rp = insRec s rec := by injection hp with h; exact h.symm
        subst hrp
        by_cases hq1 : q < lowerBoundIdx s.dataContainer rec
        · rw [if_pos hq1] at hq
          have hk1 := hslot_insRec bp k h1
          have hk2 := hold_lt q bq rq k hq h2
          omega
        · rw [if_neg hq1] at hq
          by_cases hq2 : q = lowerBoundIdx s.dataContainer rec
          · rw [if_pos hq2] at hq
            have hrq : rq = insRec s rec := by injection hq with h; exact h.symm
            subst hrq
            exact ⟨by omega, hslot_insRec_disj bp bq k h1 h2⟩
          · rw [if_neg hq2] at hq
            have hk1 := hslot_insRec bp k h1
            have hk2 := hold_lt (q - 1) bq rq k hq h2
            omega
      · rw [if_neg hp2] at hp
        by_cases hq1 : q < lowerBoundIdx s.dataContainer rec
        · rw [if_pos hq1] at hq
          obtain ⟨hpq, -⟩ := hsDisj (p - 1) q bp bq rp rq k hp hq h1 h2
          exact absurd hpq (by omega)
        · rw [if_neg hq1] at hq
          by_cases hq2 : q = lowerBoundIdx s.dataContainer rec
          · rw [if_pos hq2] at hq
            have hrq : rq = insRec s rec := by injection hq with h; exact h.symm
            subst hrq
            have hk1 := hslot_insRec bq k h2
            have hk2 := hold_lt (p - 1) bp rp k hp h1
            omega
          · rw [if_neg hq2] at hq
            obtain ⟨hpq, hbb⟩ := hsDisj (p - 1) (q - 1) bp bq rp rq k hp hq h1 h2
            exact ⟨by omega, hbb⟩
  have hfix_old : ∀ (p : Nat) (rs : RegistryRecord), s.dataContainer[p]? = some rs →
      viewAt (s.customDataContainer ++ insExt rec) rs.defaultPayloadIndex =
        rs.defaultPayload ∧
      viewAt (s.customDataContainer ++ insExt rec) rs.customDataIndex = rs.customData := by
    intro p rs hp
    have hdpok := hsOk p true rs hp
    have hcdok := hsOk p false rs hp
    rw [show slotIdx true rs = rs.defaultPayloadIndex from by simp [slotIdx],
      show slotView true rs = rs.defaultPayload from by simp [slotView]] at hdpok
    rw [show slotIdx false rs = rs.customDataIndex from by simp [slotIdx],
      show slotView false rs = rs.customData from by simp [slotView]] at hcdok
    exact ⟨viewAt_of_slotOk (viewSlotOk_append _ _ _ _ hdpok),
      viewAt_of_slotOk (viewSlotOk_append _ _ _ _ hcdok)⟩
  have hsig : (fixupRecords (s.customDataContainer ++ insExt rec)
      (insertAt (lowerBoundIdx s.dataContainer rec) (insRec s rec)
        s.dataContainer)).map idContent =
      insertAt (lowerBoundIdx s.dataContainer rec)
        (rec.id, rec.sharedData, rec.assetPath,
          normalizeView rec.defaultPayload, normalizeView rec.customData)
        (s.dataContainer.map idContent) := by
    apply List.ext_getElem?
    intro p
    rw [List.getElem?_map, fixupRecords_getElemQ, hrecsC p,
      insertAt_getElemQ _ _ _ p (by simpa using hidx)]
    simp only [List.getElem?_map]
    by_cases hp1 : p < lowerBoundIdx s.dataContainer rec
    · rw [if_pos hp1, if_pos hp1]
      cases hsp : s.dataContainer[p]? with
      | none => rfl
      | some rs =>
        simp only [Option.map_some']
        obtain ⟨h1, h2⟩ := hfix_old p rs hsp
        simp [idContent, RegistryRecord.id, h1, h2]
    · rw [if_neg hp1, if_neg hp1]
      by_cases hp2 : p = lowerBoundIdx s.dataContainer rec
      · rw [if_pos hp2, if_pos hp2]
        simp only [Option.map_some']
        have h1 : viewAt (s.customDataContainer ++ insExt rec)
            (insRec s rec).defaultPayloadIndex = normalizeView rec.defaultPayload := by
          rw [hidp]
          exact viewAt_of_slotOk hnewdp
        have h2 : viewAt (s.customDataContainer ++ insExt rec)
            (insRec s rec).customDataIndex = normalizeView rec.customData := by
          rw [hicd]
          exact viewAt_of_slotOk hnewcd
        simp [idContent, RegistryRecord.id, h1, h2, hish, hiap]
      · rw [if_neg hp2, if_neg hp2]
        cases hsp : s.dataContainer[p - 1]? with
        | none => rfl
        | some rs =>
          simp only [Option.map_some']
          obtain ⟨h1, h2⟩ := hfix_old (p - 1) rs hsp
          simp [idContent, RegistryRecord.id, h1, h2]
  have hwfN : WF (appendDataInsert rec (lowerBoundIdx s.dataContainer rec) s) := by
    unfold WF
    refine ⟨?_, rfl, rfl, ?_, ?_, ?_, ?_, ?_⟩
    · rw [show (appendDataInsert rec (lowerBoundIdx s.dataContainer rec) s).dataContainer
        = fixupRecords (s.customDataContainer ++ insExt rec)
          (insertAt (lowerBoundIdx s.dataContainer rec) (insRec s rec) s.dataContainer)
        from hdc]
      have hidsE : (fixupRecords (s.customDataContainer ++ insExt rec)
          (insertAt (lowerBoundIdx s.dataContainer rec) (insRec s rec)
            s.dataContainer)).map RegistryRecord.id =
          (insertAt (lowerBoundIdx s.dataContainer rec) rec
            s.dataContainer).map RegistryRecord.id := by
        rw [fixupRecords_map_id, insertAt_map, insertAt_map]
        rfl
      rw [sortedAdjB_eq_of_ids _ _ hidsE]
      exact sortedAdjB_insertAt_lowerBound _ _ hwf.1 hnm
    · exact stripGroups_migrateGroups _ _
    · rw [hdc]
      intro i h
      have h' : i < (insertAt (lowerBoundIdx s.dataContainer rec) (insRec s rec)
          s.dataContainer).length := by
        simpa [fixupRecords_length] using h
      simp [fixupRecords_getElem _ _ i h' h]
    · rw [show (appendDataInsert rec
          (lowerBoundIdx s.dataContainer rec) s).customDataContainer
        = s.customDataContainer ++ insExt rec from hCc, hdc]
      intro r hr
      obtain ⟨p, hp⟩ := List.mem_iff_getElem?.mp hr
      rw [fixupRecords_getElemQ] at hp
      obtain ⟨rq, hrq, hfix⟩ := Option.map_eq_some'.mp hp
      have hbound : ∀ (b : Bool) (k : Nat), slotIdx b rq = some k →
          k < (s.customDataContainer ++ insExt rec).length := by
        intro b k hk
        rw [hrecsC p] at hrq
        by_cases hp1 : p < lowerBoundIdx s.dataContainer rec
        · rw [if_pos hp1] at hrq
          have := hold_lt p b rq k hrq hk
          simp
          omega
        · rw [if_neg hp1] at hrq
          by_cases hp2 : p = lowerBoundIdx s.dataContainer rec
          · rw [if_pos hp2] at hrq
            have hrq' : rq = insRec s rec := by injection hrq with h; exact h.symm
            subst hrq'
            cases b
            · have hcd : insCdIdx s rec = some k := by rw [← hicd]; exact hk
              unfold insCdIdx at hcd
              split at hcd
              · rename_i hcv
                have hke : s.customDataContainer.length +
                    (if rec.defaultPayload.isValid then 1 else 0) = k := by
                  simpa using hcd
                have := insExt_length_cd rec hcv
                simp
                omega
              · simp at hcd
            · have hdp : insDpIdx s rec = some k := by rw [← hidp]; exact hk
              unfold insDpIdx at hdp
              split at hdp
              · rename_i hdv
                have hke : s.customDataContainer.length = k := by simpa using hdp
                have := insExt_length_pos_dp rec hdv
                simp
                omega
              · simp at hdp
          · rw [if_neg hp2] at hrq
            have := hold_lt (p - 1) b rq k hrq hk
            simp
            omega
      rw [← hfix]
      constructor
      · apply viewSlotOk_viewAt_any
        intro k hk
        exact hbound true k (show slotIdx true rq = some k from hk)
      · apply viewSlotOk_viewAt_any
        intro k hk
        exact hbound false k (show slotIdx false rq = some k from hk)
    · intro pl hpl
      rw [show (appendDataInsert rec
          (lowerBoundIdx s.dataContainer rec) s).customDataContainer
        = s.customDataContainer ++ insExt rec from hCc] at hpl
      rcases List.mem_append.mp hpl with h | h
      · exact hwf.2.2.2.2.2.2.1 pl h
      · unfold insExt at h
        rcases List.mem_append.mp h with h2 | h2
        · split at h2
          · rename_i hdv
            have hpe : pl = rec.defaultPayload := by simpa using h2
            rw [hpe]
            exact hdv
          · simp at h2
        · split at h2
          · rename_i hcv
            have hpe : pl = rec.customData := by simpa using h2
            rw [hpe]
            exact hcv
          · simp at h2
    · apply nodupB_of_nodup
      apply nodup_ownedIdxs_of_disj
      intro p q bp bq rp rq k hp hq h1 h2
      rw [show (appendDataInsert rec (lowerBoundIdx s.dataContainer rec) s).dataContainer
        = fixupRecords (s.customDataContainer ++ insExt rec)
          (insertAt (lowerBoundIdx s.dataContainer rec) (insRec s rec) s.dataContainer)
        from hdc, fixupRecords_getElemQ] at hp hq
      obtain ⟨rp0, hrp0, hfix1⟩ := Option.map_eq_some'.mp hp
      obtain ⟨rq0, hrq0, hfix2⟩ := Option.map_eq_some'.mp hq
      have hsp : slotIdx bp rp0 = some k := by
        rw [← hfix1] at h1
        cases bp <;> simpa [slotIdx] using h1
      have hsq : slotIdx bq rq0 = some k := by
        rw [← hfix2] at h2
        cases bq <;> simpa [slotIdx] using h2
      exact hdisjC p q bp bq rp0 rq0 k hrp0 hrq0 hsp hsq
  refine ⟨rfl, hwfN, ?_, rfl⟩
  rw [show (appendDataInsert rec (lowerBoundIdx s.dataContainer rec) s).dataContainer
    = fixupRecords (s.customDataContainer ++ insExt rec)
      (insertAt (lowerBoundIdx s.dataContainer rec) (insRec s rec) s.dataContainer)
    from hdc]
  exact hsig

/-- Every record of `s` finds an identical counterpart in `t` when `t`
covers `s`'s records, so the whole enumeration lands in the pending set. -/
theorem diff_pending_added (s t : RegistryState) (hwft : WF t)
    (hcover : ∀ (q : Nat) (fr : RegistryRecord), s.dataContainer[q]? = some fr →
      ∃ (sr : RegistryRecord) (q' : Nat),
        t.dataContainer[q']? = some sr ∧ idContent sr = idContent fr) :
    s.dataContainer.filterMap
      (fun fr =>
        match t.getRecordPtr fr.id with
        | some sr => if sr.hasIdenticalData fr then some fr.id else none
        | none => none) = s.dataContainer.map RegistryRecord.id := by
  apply filterMap_all_some
  intro fr hm
  obtain ⟨q, hq⟩ := List.mem_iff_getElem?.mp hm
  obtain ⟨sr, q', hq', hsig⟩ := hcover q fr hq
  have hid : sr.id = fr.id := congrArg Prod.fst hsig
  have hgp : t.getRecordPtr fr.id = some sr := by
    rw [← hid]
    exact wf_getRecordPtr_self hwft hq'
  rw [hgp]
  have hcnt : contentOf sr = contentOf fr := congrArg Prod.snd hsig
  obtain ⟨h1, h2, h3, h4⟩ := contentOf_fields hcnt
  simp [RegistryRecord.hasIdenticalData, h1, h2, h3, h4, viewIdentical_refl]

theorem diff_added_record (s : RegistryState) (rec : RegistryRecord) (hwf : WF s)
    (hnc : s.containsRecord rec.id = false) :
    (((s.appendData rec).2).diffRecords s).dataContainer.map idContent =
      [(rec.id, rec.sharedData, rec.assetPath,
        normalizeView rec.defaultPayload, normalizeView rec.customData)] := by
  obtain ⟨hflag, hwf', hsig', hck'⟩ := appendInsert_master s rec hwf hnc
  have hlen' : (s.appendData rec).2.dataContainer.length = s.dataContainer.length + 1 := by
    have hl := congrArg List.length hsig'
    simpa using hl
  by_cases hsE : s.dataContainer = []
  · have hh : s.hasRecords = false := by simp [RegistryState.hasRecords, hsE]
    unfold RegistryState.diffRecords
    rw [hh]
    simp only [Bool.and_false, Bool.false_eq_true, if_false]
    rw [hsig', hsE]
    rfl
  · have hh : s.hasRecords = true := by simp [RegistryState.hasRecords, hsE]
    have hne' : (s.appendData rec).2.dataContainer ≠ [] := by
      intro he
      rw [he] at hlen'
      simp at hlen'
    have hh' : (s.appendData rec).2.hasRecords = true := by
      simp [RegistryState.hasRecords, hne']
    have hgt : (s.appendData rec).2.getRecordsNum > s.getRecordsNum := by
      simp [RegistryState.getRecordsNum, hlen']
    have hcover : ∀ (q : Nat) (fr : RegistryRecord), s.dataContainer[q]? = some fr →
        ∃ (sr : RegistryRecord) (q' : Nat),
          (s.appendData rec).2.dataContainer[q']? = some sr ∧
          idContent sr = idContent fr := by
      intro q fr hq
      have hsq : (s.dataContainer.map idContent)[q]? = some (idContent fr) := by
        rw [List.getElem?_map, hq]
        rfl
      have key : ((s.appendData rec).2.dataContainer.map idContent)[
          if q < lowerBoundIdx s.dataContainer rec then q else q + 1]? =
          some (idContent fr) := by
        rw [hsig', insertAt_getElemQ _ _ _ _
          (by simpa using lowerBoundIdx_le s.dataContainer rec)]
        by_cases hql : q < lowerBoundIdx s.dataContainer rec
        · rw [if_pos hql, if_pos hql]
          exact hsq
        · rw [if_neg hql]
          have h1 : ¬ (q + 1 < lowerBoundIdx s.dataContainer rec) := by omega
          have h2 : ¬ (q + 1 = lowerBoundIdx s.dataContainer rec) := by omega
          rw [if_neg h1, if_neg h2]
          simpa using hsq
      rw [List.getElem?_map] at key
      obtain ⟨sr, hsr, hsig2⟩ := Option.map_eq_some'.mp key
      exact ⟨sr, _, hsr, hsig2⟩
    have hmemb : ∀ id ∈ s.dataContainer.map RegistryRecord.id,
        id ∈ (s.appendData rec).2.dataContainer.map RegistryRecord.id := by
      intro id hid
      have hids' : (s.appendData rec).2.dataContainer.map RegistryRecord.id =
          insertAt (lowerBoundIdx s.dataContainer rec) rec.id
            (s.dataContainer.map RegistryRecord.id) := by
        have h1 := congrArg (List.map Prod.fst) hsig'
        rw [map_fst_idContent, insertAt_map, map_fst_idContent] at h1
        simpa using h1
      rw [hids']
      exact (insertAt_mem _ _ _ _).mpr (Or.inr hid)
    unfold RegistryState.diffRecords
    rw [hh, hh']
    simp only [Bool.and_self, if_true, hck']
    rw [if_pos hgt, if_pos hgt]
    have hfast : (decide ((0:Nat) ≠ 0) && decide (s.checksum ≠ 0)) = false := by simp
    rw [hfast]
    simp only [Bool.false_eq_true, if_false]
    rw [diff_pending_added s (s.appendData rec).2 hwf' hcover]
    have hlenNe : ¬((s.dataContainer.map RegistryRecord.id).length =
        (s.appendData rec).2.getRecordsNum) := by
      simp [RegistryState.getRecordsNum, hlen']
    rw [if_neg hlenNe]
    obtain ⟨hwfF, hcntF⟩ := fold_removeData (s.dataContainer.map RegistryRecord.id)
      (s.appendData rec).2 hwf' (wf_ids_nodup hwf) hmemb
    rw [hcntF, hsig',
      insertAt_eq_take_drop _ _ _ (by simpa using lowerBoundIdx_le s.dataContainer rec),
      List.filter_append, List.filter_cons]
    have hnm : rec.id ∉ s.dataContainer.map RegistryRecord.id := by
      intro hm
      have hcm := (containsRecord_iff_mem hwf rec.id).mpr hm
      rw [hcm] at hnc
      simp at hnc
    have hkeep : (!((s.dataContainer.map RegistryRecord.id).contains
        (rec.id, rec.sharedData, rec.assetPath, normalizeView rec.defaultPayload,
          normalizeView rec.customData).1)) = true := by
      simpa using hnm
    rw [if_pos hkeep]
    have htf : ((s.dataContainer.map idContent).take
        (lowerBoundIdx s.dataContainer rec)).filter
        (fun sg => !((s.dataContainer.map RegistryRecord.id).contains sg.1)) = [] := by
      apply List.filter_eq_nil_iff.mpr
      intro a ha
      obtain ⟨r, hr, he⟩ := List.mem_map.mp (List.take_subset _ _ ha)
      simp
      exact ⟨r, hr, congrArg Prod.fst he⟩
    have hdf : ((s.dataContainer.map idContent).drop
        (lowerBoundIdx s.dataContainer rec)).filter
        (fun sg => !((s.dataContainer.map RegistryRecord.id).contains sg.1)) = [] := by
      apply List.filter_eq_nil_iff.mpr
      intro a ha
      obtain ⟨r, hr, he⟩ := List.mem_map.mp (List.drop_subset _ _ ha)
      simp
      exact ⟨r, hr, congrArg Prod.fst he⟩
    rw [htf, hdf]
    rfl

/-- C9. `DiffRecords` removes from the receiver every record that is
identical to its counterpart in the base state: diffing a well-formed
state against itself empties the record array (every record is pending,
so the receiver is `Reset` to empty), and diffing `S` plus one freshly
appended record against `S` removes every common record and leaves
exactly the added record (with the views the insert path stores). -/
theorem C9_diff_idempotence_difference :
    ∀ s : RegistryState, WF s →
      ((s.diffRecords s).dataContainer = [] ∧
       ∀ rec : RegistryRecord, s.containsRecord rec.id = false →
         (((s.appendData rec).2).diffRecords s).dataContainer.map idContent =
           [(rec.id, rec.sharedData, rec.assetPath,
             normalizeView rec.defaultPayload, normalizeView rec.customData)]) :=
  fun s hwf =>
    ⟨diff_self_empty s hwf, fun rec hnc => diff_added_record s rec hwf hnc⟩

/-- Witness for C9 at a concrete three-record state: `Diff(S, S)` is
empty, and adding a fresh record then diffing against the original state
leaves exactly that record. -/
theorem C9_witness :
    WF sampleState ∧
    (sampleState.diffRecords sampleState).dataContainer = [] ∧
    sampleState.containsRecord (sampleRecord 3 1 0 ⟨7, [5]⟩).id = false ∧
    (((sampleState.appendData (sampleRecord 3 1 0 ⟨7, [5]⟩)).2).diffRecords
        sampleState).dataContainer.map idContent =
      [((sampleRecord 3 1 0 ⟨7, [5]⟩).id, (sampleRecord 3 1 0 ⟨7, [5]⟩).sharedData,
        (sampleRecord 3 1 0 ⟨7, [5]⟩).assetPath,
        normalizeView (sampleRecord 3 1 0 ⟨7, [5]⟩).defaultPayload,
        normalizeView (sampleRecord 3 1 0 ⟨7, [5]⟩).customData)] :=
  ⟨by decide, (C9_diff_idempotence_difference sampleState (by decide)).1, by decide,
    (C9_diff_idempotence_difference sampleState (by decide)).2
      (sampleRecord 3 1 0 ⟨7, [5]⟩) (by decide)⟩

end CommonInv
